import Mathlib

/-!
# DimensionOS: memory management and scheduler core

A shallow embedding of `src/mm/pframe.cc`, `src/mm/heap.cc`, `src/lib/string.cc`,
`src/lib/spinlock.cc`, `src/lib/print.cc`, `src/sched.cc`, `src/arch/idt.cc`,
`src/arch/cpu.cc` and `src/arch/gdt.cc`.

Memory is a flat byte store indexed by address.  The kernel reaches physical
frames and page tables through their physical addresses (low memory is identity
mapped), so a pointer is simply the address it holds; the null pointer is
address 0 and a load or store through it is a load or store at that address.
Machine words are natural numbers reduced modulo `2 ^ 64` wherever the C++
arithmetic can wrap.
-/

namespace DimensionOS

/-! ## Byte store -/

/-- Byte-addressed memory: the byte held at every address. -/
abbrev Mem := Nat → Nat

/-- Load of one `u8`. -/
def read8 (m : Mem) (a : Nat) : Nat := m a % 256

/-- Store of one `u8` (the value is truncated to eight bits). -/
def write8 (m : Mem) (a v : Nat) : Mem := fun x => if x = a then v % 256 else m x

/-- Little-endian load of a `u64`. -/
def read64 (m : Mem) (a : Nat) : Nat :=
  read8 m a + 256 * (read8 m (a + 1) + 256 * (read8 m (a + 2) + 256 * (read8 m (a + 3) +
  256 * (read8 m (a + 4) + 256 * (read8 m (a + 5) + 256 * (read8 m (a + 6) +
  256 * read8 m (a + 7)))))))

/-- Little-endian store of a `u64`. -/
def write64 (m : Mem) (a v : Nat) : Mem :=
  fun x => if a ≤ x ∧ x < a + 8 then (v / 256 ^ (x - a)) % 256 else m x

/-! ## `lib/string.cc`: memset -/

/-- Source `LONG_MASK = sizeof (unsigned long) - 1` from `types.cc`. -/
def LONG_MASK : Nat := 7

/-- The alignment loop of `memset`:
`while ((size_t)dst & LONG_MASK) { *dst++ = val; len--; }`.
Returns the memory, `dst` and `len` at loop exit. -/
def memset_align : Nat → Mem → Nat → Nat → Nat → Mem × Nat × Nat
  | 0, m, dst, _, len => (m, dst, len)
  | fuel + 1, m, dst, val, len =>
    if dst &&& LONG_MASK ≠ 0 then
      memset_align fuel (write8 m dst val) ((dst + 1) % 2 ^ 64) val ((len + (2 ^ 64 - 1)) % 2 ^ 64)
    else (m, dst, len)

/-- The word loop of `memset`:
`while (len > sizeof(long)) { *ldst++ = lval; len -= sizeof(long); }`. -/
def memset_words : Nat → Mem → Nat → Nat → Nat → Mem × Nat × Nat
  | 0, m, ldst, _, len => (m, ldst, len)
  | fuel + 1, m, ldst, lval, len =>
    if len > 8 then memset_words fuel (write64 m ldst lval) ((ldst + 8) % 2 ^ 64) lval (len - 8)
    else (m, ldst, len)

/-- The tail loop of `memset`: `while (len--) *dst++ = val;`. -/
def memset_bytes : Nat → Mem → Nat → Nat → Mem
  | 0, m, _, _ => m
  | len + 1, m, dst, val => memset_bytes len (write8 m dst val) ((dst + 1) % 2 ^ 64) val

/-- Source `memset(dst, val, len)` of `lib/string.cc`; `len` is a `size_t`. -/
def memset (m : Mem) (dst val len : Nat) : Mem :=
  let lval := ((val &&& 0xFF) * ((2 ^ 64 - 1) / 255)) % 2 ^ 64
  if len ≥ 16 then
    let r1 := memset_align 8 m dst val len
    let r2 := memset_words r1.2.2 r1.1 r1.2.1 lval r1.2.2
    memset_bytes r2.2.2 r2.1 r2.2.1 val
  else memset_bytes len m dst val

/-! ## `mm/pframe.cc`: physical frame allocator -/

/-- Source `PAGE_SIZE` of `mm/pframe.cc`. -/
def PAGE_SIZE : Nat := 4096

/-- Source `HEAP_BASE` of `mm/pframe.cc`. -/
def HEAP_BASE : Nat := 0xFFFFFFFFF0002000

/-- The globals of `mm/pframe.cc` (`bitmap`, `bitmap_size`, `heap_base`), the
physical memory they point into, and the CR3 register read by
`get_current_page_dir`. -/
structure phys_state where
  mem : Mem
  bitmap : Nat
  bitmap_size : Nat
  heap_base : Nat
  cr3 : Nat

/-- Source `set_page(page)`: `bitmap[page / 8] |= (1 << (page % 8))`. -/
def set_page (s : phys_state) (page : Nat) : phys_state :=
  let a := (s.bitmap + page / 8) % 2 ^ 64
  { s with mem := write8 s.mem a (read8 s.mem a ||| (1 <<< (page % 8))) }

/-- Source `clear_page(page)`: `bitmap[page / 8] &= ~(1 << (page % 8))`. -/
def clear_page (s : phys_state) (page : Nat) : phys_state :=
  let a := (s.bitmap + page / 8) % 2 ^ 64
  { s with mem := write8 s.mem a (read8 s.mem a &&& (0xFF ^^^ (1 <<< (page % 8)))) }

/-- Source `phys_free_page(base)`: `clear_page(base / PAGE_SIZE)`. -/
def phys_free_page (s : phys_state) (base : Nat) : phys_state :=
  clear_page s (base / PAGE_SIZE)

/-- The loop of `phys_free_range`: `n` iterations are left and the counter is `i`. -/
def phys_free_range_loop (base : Nat) : Nat → Nat → phys_state → phys_state
  | 0, _, s => s
  | n + 1, i, s =>
    phys_free_range_loop base n (i + 1) (phys_free_page s ((base + i * PAGE_SIZE) % 2 ^ 64))

/-- Source `phys_free_range(base, size)`:
`for (i = 0; i < size; i++) phys_free_page(base + i * PAGE_SIZE);`. -/
def phys_free_range (s : phys_state) (base size : Nat) : phys_state :=
  phys_free_range_loop base size 0 s

/-- The scan of `phys_alloc_page`: `while (p < p_end && *p == 0xFF) p++;`. -/
def scan_bitmap : Nat → Mem → Nat → Nat → Nat
  | 0, _, p, _ => p
  | fuel + 1, m, p, p_end =>
    if p < p_end ∧ read8 m p = 0xFF then scan_bitmap fuel m (p + 1) p_end else p

/-- The bit scan of `phys_alloc_page`:
`for (i = 0; i < 8; i++) if (!(*p & (1 << i))) { ...; break; }`, started at bit `i`
with `n` bits left to look at. -/
def first_clear_bit (b : Nat) : Nat → Nat → Option Nat
  | 0, _ => none
  | n + 1, i => if b &&& (1 <<< i) = 0 then some i else first_clear_bit b n (i + 1)

/-- Source `phys_alloc_page(zeroed)`.  `none` is one of the two `panic` calls. -/
def phys_alloc_page (s : phys_state) (zeroed : Bool) : Option (Nat × phys_state) :=
  let p_end := (s.bitmap + s.bitmap_size) % 2 ^ 64
  let p := scan_bitmap s.bitmap_size s.mem s.bitmap p_end
  if p = p_end then none
  else
    match first_clear_bit (read8 s.mem p) 8 0 with
    | none => none
    | some i =>
      let pg := (((p - s.bitmap) * 8 + i) * PAGE_SIZE) % 2 ^ 64
      let s1 := set_page s (pg / PAGE_SIZE)
      if zeroed then some (pg, { s1 with mem := memset s1.mem pg 0 PAGE_SIZE })
      else some (pg, s1)

/-- Source `multiboot_mmap_entry` of `arch/simpleboot.cc` (the `reserved` word is not read). -/
structure multiboot_mmap_entry where
  base_addr : Nat
  length : Nat
  type : Nat

/-- Source `MULTIBOOT_MEMORY_AVAILABLE`. -/
def MULTIBOOT_MEMORY_AVAILABLE : Nat := 1

/-- The first loop of `phys_init_multiboot`: the running `available_memory` and
`biggest_part`. -/
def scan_mmap : List multiboot_mmap_entry → Nat × Option multiboot_mmap_entry →
    Nat × Option multiboot_mmap_entry
  | [], acc => acc
  | e :: es, (avail, big) =>
    if e.type = MULTIBOOT_MEMORY_AVAILABLE then
      scan_mmap es ((avail + e.length) % 2 ^ 64,
        match big with
        | none => some e
        | some b => if e.length > b.length then some e else some b)
    else scan_mmap es (avail, big)

/-- Source `phys_init_multiboot(mmap, count)` with the entries given as a list.  `none`
is a `panic` of one of the two allocations at its end, or the use of
`biggest_part` when the map has no available range. -/
def phys_init_multiboot (s : phys_state) (mmap : List multiboot_mmap_entry) :
    Option phys_state :=
  match scan_mmap mmap (0, none) with
  | (_, none) => none
  | (available_memory, some biggest_part) =>
    let bitmap := (biggest_part.base_addr + 0x100000) % 2 ^ 64
    let bitmap_size := available_memory / PAGE_SIZE / 8
    let base1 := (biggest_part.base_addr + (bitmap_size + 0x100000)) % 2 ^ 64
    let s1 : phys_state :=
      { s with bitmap := bitmap, bitmap_size := bitmap_size,
               mem := memset s.mem bitmap 0xFF bitmap_size }
    let base2 := if base1 < 0x200000 then 0x200000 else base1
    let s2 := phys_free_range s1 base2 biggest_part.length
    match phys_alloc_page s2 true with
    | none => none
    | some (_, s3) =>
      match phys_alloc_page s3 true with
      | none => none
      | some (_, s4) => some s4

/-! ## `mm/pframe.cc`: four-level paging -/

/-- Source `PGADDR_MASK = ~0xFFF`, an `int` that is sign-extended to 64 bits where it
meets a `u64`. -/
def PGADDR_MASK : Nat := 0xFFFFFFFFFFFFF000

/-- Source `PT_PRESENT`. -/
def PT_PRESENT : Nat := 1 <<< 0
/-- Source `PT_RW`. -/
def PT_RW : Nat := 1 <<< 1
/-- Source `PT_USER`. -/
def PT_USER : Nat := 1 <<< 2
/-- Source `PT_PSE`. -/
def PT_PSE : Nat := 1 <<< 7
/-- Source `PT_PAT`. -/
def PT_PAT : Nat := 1 <<< 12

/-- Source `indexer_t`: the four table indices of a virtual address. -/
structure indexer_t where
  p4_idx : Nat
  p3_idx : Nat
  p2_idx : Nat
  p1_idx : Nat

/-- The constructor `indexer_t(virt_addr)`. -/
def indexer (virt_addr : Nat) : indexer_t :=
  { p4_idx := (virt_addr >>> 39) &&& 0x1FF
    p3_idx := (virt_addr >>> 30) &&& 0x1FF
    p2_idx := (virt_addr >>> 21) &&& 0x1FF
    p1_idx := (virt_addr >>> 12) &&& 0x1FF }

/-- Bit-field `present` of a `pte_t` (bit 0). -/
def pte_present (e : Nat) : Bool := e.testBit 0

/-- Bit-field `huge_page` of a `pte_t` (bit 7). -/
def pte_huge_page (e : Nat) : Bool := e.testBit 7

/-- Assignment of `b` to the one-bit field at position `bit` of a 64-bit entry. -/
def pte_assign (e bit : Nat) (b : Bool) : Nat :=
  if b then e ||| (1 <<< bit) else e &&& (0xFFFFFFFFFFFFFFFF ^^^ (1 <<< bit))

/-- Address of `table[index]` for a `pte_t *table`. -/
def pte_addr (table index : Nat) : Nat := (table + 8 * index) % 2 ^ 64

/-- Source `get_table(table, index, flags)`; `flags` arrives as an `int`.  `none` is a
`panic` of `phys_alloc_page`. -/
def get_table (s : phys_state) (table index flags : Nat) : Option (Nat × phys_state) :=
  let a := pte_addr table index
  if pte_present (read64 s.mem a) then some (read64 s.mem a &&& PGADDR_MASK, s)
  else
    match phys_alloc_page s true with
    | none => none
    | some (pg, s1) =>
      let m1 := write64 s1.mem a pg
      let m2 := write64 m1 a (pte_assign (read64 m1 a) 0 true)
      let m3 := write64 m2 a (pte_assign (read64 m2 a) 1 (decide ((flags % 2 ^ 32) &&& PT_RW ≠ 0)))
      let m4 := write64 m3 a (pte_assign (read64 m3 a) 2 (decide ((flags % 2 ^ 32) &&& PT_USER ≠ 0)))
      some (read64 m4 a &&& PGADDR_MASK, { s1 with mem := m4 })

/-- Source `map_page(dir, phys_addr, virt_addr, flags)`.  `none` is a `panic` of the
frame allocator. -/
def map_page (s : phys_state) (dir phys_addr virt_addr flags : Nat) : Option phys_state :=
  let ix := indexer virt_addr
  match get_table s dir ix.p4_idx flags with
  | none => none
  | some (p3, s1) =>
    match get_table s1 p3 ix.p3_idx flags with
    | none => none
    | some (p2, s2) =>
      match get_table s2 p2 ix.p2_idx flags with
      | none => none
      | some (p1, s3) =>
        let a1 := pte_addr p1 ix.p1_idx
        some { s3 with mem := write64 s3.mem a1 ((phys_addr &&& PGADDR_MASK) ||| flags) }

/-- Source `unmap_page(dir, virt_addr)`. -/
def unmap_page (s : phys_state) (dir virt_addr : Nat) : phys_state :=
  let ix := indexer virt_addr
  let a4 := pte_addr dir ix.p4_idx
  if !pte_present (read64 s.mem a4) then s
  else
    let a3 := pte_addr (read64 s.mem a4 &&& PGADDR_MASK) ix.p3_idx
    if !pte_present (read64 s.mem a3) then s
    else
      let a2 := pte_addr (read64 s.mem a3 &&& PGADDR_MASK) ix.p2_idx
      if !pte_present (read64 s.mem a2) then s
      else if pte_huge_page (read64 s.mem a2) then
        { s with mem := write64 s.mem a2 (pte_assign (read64 s.mem a2) 0 false) }
      else
        let a1 := pte_addr (read64 s.mem a2 &&& PGADDR_MASK) ix.p1_idx
        if !pte_present (read64 s.mem a1) then s
        else { s with mem := write64 s.mem a1 (pte_assign (read64 s.mem a1) 0 false) }

/-- The value `-1` that `virt_to_phys` returns as a `physaddr_t` for an address
that is not mapped. -/
def NotMapped : Nat := 2 ^ 64 - 1

/-- Source `virt_to_phys(dir, virt_addr)`. -/
def virt_to_phys (s : phys_state) (dir virt_addr : Nat) : Nat :=
  let ix := indexer virt_addr
  let a4 := pte_addr dir ix.p4_idx
  if !pte_present (read64 s.mem a4) then NotMapped
  else
    let a3 := pte_addr (read64 s.mem a4 &&& PGADDR_MASK) ix.p3_idx
    if !pte_present (read64 s.mem a3) then NotMapped
    else
      let a2 := pte_addr (read64 s.mem a3 &&& PGADDR_MASK) ix.p2_idx
      if !pte_present (read64 s.mem a2) then NotMapped
      else if pte_huge_page (read64 s.mem a2) then read64 s.mem a2 &&& PGADDR_MASK
      else
        let a1 := pte_addr (read64 s.mem a2 &&& PGADDR_MASK) ix.p1_idx
        if !pte_present (read64 s.mem a1) then NotMapped
        else read64 s.mem a1 &&& PGADDR_MASK

/-- Source `heap_request_page()`: returns the virtual address handed out.  `none` is a
`panic` of the frame allocator. -/
def heap_request_page (s : phys_state) : Option (Nat × phys_state) :=
  match phys_alloc_page s true with
  | none => none
  | some (page, s1) =>
    let ret := s1.heap_base
    let s2 := { s1 with heap_base := HEAP_BASE }
    match map_page s2 s2.cr3 page s2.heap_base (PT_PRESENT ||| PT_RW) with
    | none => none
    | some s3 => some (ret, { s3 with heap_base := (s3.heap_base + PAGE_SIZE) % 2 ^ 64 })

/-! ## `mm/heap.cc`: kernel heap

The heap is read and written through virtual addresses; `heap_state.mem` holds
the bytes seen at those addresses.  Address translation is not part of this
store: it answers for every address, whether or not a page has been mapped
there.  Which addresses the kernel can reach is decided by the page tables of
`mm/pframe.cc` (`virt_to_phys`): a load or store of the functions below at an
address that is not mapped is a page fault in the kernel, and the results given
here are those of the code for the calls whose loads and stores all reach
mapped pages.

Layout of `heap_header`: `length` at offset 0, `next` at 8, `last` at 16,
`is_free` (one byte) at 24; `sizeof(heap_header_t)` is 32. -/

/-- Source `ROUND_NUM` of `mm/heap.cc`. -/
def ROUND_NUM : Nat := 10

/-- Source `sizeof(heap_header_t)`. -/
def HEADER_SIZE : Nat := 32

/-- Subtraction of two `unsigned long` values. -/
def sub64 (a b : Nat) : Nat := (a % 2 ^ 64 + (2 ^ 64 - b % 2 ^ 64)) % 2 ^ 64

/-- Source `hdr->length`. -/
def hdr_length (m : Mem) (hdr : Nat) : Nat := read64 m hdr
/-- Source `hdr->next`. -/
def hdr_next (m : Mem) (hdr : Nat) : Nat := read64 m (hdr + 8)
/-- Source `hdr->last`. -/
def hdr_last (m : Mem) (hdr : Nat) : Nat := read64 m (hdr + 16)
/-- Source `hdr->is_free`. -/
def hdr_is_free (m : Mem) (hdr : Nat) : Bool := decide (read8 m (hdr + 24) ≠ 0)

/-- The statics of `mm/heap.cc` and the bytes at the virtual addresses of the
heap (see the note on address translation above).  `kmalloc_lock` is the lock
word `locked` of the spinlock. -/
structure heap_state where
  mem : Mem
  last_header : Nat
  heap_start : Nat
  heap_end : Nat
  heap_address : Nat
  kmalloc_lock : Nat

/-- Source `spinlock_t::lock()` of `lib/spinlock.cc`: `expected` is set to 0 and then
compared with 0, so the loop is left in its first round and the lock word is
not written. -/
def spinlock_lock (s : heap_state) : heap_state := s

/-- Source `spinlock_t::release()`: `locked = 0`. -/
def spinlock_release (s : heap_state) : heap_state := { s with kmalloc_lock := 0 }

/-- Source `heap_header::split(size)` called on the header at `this`: the memory after
the call and the returned pointer (0 for `nullptr`). -/
def split (m : Mem) (this size : Nat) : Nat × Mem :=
  if size < ROUND_NUM then (0, m)
  else
    let split_length := sub64 (sub64 (hdr_length m this) size) HEADER_SIZE
    if split_length < ROUND_NUM then (0, m)
    else
      let header := (this + size + HEADER_SIZE) % 2 ^ 64
      let m1 := write64 m (hdr_next m this + 16) header
      let m2 := write64 m1 (header + 8) (hdr_next m1 this)
      let m3 := write64 m2 (this + 8) header
      let m4 := write64 m3 (header + 16) this
      let m5 := write64 m4 header split_length
      let m6 := write8 m5 (header + 24) 1
      let m7 := write64 m6 this size
      let m8 := if hdr_last m7 this = this then write64 m7 (this + 16) header else m7
      (header, m8)

/-- Rounding of a request up to a multiple of `ROUND_NUM`, as done at the top of
`kmalloc` and `expand_heap`. -/
def round_size (size : Nat) : Nat :=
  if size % ROUND_NUM ≠ 0 then (sub64 size (size % ROUND_NUM) + ROUND_NUM) % 2 ^ 64 else size

/-- The `while (true)` loop of `kmalloc`, started at header `hdr`, with the lock
taken.  The loop has no exit other than the two `goto finish`; `none` means that
it has not reached one within `fuel` rounds.  The pointer returned is
`hdr + sizeof(heap_header_t)` computed on a `heap_header_t *`, that is
`sizeof(heap_header_t)` headers past `hdr`. -/
def kmalloc_loop : Nat → heap_state → Nat → Nat → Option (Nat × heap_state)
  | 0, _, _, _ => none
  | fuel + 1, s, size, hdr =>
    if hdr_is_free s.mem hdr then
      if hdr_length s.mem hdr > size then
        let m1 := (split s.mem hdr size).2
        let m2 := write8 m1 (hdr + 24) 0
        some ((hdr + HEADER_SIZE * HEADER_SIZE) % 2 ^ 64, spinlock_release { s with mem := m2 })
      else if hdr_length s.mem hdr = size then
        let m2 := write8 s.mem (hdr + 24) 0
        some ((hdr + HEADER_SIZE * HEADER_SIZE) % 2 ^ 64, spinlock_release { s with mem := m2 })
      else kmalloc_loop fuel s size (hdr_next s.mem hdr)
    else kmalloc_loop fuel s size (hdr_next s.mem hdr)

/-- Source `kmalloc(size)`: the returned pointer (0 for `nullptr`) and the heap after
the call; `none` when the block search has not finished within `fuel` rounds.
The statements after the loop (`expand_heap` and the retry) cannot be reached. -/
def kmalloc (fuel : Nat) (s : heap_state) (size : Nat) : Option (Nat × heap_state) :=
  if size = 0 then some (0, s)
  else kmalloc_loop fuel (spinlock_lock s) (round_size size) s.heap_start

/-- Source `combine_forward(hdr)`. -/
def combine_forward (s : heap_state) (hdr : Nat) : heap_state :=
  if hdr_next s.mem hdr = 0 ∨ !hdr_is_free s.mem (hdr_next s.mem hdr) then s
  else
    let last_header := if hdr_next s.mem hdr = s.last_header then hdr else s.last_header
    let m1 := write64 s.mem (hdr + 8) (hdr_next s.mem (hdr_next s.mem hdr))
    let m2 := write64 m1 hdr
      ((hdr_length m1 hdr + hdr_length m1 (hdr_next m1 hdr) + HEADER_SIZE) % 2 ^ 64)
    { s with mem := m2, last_header := last_header }

/-- Source `combine_backward(hdr)`. -/
def combine_backward (s : heap_state) (hdr : Nat) : heap_state :=
  if hdr_last s.mem hdr ≠ 0 ∧ hdr_is_free s.mem (hdr_last s.mem hdr) then
    combine_forward s (hdr_last s.mem hdr)
  else s

/-- Source `kfree(ptr)`. -/
def kfree (s : heap_state) (ptr : Nat) : heap_state :=
  let header := sub64 ptr HEADER_SIZE
  let s1 := spinlock_lock s
  let s2 := { s1 with mem := write8 s1.mem (header + 24) 1 }
  let s3 := combine_forward s2 header
  let s4 := combine_backward s3 header
  spinlock_release s4

/-- The page loop of `expand_heap`: one frame is allocated and mapped at
`heap_end` per round. -/
def expand_heap_pages : Nat → phys_state → heap_state → Option (phys_state × heap_state)
  | 0, p, s => some (p, s)
  | n + 1, p, s =>
    match phys_alloc_page p true with
    | none => none
    | some (page, p1) =>
      match map_page p1 p1.cr3 page s.heap_end (PT_PRESENT ||| PT_RW) with
      | none => none
      | some p2 =>
        expand_heap_pages n p2 { s with heap_end := (s.heap_end + PAGE_SIZE) % 2 ^ 64 }

/-- Source `expand_heap(size)`.  `none` is a `panic` of the frame allocator. -/
def expand_heap (p : phys_state) (s : heap_state) (size : Nat) :
    Option (phys_state × heap_state) :=
  let s0 := spinlock_lock s
  let size := round_size size
  let pages := size / PAGE_SIZE
  let header := s0.heap_end
  match expand_heap_pages pages p s0 with
  | none => none
  | some (p1, s1) =>
    let m1 := write8 s1.mem (header + 24) 1
    let m2 := write64 m1 (header + 16) s1.last_header
    let m3 := write64 m2 (s1.last_header + 8) header
    let m4 := write64 m3 (header + 8) 0
    let m5 := write64 m4 header (sub64 size HEADER_SIZE)
    let s2 := { s1 with mem := m5, last_header := header }
    some (p1, spinlock_release (combine_backward s2 header))

/-- The page loop of `init_kmalloc`:
`for (i = 0; i < pages - i; i++) { map a fresh frame at iter; iter += PAGE_SIZE; }`.
The counter `i` never passes `pages`, so `fuel = pages` rounds are enough. -/
def init_kmalloc_pages : Nat → Nat → Nat → phys_state → Nat → Option phys_state
  | 0, _, _, p, _ => some p
  | fuel + 1, pages, i, p, iter =>
    if i < sub64 pages i then
      match phys_alloc_page p true with
      | none => none
      | some (frame, p1) =>
        match map_page p1 p1.cr3 frame iter (PT_PRESENT ||| PT_RW) with
        | none => none
        | some p2 => init_kmalloc_pages fuel pages (i + 1) p2 ((iter + PAGE_SIZE) % 2 ^ 64)
    else some p

/-- The tail of `init_kmalloc`: the statics and the start header written once
the pages are mapped; `nu` is the address returned by `heap_request_page`. -/
def init_kmalloc_header (s : heap_state) (nu pages : Nat) : heap_state :=
  let length := (pages * PAGE_SIZE) % 2 ^ 64
  let m1 := write64 s.mem nu (sub64 length HEADER_SIZE)
  let m2 := write64 m1 (nu + 8) 0
  let m3 := write64 m2 (nu + 16) 0
  let m4 := write8 m3 (nu + 24) 1
  { s with mem := m4, heap_address := nu, heap_start := nu,
           heap_end := (nu + length) % 2 ^ 64, last_header := nu }

/-- Source `init_kmalloc(pages)`.  `none` is a `panic` (of the frame allocator, or the
one for a null first page). -/
def init_kmalloc (p : phys_state) (s : heap_state) (pages : Nat) :
    Option (phys_state × heap_state) :=
  match heap_request_page p with
  | none => none
  | some (nu, p1) =>
    if nu = 0 then none
    else
      match init_kmalloc_pages pages pages 0 p1 nu with
      | none => none
      | some p2 => some (p2, init_kmalloc_header s nu pages)

/-! ## `sched.cc`: tasks and the scheduler

Task control blocks are kept as typed records, one per address of a `task_t`
object; two different addresses are two different objects. -/

/-- Source `task_state_t`. -/
inductive task_state_t where
  | TASK_READY
  | TASK_RUNNING
  | TASK_BLOCKED
  | TASK_TERMINATED
  deriving DecidableEq, Repr

/-- Source `task_context_t`; the segment selectors are 16-bit fields. -/
structure task_context_t where
  rax : Nat
  rbx : Nat
  rcx : Nat
  rdx : Nat
  rsi : Nat
  rdi : Nat
  rbp : Nat
  rsp : Nat
  r8 : Nat
  r9 : Nat
  r10 : Nat
  r11 : Nat
  r12 : Nat
  r13 : Nat
  r14 : Nat
  r15 : Nat
  rip : Nat
  rflags : Nat
  cs : Nat
  ss : Nat
  ds : Nat
  es : Nat
  fs : Nat
  gs : Nat
  padding : Nat
  deriving DecidableEq, Repr

/-- Source `task_t`. -/
structure task_t where
  pid : Nat
  state : task_state_t
  context : task_context_t
  stack_base : Nat
  stack_size : Nat
  next : Nat
  deriving DecidableEq, Repr

/-- Source `arch::cpu_register_state` of `arch/idt.cc`. -/
structure cpu_register_state where
  r15 : Nat
  r14 : Nat
  r13 : Nat
  r12 : Nat
  r11 : Nat
  r10 : Nat
  r9 : Nat
  r8 : Nat
  rdi : Nat
  rsi : Nat
  rbp : Nat
  rdx : Nat
  rcx : Nat
  rbx : Nat
  rax : Nat
  deriving DecidableEq, Repr

/-- Source `arch::interrupt_context` of `arch/idt.cc`; all fields are `u64`. -/
structure interrupt_context where
  regs : cpu_register_state
  int_no : Nat
  err : Nat
  rip : Nat
  cs : Nat
  rflags : Nat
  rsp : Nat
  ss : Nat
  deriving DecidableEq, Repr

/-- A `task_context_t` whose bytes are all zero. -/
def zero_context : task_context_t :=
  { rax := 0, rbx := 0, rcx := 0, rdx := 0, rsi := 0, rdi := 0, rbp := 0, rsp := 0,
    r8 := 0, r9 := 0, r10 := 0, r11 := 0, r12 := 0, r13 := 0, r14 := 0, r15 := 0,
    rip := 0, rflags := 0, cs := 0, ss := 0, ds := 0, es := 0, fs := 0, gs := 0,
    padding := 0 }

/-- A `task_t` whose bytes are all zero, as left by `memset(task, 0, sizeof(task_t))`;
`TASK_READY` is the enumerator 0. -/
def zero_task : task_t :=
  { pid := 0, state := task_state_t.TASK_READY, context := zero_context,
    stack_base := 0, stack_size := 0, next := 0 }

/-- The globals of `sched.cc` and the `task_t` object at every address. -/
structure sched_state where
  tasks : Nat → task_t
  current_task : Nat
  task_queue : Nat
  next_pid : Nat
  scheduler_ready : Bool

/-- Store of a whole `task_t` object at address `p`. -/
def set_task (tasks : Nat → task_t) (p : Nat) (t : task_t) : Nat → task_t :=
  fun q => if q = p then t else tasks q

/-- Source `init_kernel_task(task)`. -/
def init_kernel_task (s : sched_state) (task : Nat) : sched_state :=
  if task = 0 then s
  else if task < 0x1000 then s
  else
    let t : task_t :=
      { zero_task with
        pid := 0, state := task_state_t.TASK_RUNNING, stack_base := 0, stack_size := 0,
        next := task,
        context := { zero_context with
          rflags := 0x202, cs := 0x08, ss := 0x10, ds := 0x10, es := 0x10, fs := 0x10,
          gs := 0x10 } }
    { s with tasks := set_task s.tasks task t, task_queue := task }

/-- The tail search of `create_task`:
`while (last->next != task_queue) last = last->next;`.  `none` means that the
loop has not ended within `fuel` rounds. -/
def find_last : Nat → (Nat → task_t) → Nat → Nat → Option Nat
  | 0, _, _, _ => none
  | fuel + 1, tasks, task_queue, last =>
    if (tasks last).next ≠ task_queue then find_last fuel tasks task_queue (tasks last).next
    else some last

/-- Source `create_task(entry_point, user_stack, stack_size)`, where `task` is the
pointer that `mm::kmalloc(sizeof(task_t))` returned to it.  The result is the
returned pointer and the new state; `none` means that the tail search has not
ended within `fuel` rounds. -/
def create_task (fuel : Nat) (s : sched_state) (task entry_point user_stack stack_size : Nat) :
    Option (Nat × sched_state) :=
  if task = 0 then some (0, s)
  else
    let t : task_t :=
      { zero_task with
        pid := s.next_pid, state := task_state_t.TASK_READY,
        stack_base := user_stack, stack_size := stack_size,
        context := { zero_context with
          rax := 0xDEADBEEF, rip := entry_point,
          rsp := sub64 ((user_stack + stack_size) % 2 ^ 64) 16,
          rflags := 0x202, cs := 0x08, ss := 0x10, ds := 0x10, es := 0x10, fs := 0x10,
          gs := 0x10 } }
    let s1 := { s with tasks := set_task s.tasks task t, next_pid := (s.next_pid + 1) % 2 ^ 32 }
    if s1.task_queue = 0 then
      some (task, { s1 with
        tasks := set_task s1.tasks task { s1.tasks task with next := task },
        task_queue := task })
    else
      match find_last fuel s1.tasks s1.task_queue s1.task_queue with
      | none => none
      | some last =>
        let tasks2 := set_task s1.tasks task { s1.tasks task with next := s1.task_queue }
        let tasks3 := set_task tasks2 last { tasks2 last with next := task }
        some (task, { s1 with tasks := tasks3 })

/-- Source `save_interrupt_context(int_ctx, task_ctx)`: the task context after the call. -/
def save_interrupt_context (int_ctx : interrupt_context) (task_ctx : task_context_t) :
    task_context_t :=
  { task_ctx with
    rax := int_ctx.regs.rax, rbx := int_ctx.regs.rbx, rcx := int_ctx.regs.rcx,
    rdx := int_ctx.regs.rdx, rsi := int_ctx.regs.rsi, rdi := int_ctx.regs.rdi,
    rbp := int_ctx.regs.rbp, r8 := int_ctx.regs.r8, r9 := int_ctx.regs.r9,
    r10 := int_ctx.regs.r10, r11 := int_ctx.regs.r11, r12 := int_ctx.regs.r12,
    r13 := int_ctx.regs.r13, r14 := int_ctx.regs.r14, r15 := int_ctx.regs.r15,
    rip := int_ctx.rip, rsp := int_ctx.rsp, rflags := int_ctx.rflags,
    cs := int_ctx.cs % 2 ^ 16, ss := int_ctx.ss % 2 ^ 16 }

/-- Source `restore_interrupt_context(task_ctx, int_ctx)`: the interrupt frame after the
call. -/
def restore_interrupt_context (task_ctx : task_context_t) (int_ctx : interrupt_context) :
    interrupt_context :=
  { int_ctx with
    regs := { int_ctx.regs with
      rax := task_ctx.rax, rbx := task_ctx.rbx, rcx := task_ctx.rcx, rdx := task_ctx.rdx,
      rsi := task_ctx.rsi, rdi := task_ctx.rdi, rbp := task_ctx.rbp, r8 := task_ctx.r8,
      r9 := task_ctx.r9, r10 := task_ctx.r10, r11 := task_ctx.r11, r12 := task_ctx.r12,
      r13 := task_ctx.r13, r14 := task_ctx.r14, r15 := task_ctx.r15 },
    rip := task_ctx.rip, rsp := task_ctx.rsp, rflags := task_ctx.rflags,
    cs := task_ctx.cs, ss := task_ctx.ss }

/-- Source `schedule()` up to the call of the assembly routine `switch_context`. -/
def schedule (s : sched_state) : sched_state :=
  if s.current_task = 0 ∨ s.task_queue = 0 then s
  else
    let next0 := (s.tasks s.current_task).next
    let next_task := if next0 = 0 then s.task_queue else next0
    if next_task ≠ s.current_task ∧ (s.tasks next_task).state = task_state_t.TASK_READY then
      let prev_task := s.current_task
      let tasks1 := set_task s.tasks prev_task
        { s.tasks prev_task with state := task_state_t.TASK_READY }
      let tasks2 := set_task tasks1 next_task
        { tasks1 next_task with state := task_state_t.TASK_RUNNING }
      { s with tasks := tasks2, current_task := next_task }
    else s

/-- Source `schedule_from_interrupt(ctx)`: the scheduler state and the interrupt frame
after the call. -/
def schedule_from_interrupt (s : sched_state) (ctx : interrupt_context) :
    sched_state × interrupt_context :=
  if !s.scheduler_ready then (s, ctx)
  else if s.current_task = 0 then (s, ctx)
  else if s.task_queue = 0 then (s, ctx)
  else
    let next0 := (s.tasks s.current_task).next
    let next_task := if next0 = 0 then s.task_queue else next0
    if next_task = 0 then (s, ctx)
    else if next_task ≠ s.current_task ∧
        (s.tasks next_task).state = task_state_t.TASK_READY then
      let cur := s.current_task
      let tasks1 := set_task s.tasks cur
        { s.tasks cur with context := save_interrupt_context ctx (s.tasks cur).context }
      let tasks2 := set_task tasks1 cur { tasks1 cur with state := task_state_t.TASK_READY }
      let tasks3 := set_task tasks2 next_task
        { tasks2 next_task with state := task_state_t.TASK_RUNNING }
      let tasks4 :=
        if (tasks3 next_task).context.rax = 0xDEADBEEF then
          set_task tasks3 next_task
            { tasks3 next_task with context := { (tasks3 next_task).context with rax := 0 } }
        else tasks3
      ({ s with tasks := tasks4, current_task := next_task },
        restore_interrupt_context (tasks4 next_task).context ctx)
    else (s, ctx)

/-- Source `set_current_task(task)`. -/
def set_current_task (s : sched_state) (task : Nat) : sched_state :=
  if task = 0 then s
  else
    { s with current_task := task,
             tasks := set_task s.tasks task { s.tasks task with state := task_state_t.TASK_RUNNING } }

/-- Source `start_scheduler()`. -/
def start_scheduler (s : sched_state) : sched_state :=
  if s.current_task = 0 ∨ s.task_queue = 0 then s
  else { s with scheduler_ready := true }

/-! ## `lib/string.cc`: strlen and strcmp

Signed machine integers are kept as their two's complement bits: an `int` is a
natural number below `2 ^ 32`, an `i64` one below `2 ^ 64`. -/

/-- Conversion of an `int` to a 64-bit type (sign extension). -/
def sext32 (i : Nat) : Nat := if i < 2 ^ 31 then i else i + (2 ^ 64 - 2 ^ 32)

/-- Promotion of a `char` (a signed type on x86-64) to a 64-bit signed value. -/
def sext8 (b : Nat) : Nat := if b < 2 ^ 7 then b else b + (2 ^ 64 - 2 ^ 8)

/-- Signed comparison `a < b` of two `i64` values. -/
def slt64 (a b : Nat) : Bool := decide ((a + 2 ^ 63) % 2 ^ 64 < (b + 2 ^ 63) % 2 ^ 64)

/-- The loop of `strlen`: `while (str[i] != 0) i++;` with `int i`; `none` means
that no NUL byte has been met within `fuel` rounds. -/
def strlen_loop : Nat → Mem → Nat → Nat → Option Nat
  | 0, _, _, _ => none
  | fuel + 1, m, str, i =>
    if read8 m ((str + sext32 i) % 2 ^ 64) ≠ 0 then strlen_loop fuel m str ((i + 1) % 2 ^ 32)
    else some i

/-- Source `strlen(str)`: the `int` counter is returned as a `u64`. -/
def strlen (fuel : Nat) (m : Mem) (str : Nat) : Option Nat :=
  (strlen_loop fuel m str 0).map sext32

/-- The loop of `strcmp`:
`for (int i = 0; i < len1; i++) if (s1[i] != s2[i]) return s2[i] - s1[i];`
followed by `return 0`. -/
def strcmp_loop : Nat → Mem → Nat → Nat → Nat → Nat → Option Nat
  | 0, _, _, _, _, _ => none
  | fuel + 1, m, s1, s2, len1, i =>
    if slt64 (sext32 i) len1 then
      if read8 m ((s1 + sext32 i) % 2 ^ 64) ≠ read8 m ((s2 + sext32 i) % 2 ^ 64) then
        some (sub64 (sext8 (read8 m ((s2 + sext32 i) % 2 ^ 64)))
          (sext8 (read8 m ((s1 + sext32 i) % 2 ^ 64))))
      else strcmp_loop fuel m s1 s2 len1 ((i + 1) % 2 ^ 32)
    else some 0

/-- Source `strcmp(s1, s2)`: the `i64` returned; `none` means that one of the loops has
not ended within `fuel` rounds. -/
def strcmp (fuel : Nat) (m : Mem) (s1 s2 : Nat) : Option Nat :=
  match strlen fuel m s1 with
  | none => none
  | some len1 =>
    match strlen fuel m s2 with
    | none => none
    | some len2 =>
      let diff := sub64 len2 len1
      if diff ≠ 0 then some diff else strcmp_loop fuel m s1 s2 len1 0

/-! ## `arch/idt.cc`, `arch/cpu.cc` and `lib/print.cc`: the interrupt descriptor
table, the dispatch of interrupts and the stack trace -/

/-- Source `idt_entry_t`: `offset_lo`, `selector` and `offset_mid` are `u16`, `ist`
and `type_attr` are `u8`, `offset_hi` and `zero` are `u32`. -/
structure idt_entry_t where
  offset_lo : Nat
  selector : Nat
  ist : Nat
  type_attr : Nat
  offset_mid : Nat
  offset_hi : Nat
  zero : Nat
  deriving DecidableEq, Repr

/-- The statics of `arch/idt.cc`: the array `idt_table`, the register loaded by
`lidt` (`size` and `address` of `idt_ptr`) and the memory that holds the array
`callbacks`. -/
structure idt_state where
  idt_table : Nat → idt_entry_t
  idtr_size : Nat
  idtr_address : Nat
  mem : Mem

/-- Source `register_interrupt_handler(vec, handler, ist, type)`: the array
`idt_table` after the call. -/
def register_interrupt_handler (idt_table : Nat → idt_entry_t) (vec handler ist type : Nat) :
    Nat → idt_entry_t :=
  let p := handler % 2 ^ 64
  fun i =>
    if i = vec then
      { offset_lo := p % 2 ^ 16, selector := 0x08, ist := ist % 2 ^ 8,
        type_attr := type % 2 ^ 8, offset_mid := (p >>> 16) % 2 ^ 16,
        offset_hi := (p >>> 32) % 2 ^ 32, zero := 0 }
    else idt_table i

/-- The loop of `init_idt`:
`for (i = 0; i < 256; i++) register_interrupt_handler(i, handlers[i], 0, 0x8e);`
from index `i` on.  The table `handlers` of the stub addresses comes from the
header `idt_handlers.h`. -/
def init_idt_loop (handlers : Nat → Nat) : Nat → Nat → (Nat → idt_entry_t) → (Nat → idt_entry_t)
  | 0, _, idt_table => idt_table
  | fuel + 1, i, idt_table =>
    if i < 256 then
      init_idt_loop handlers fuel (i + 1)
        (register_interrupt_handler idt_table i (handlers i) 0 0x8e)
    else idt_table

/-- Source `init_idt()`; `idt_table_addr` and `callbacks` are the addresses of the
two arrays, `sizeof(idt_table)` is `256 * 16` and `sizeof(callbacks)` is
`256 * 8`. -/
def init_idt (handlers : Nat → Nat) (idt_table_addr callbacks : Nat) (s : idt_state) :
    idt_state :=
  { idt_table := init_idt_loop handlers 256 0 s.idt_table,
    idtr_size := (256 * 16 - 1) % 2 ^ 16,
    idtr_address := idt_table_addr % 2 ^ 64,
    mem := memset s.mem callbacks 0 (256 * 8) }

/-- Source `arch::halt_cpu()` of `arch/cpu.cc`: `while (true) hlt;`.  The loop has no
exit; `none` means that the call has not returned within `fuel` rounds. -/
def halt_cpu : Nat → Option Unit
  | 0 => none
  | fuel + 1 => halt_cpu fuel

/-- The lines that `handle_interrupt` and `debug::print_stacktrace` send to the
console with `printk`: `Interrupt %i: %s | CR2: 0x%x` with its interrupt number
and `cr2`, `Stack trace:`, `  RIP: 0x%0llx`, `  RBP: 0x%0llx` and
`End of stack trace.`.  A call of `printk` is the line it prints; the wait of
`write_serial` for the serial port is not part of the model. -/
inductive console_event where
  | interrupt_line (int_no cr2 : Nat)
  | stack_trace_begin
  | rip_line (rip : Nat)
  | rbp_line (rbp : Nat)
  | stack_trace_end
  deriving DecidableEq, Repr

/-- The loop of `debug::print_stacktrace` in `lib/print.cc`:
`while (rbp) { u64 ret = *(u64 *)(rbp + 8); printk(RIP line, rip);
printk(RBP line, rbp); rip = *(u64 *)rbp; rbp = *(u64 *)(rbp); }`.
`readable a` tells whether the load of the `u64` at `a` goes through; when it
does not, the CPU raises a page fault at `a` and the loop is left there.  The
result is the console output so far, with `some (Except.ok ())` when the loop
has ended at a null `rbp`, `some (Except.error a)` for a page fault at `a`, and
`none` when the loop is still running after `fuel` rounds. -/
def print_stacktrace_loop (readable : Nat → Bool) (m : Mem) :
    Nat → Nat → Nat → List console_event → List console_event × Option (Except Nat Unit)
  | 0, _, _, out => (out, none)
  | fuel + 1, rip, rbp, out =>
    if rbp ≠ 0 then
      if readable ((rbp + 8) % 2 ^ 64) then
        if readable rbp then
          print_stacktrace_loop readable m fuel (read64 m rbp) (read64 m rbp)
            (out ++ [console_event.rip_line rip, console_event.rbp_line rbp])
        else
          (out ++ [console_event.rip_line rip, console_event.rbp_line rbp],
            some (Except.error rbp))
      else (out, some (Except.error ((rbp + 8) % 2 ^ 64)))
    else (out, some (Except.ok ()))

/-- Source `debug::print_stacktrace(rip, rbp)`: the line `Stack trace:`, the loop,
and the line `End of stack trace.` once the loop has ended. -/
def print_stacktrace (fuel : Nat) (readable : Nat → Bool) (m : Mem) (rip rbp : Nat) :
    List console_event × Option (Except Nat Unit) :=
  let r := print_stacktrace_loop readable m fuel rip rbp [console_event.stack_trace_begin]
  match r.2 with
  | some (Except.ok _) => (r.1 ++ [console_event.stack_trace_end], r.2)
  | _ => r

/-- Source `handle_interrupt(ctx)`: the console output and how the call ends:
`some (Except.ok (s, ctx))` when it returns, with the state and the frame it
leaves, `some (Except.error a)` when `print_stacktrace` runs into a page fault at
`a`, and `none` when the call is still in the loop of `print_stacktrace` or of
`halt_cpu` after `fuel` rounds.  `call f ctx s` is the effect of calling the
registered callback at address `f`; `cr2` is the value read from the register;
`readable` tells which addresses `print_stacktrace` can load from. -/
def handle_interrupt (fuel : Nat)
    (call : Nat → interrupt_context → idt_state → Option (idt_state × interrupt_context))
    (readable : Nat → Bool) (callbacks cr2 : Nat) (s : idt_state) (ctx : interrupt_context) :
    List console_event × Option (Except Nat (idt_state × interrupt_context)) :=
  let cb := read64 s.mem ((callbacks + 8 * ctx.int_no) % 2 ^ 64)
  if cb ≠ 0 then ([], (call cb ctx s).map Except.ok)
  else
    let r := print_stacktrace fuel readable s.mem ctx.rip ctx.regs.rbp
    (console_event.interrupt_line ctx.int_no cr2 :: r.1,
      match r.2 with
      | some (Except.ok _) => (halt_cpu fuel).map (fun _ => Except.ok (s, ctx))
      | some (Except.error a) => some (Except.error a)
      | none => none)

/-! ## `arch/gdt.cc`: the global descriptor table

The arrays of `arch/gdt.cc` live in the byte store; a store to a field writes the
bytes of the field at its offset in the packed structure.

Layout of `gdt_entry` (8 bytes): `limit_low` at 0 and `base_low` at 2 (`u16`),
`base_middle` at 4, `access` at 5, `granularity` at 6, `base_high` at 7.

Layout of `tss_descriptor` (16 bytes): `limit_low` at 0 and `base_low` at 2
(`u16`), `base_middle` at 4; the byte at 5 holds the bit-fields `type` (bits 0 to
3), `zero1` (bit 4), `dpl` (bits 5 and 6) and `present` (bit 7); the byte at 6
holds `limit_high` (bits 0 to 3), `avl` (bit 4), `zero2` (bits 5 and 6) and `g`
(bit 7); `base_high` at 7; `base_upper` at 8 and `reserved` at 12 (`u32`). -/

/-- Little-endian store of a `u16`. -/
def write16 (m : Mem) (a v : Nat) : Mem := write8 (write8 m a v) (a + 1) (v / 256)

/-- Little-endian store of a `u32`. -/
def write32 (m : Mem) (a v : Nat) : Mem := write16 (write16 m a v) (a + 2) (v / 65536)

/-- Store of `v` to the bit-field of `w` bits at bit `pos` of the byte at `a`. -/
def write_bits (m : Mem) (a pos w v : Nat) : Mem :=
  write8 m a ((read8 m a &&& (0xFF ^^^ ((2 ^ w - 1) <<< pos))) ||| ((v % 2 ^ w) <<< pos))

/-- Source `sizeof(gdt_entry)`. -/
def SIZEOF_GDT_ENTRY : Nat := 8

/-- Source `sizeof(gdt)` for `gdt_entry gdt[6]`. -/
def SIZEOF_GDT : Nat := 6 * SIZEOF_GDT_ENTRY

/-- Source `sizeof(tss_descriptor)`. -/
def SIZEOF_TSS_DESCRIPTOR : Nat := 16

/-- Source `MAX_CPU` of `types.cc`. -/
def MAX_CPU : Nat := 64

/-- Source `sizeof(tss)` for `tss tss[MAX_CPU]`; one packed `tss` has 104 bytes. -/
def SIZEOF_TSS : Nat := MAX_CPU * 104

/-- The memory that holds the arrays of `arch/gdt.cc`, and the static `gdtp`. -/
structure gdt_state where
  mem : Mem
  gdtp_limit : Nat
  gdtp_base : Nat

/-- Source `set_gdt_entry(idx, base, limit, access, gran)` for the array at address
`gdt`. -/
def set_gdt_entry (m : Mem) (gdt idx base limit access gran : Nat) : Mem :=
  let e := gdt + SIZEOF_GDT_ENTRY * idx
  let m1 := write16 m e (limit &&& 0xFFFF)
  let m2 := write16 m1 (e + 2) (base &&& 0xFFFF)
  let m3 := write8 m2 (e + 4) ((base >>> 16) &&& 0xFF)
  let m4 := write8 m3 (e + 5) access
  let m5 := write8 m4 (e + 6) (((limit >>> 16) &&& 0x0F) ||| (gran &&& 0xF0))
  write8 m5 (e + 7) ((base >>> 24) &&& 0xFF)

/-- Source `set_tss_entry(idx, base, limit)`: the descriptor is written through
`(tss_descriptor *)&gdt[idx]`. -/
def set_tss_entry (m : Mem) (gdt idx base limit : Nat) : Mem :=
  let d := gdt + SIZEOF_GDT_ENTRY * idx
  let m1 := write16 m d (limit &&& 0xFFFF)
  let m2 := write16 m1 (d + 2) (base &&& 0xFFFF)
  let m3 := write8 m2 (d + 4) ((base >>> 16) &&& 0xFF)
  let m4 := write_bits m3 (d + 5) 0 4 0x9
  let m5 := write_bits m4 (d + 5) 4 1 0
  let m6 := write_bits m5 (d + 5) 5 2 0
  let m7 := write_bits m6 (d + 5) 7 1 1
  let m8 := write_bits m7 (d + 6) 0 4 ((limit >>> 16) &&& 0xF)
  let m9 := write_bits m8 (d + 6) 4 1 0
  let m10 := write_bits m9 (d + 6) 5 2 0
  let m11 := write_bits m10 (d + 6) 7 1 0
  let m12 := write8 m11 (d + 7) ((base >>> 24) &&& 0xFF)
  let m13 := write32 m12 (d + 8) ((base >>> 32) &&& 0xFFFFFFFF)
  write32 m13 (d + 12) 0

/-- Source `init_gdt()` up to the `lgdt` instruction, for the arrays `gdt` and `tss`
at the addresses `gdt` and `tss`. -/
def init_gdt (s : gdt_state) (gdt tss : Nat) : gdt_state :=
  let m1 := set_gdt_entry s.mem gdt 0 0 0 0 0
  let m2 := set_gdt_entry m1 gdt 1 0 0xFFFFF 0x9A 0xA0
  let m3 := set_gdt_entry m2 gdt 2 0 0xFFFFF 0x92 0xA0
  let m4 := set_gdt_entry m3 gdt 3 0 0xFFFFF 0xFA 0xA0
  let m5 := set_gdt_entry m4 gdt 4 0 0xFFFFF 0xF2 0xA0
  let m6 := set_tss_entry m5 gdt 5 (tss % 2 ^ 64) (SIZEOF_TSS % 2 ^ 32)
  { mem := m6,
    gdtp_limit := (SIZEOF_GDT + SIZEOF_TSS_DESCRIPTOR - 1) % 2 ^ 16,
    gdtp_base := gdt % 2 ^ 64 }
/-! ## Auxiliary notions used to state the theorems -/

/-- Range fill: the `n` bytes from `a` on hold `b`, the rest of `m` is kept. -/
def fill (m : Mem) (a n b : Nat) : Mem := fun x => if a ≤ x ∧ x < a + n then b else m x

/-- Scheduler states reached from `init_kernel_task(k); set_current_task(k)` by
`create_task`, `set_current_task`, `start_scheduler`, `schedule_from_interrupt`
and `schedule`, together with the list of the task control blocks set up so far.
`create_task` gets a non-null block from the heap that is none of the blocks in
use, and `set_current_task` is called for the task that is already current. -/
inductive sched_reach (k : Nat) : sched_state → List Nat → Prop where
  | boot (s0 : sched_state) (hk : 0x1000 ≤ k) :
      sched_reach k (set_current_task (init_kernel_task s0 k) k) [k]
  | create (s s1 : sched_state) (l : List Nat) (fuel task entry_point user_stack stack_size r : Nat)
      (h : sched_reach k s l) (hnull : task ≠ 0) (hfresh : task ∉ l)
      (hc : create_task fuel s task entry_point user_stack stack_size = some (r, s1)) :
      sched_reach k s1 (task :: l)
  | set_current (s : sched_state) (l : List Nat) (task : Nat)
      (h : sched_reach k s l) (ht : task = 0 ∨ task = s.current_task) :
      sched_reach k (set_current_task s task) l
  | start (s : sched_state) (l : List Nat) (h : sched_reach k s l) :
      sched_reach k (start_scheduler s) l
  | interrupt (s : sched_state) (l : List Nat) (ctx : interrupt_context)
      (h : sched_reach k s l) :
      sched_reach k (schedule_from_interrupt s ctx).1 l
  | yield_to_next (s : sched_state) (l : List Nat) (h : sched_reach k s l) :
      sched_reach k (schedule s) l

/-- The invariant behind `sched_reach`: the ring stays inside the list of task
control blocks and the current task is the only one that is running. -/
def sched_inv (s : sched_state) (l : List Nat) : Prop :=
  s.current_task ∈ l ∧ s.task_queue ∈ l ∧ 0 ∉ l ∧
  (∀ p ∈ l, (s.tasks p).next ∈ l) ∧
  (∀ p ∈ l, (s.tasks p).state = task_state_t.TASK_RUNNING ↔ p = s.current_task)

/-- An all-zero scheduler state with the boot-time values of the globals
(`next_pid = 1`, `scheduler_ready = false`, null task pointers). -/
def sched_boot : sched_state :=
  { tasks := fun _ => zero_task, current_task := 0, task_queue := 0, next_pid := 1,
    scheduler_ready := false }

/-- A frame used in the examples. -/
def frame_example : interrupt_context :=
  { regs := { r15 := 15, r14 := 14, r13 := 13, r12 := 12, r11 := 11, r10 := 10, r9 := 9,
              r8 := 8, rdi := 7, rsi := 6, rbp := 5, rdx := 4, rcx := 3, rbx := 2, rax := 1 },
    int_no := 0x20, err := 0, rip := 0x100000, cs := 0x08, rflags := 0x202,
    rsp := 0x7000, ss := 0x10 }

/-- The kernel task at `0x1000` set up and made current, one task created at
`0x2000`, and the scheduler started. -/
def sched_two_tasks : Option sched_state :=
  (create_task 1 (set_current_task (init_kernel_task sched_boot 0x1000) 0x1000)
    0x2000 0x400000 0x8000 4096).map (fun r => start_scheduler r.2)

/-- As `sched_two_tasks`, followed by `set_current_task` of the created task. -/
def sched_set_current_twice : Option sched_state :=
  sched_two_tasks.map (fun s => set_current_task s 0x2000)

/-- Bit `k` of the frame bitmap: bit `k % 8` of the byte `bitmap[k / 8]`. -/
def bitmap_bit (s : phys_state) (k : Nat) : Bool :=
  (read8 s.mem (s.bitmap + k / 8)).testBit (k % 8)

/-- A small machine: 128 KiB of frames tracked by a four-byte bitmap at `0x8000`;
frames 0 to 8 (low memory, the page directory at `0x1000` and the frame of the
bitmap) are in use, frames 9 to 31 are free, and all other memory is zero. -/
def phys_example : phys_state :=
  { mem := fun a => if a = 0x8000 then 0xFF else if a = 0x8001 then 0x01 else 0,
    bitmap := 0x8000, bitmap_size := 4, heap_base := HEAP_BASE, cr3 := 0x1000 }

/-- A bitmap of 65 bytes at `0x200000` whose own frame (frame 512) is marked
free: bits 0 to 511 are set and bits 512 to 519 are clear. -/
def phys_bitmap_in_free_frame : phys_state :=
  { mem := fun a => if 0x200000 ≤ a ∧ a < 0x200040 then 0xFF else 0,
    bitmap := 0x200000, bitmap_size := 65, heap_base := HEAP_BASE, cr3 := 0x1000 }

/-- The memory of `phys_example` with a page directory at `0x1000` whose entry 0
leads through a P3 table at `0x2000` and a P2 table at `0x3000` to a P1 table at
`0x4000`; the P1 entry 5 maps the virtual page `0x5000` to the frame `0x400000`. -/
def phys_mapped : phys_state :=
  { phys_example with
    mem := write64 (write64 (write64 (write64 phys_example.mem 0x1000 0x2003) 0x2000 0x3003)
      0x3000 0x4003) 0x4028 0x400003 }

/-- The memory of `phys_example` with a page directory at `0x1000` whose entry 0
leads through a P3 table at `0x2000` to a P2 table at `0x3000`; the P2 entry 0 is
a present huge page with base `0x200000`. -/
def phys_huge : phys_state :=
  { phys_example with
    mem := write64 (write64 (write64 phys_example.mem 0x1000 0x2003) 0x2000 0x3003)
      0x3000 0x200083 }

/-- Heap statics before `init_kmalloc`, over a memory that is all zero. -/
def heap_zero : heap_state :=
  { mem := fun _ => 0, last_header := 0, heap_start := 0, heap_end := 0, heap_address := 0,
    kmalloc_lock := 0 }

/-- The heap that `init_kmalloc(10)` sets up at `HEAP_BASE` over zeroed memory. -/
def heap_fresh : heap_state := init_kmalloc_header heap_zero HEAP_BASE 10

/-! ### Closed form of the frame allocator and its callers

`memset_spec` shows that `memset` is the range fill `fill`.  The functions below
are `phys_alloc_page` and its callers with `fill` in place of `memset`; each is
proved equal to the function it mirrors, and they serve to evaluate the calls on
concrete machines. -/

/-- Closed form of `phys_alloc_page` with the frame zeroed by `fill`. -/
def phys_alloc_page_fill (s : phys_state) (zeroed : Bool) : Option (Nat × phys_state) :=
  let p_end := (s.bitmap + s.bitmap_size) % 2 ^ 64
  let p := scan_bitmap s.bitmap_size s.mem s.bitmap p_end
  if p = p_end then none
  else
    match first_clear_bit (read8 s.mem p) 8 0 with
    | none => none
    | some i =>
      let pg := (((p - s.bitmap) * 8 + i) * PAGE_SIZE) % 2 ^ 64
      let s1 := set_page s (pg / PAGE_SIZE)
      if zeroed then some (pg, { s1 with mem := fill s1.mem pg PAGE_SIZE 0 })
      else some (pg, s1)

/-- Closed form of `get_table` over `phys_alloc_page_fill`. -/
def get_table_fill (s : phys_state) (table index flags : Nat) : Option (Nat × phys_state) :=
  let a := pte_addr table index
  if pte_present (read64 s.mem a) then some (read64 s.mem a &&& PGADDR_MASK, s)
  else
    match phys_alloc_page_fill s true with
    | none => none
    | some (pg, s1) =>
      let m1 := write64 s1.mem a pg
      let m2 := write64 m1 a (pte_assign (read64 m1 a) 0 true)
      let m3 := write64 m2 a (pte_assign (read64 m2 a) 1 (decide ((flags % 2 ^ 32) &&& PT_RW ≠ 0)))
      let m4 := write64 m3 a (pte_assign (read64 m3 a) 2 (decide ((flags % 2 ^ 32) &&& PT_USER ≠ 0)))
      some (read64 m4 a &&& PGADDR_MASK, { s1 with mem := m4 })

/-- Closed form of `map_page` over `get_table_fill`. -/
def map_page_fill (s : phys_state) (dir phys_addr virt_addr flags : Nat) : Option phys_state :=
  let ix := indexer virt_addr
  match get_table_fill s dir ix.p4_idx flags with
  | none => none
  | some (p3, s1) =>
    match get_table_fill s1 p3 ix.p3_idx flags with
    | none => none
    | some (p2, s2) =>
      match get_table_fill s2 p2 ix.p2_idx flags with
      | none => none
      | some (p1, s3) =>
        let a1 := pte_addr p1 ix.p1_idx
        some { s3 with mem := write64 s3.mem a1 ((phys_addr &&& PGADDR_MASK) ||| flags) }

/-- Closed form of `heap_request_page` over the closed forms. -/
def heap_request_page_fill (s : phys_state) : Option (Nat × phys_state) :=
  match phys_alloc_page_fill s true with
  | none => none
  | some (page, s1) =>
    let ret := s1.heap_base
    let s2 := { s1 with heap_base := HEAP_BASE }
    match map_page_fill s2 s2.cr3 page s2.heap_base (PT_PRESENT ||| PT_RW) with
    | none => none
    | some s3 => some (ret, { s3 with heap_base := (s3.heap_base + PAGE_SIZE) % 2 ^ 64 })

/-- Closed form of `init_kmalloc_pages` over the closed forms. -/
def init_kmalloc_pages_fill : Nat → Nat → Nat → phys_state → Nat → Option phys_state
  | 0, _, _, p, _ => some p
  | fuel + 1, pages, i, p, iter =>
    if i < sub64 pages i then
      match phys_alloc_page_fill p true with
      | none => none
      | some (frame, p1) =>
        match map_page_fill p1 p1.cr3 frame iter (PT_PRESENT ||| PT_RW) with
        | none => none
        | some p2 => init_kmalloc_pages_fill fuel pages (i + 1) p2 ((iter + PAGE_SIZE) % 2 ^ 64)
    else some p

/-- Closed form of `init_kmalloc` over the closed forms. -/
def init_kmalloc_fill (p : phys_state) (s : heap_state) (pages : Nat) :
    Option (phys_state × heap_state) :=
  match heap_request_page_fill p with
  | none => none
  | some (nu, p1) =>
    if nu = 0 then none
    else
      match init_kmalloc_pages_fill pages pages 0 p1 nu with
      | none => none
      | some p2 => some (p2, init_kmalloc_header s nu pages)

/-- Four calls `kmalloc(960)` on `heap_fresh`: the four pointers returned and the
heap after the last call.  The blocks handed out have their headers at
`HEAP_BASE`, `HEAP_BASE + 992`, `HEAP_BASE + 1984` and `HEAP_BASE + 2976`. -/
def heap_four_blocks : Option (Nat × Nat × Nat × Nat × heap_state) :=
  (kmalloc 1 heap_fresh 960).bind fun r0 =>
  (kmalloc 2 r0.2 960).bind fun r1 =>
  (kmalloc 3 r1.2 960).bind fun r2 =>
  (kmalloc 4 r2.2 960).map fun r3 => (r0.1, r1.1, r2.1, r3.1, r3.2)

/-- The frame allocator is well formed: the bitmap lies inside the address
space, the frames it tracks have 64-bit addresses, and no frame that it marks
free holds a byte of the bitmap. -/
def alloc_wf (s : phys_state) : Prop :=
  s.bitmap + s.bitmap_size < 2 ^ 64 ∧ s.bitmap_size * 8 * 4096 ≤ 2 ^ 64 ∧
  ∀ k, k < 8 * s.bitmap_size → bitmap_bit s k = false →
    4096 * k + 4096 ≤ s.bitmap ∨ s.bitmap + s.bitmap_size ≤ 4096 * k

/-- The frame at `f` is reserved: it is page aligned, holds no byte of the
bitmap, and the allocator does not hand it out (its bit is set when the bitmap
tracks it). -/
def frame_reserved (s : phys_state) (f : Nat) : Prop :=
  f % 4096 = 0 ∧ f + 4096 ≤ 2 ^ 64 ∧
  (f + 4096 ≤ s.bitmap ∨ s.bitmap + s.bitmap_size ≤ f) ∧
  (f / 4096 < 8 * s.bitmap_size → bitmap_bit s (f / 4096) = true)

/-- The tables that exist on the walk of `virt` from `dir` are well formed: the
allocator is well formed, `dir` and every table that a present P4, P3 or P2
entry of the walk points at are reserved frames different from one another, and
a present P2 entry of the walk is not a huge page. -/
def walk_wf (s : phys_state) (dir virt : Nat) : Prop :=
  alloc_wf s ∧ frame_reserved s dir ∧
  (pte_present (read64 s.mem (pte_addr dir (indexer virt).p4_idx)) = true →
    frame_reserved s (read64 s.mem (pte_addr dir (indexer virt).p4_idx) &&& PGADDR_MASK) ∧
    read64 s.mem (pte_addr dir (indexer virt).p4_idx) &&& PGADDR_MASK ≠ dir ∧
    (pte_present (read64 s.mem (pte_addr (read64 s.mem (pte_addr dir (indexer virt).p4_idx)
        &&& PGADDR_MASK) (indexer virt).p3_idx)) = true →
      frame_reserved s (read64 s.mem (pte_addr (read64 s.mem (pte_addr dir (indexer virt).p4_idx)
        &&& PGADDR_MASK) (indexer virt).p3_idx) &&& PGADDR_MASK) ∧
      read64 s.mem (pte_addr (read64 s.mem (pte_addr dir (indexer virt).p4_idx)
        &&& PGADDR_MASK) (indexer virt).p3_idx) &&& PGADDR_MASK ∉
        [read64 s.mem (pte_addr dir (indexer virt).p4_idx) &&& PGADDR_MASK, dir] ∧
      (pte_present (read64 s.mem (pte_addr (read64 s.mem (pte_addr (read64 s.mem
          (pte_addr dir (indexer virt).p4_idx) &&& PGADDR_MASK) (indexer virt).p3_idx)
          &&& PGADDR_MASK) (indexer virt).p2_idx)) = true →
        pte_huge_page (read64 s.mem (pte_addr (read64 s.mem (pte_addr (read64 s.mem
          (pte_addr dir (indexer virt).p4_idx) &&& PGADDR_MASK) (indexer virt).p3_idx)
          &&& PGADDR_MASK) (indexer virt).p2_idx)) = false ∧
        frame_reserved s (read64 s.mem (pte_addr (read64 s.mem (pte_addr (read64 s.mem
          (pte_addr dir (indexer virt).p4_idx) &&& PGADDR_MASK) (indexer virt).p3_idx)
          &&& PGADDR_MASK) (indexer virt).p2_idx) &&& PGADDR_MASK) ∧
        read64 s.mem (pte_addr (read64 s.mem (pte_addr (read64 s.mem
          (pte_addr dir (indexer virt).p4_idx) &&& PGADDR_MASK) (indexer virt).p3_idx)
          &&& PGADDR_MASK) (indexer virt).p2_idx) &&& PGADDR_MASK ∉
          [read64 s.mem (pte_addr (read64 s.mem (pte_addr dir (indexer virt).p4_idx)
            &&& PGADDR_MASK) (indexer virt).p3_idx) &&& PGADDR_MASK,
           read64 s.mem (pte_addr dir (indexer virt).p4_idx) &&& PGADDR_MASK, dir])))

/-- The memory of `phys_example` with a page directory at `0x1000` whose entry 0
points back at the directory itself. -/
def phys_recursive : phys_state :=
  { phys_example with mem := write64 phys_example.mem 0x1000 0x1003 }

/-- The machine state at boot, before `phys_init_multiboot`: no bitmap yet and
all memory zero. -/
def phys_boot : phys_state :=
  { mem := fun _ => 0, bitmap := 0, bitmap_size := 0, heap_base := HEAP_BASE, cr3 := 0x1000 }

/-- A memory map with 640 KiB reserved at 0 and 64 MiB available at 1 MiB. -/
def mmap_64mib : List multiboot_mmap_entry :=
  [{ base_addr := 0, length := 0xA0000, type := 2 },
   { base_addr := 0x100000, length := 0x4000000, type := 1 }]

/-- The state of `phys_init_multiboot(mmap_64mib)` when it reaches its two
allocations: a bitmap of 2048 bytes at `0x200000`, set to `0xFF`, on which
`phys_free_range(0x200800, 0x4000000)` has run. -/
def phys_after_free_range : phys_state :=
  phys_free_range
    { phys_boot with
      bitmap := 0x200000, bitmap_size := 2048,
      mem := memset phys_boot.mem 0x200000 0xFF 2048 } 0x200800 0x4000000


/-- The P4 entry on the walk of `virt` from `dir`. -/
def walk_p4 (s : phys_state) (dir virt : Nat) : Nat :=
  read64 s.mem (pte_addr dir (indexer virt).p4_idx)

/-- The P3 entry on the walk of `virt`, in the table the P4 entry points at. -/
def walk_p3 (s : phys_state) (dir virt : Nat) : Nat :=
  read64 s.mem (pte_addr (walk_p4 s dir virt &&& PGADDR_MASK) (indexer virt).p3_idx)

/-- The P2 entry on the walk of `virt`, in the table the P3 entry points at. -/
def walk_p2 (s : phys_state) (dir virt : Nat) : Nat :=
  read64 s.mem (pte_addr (walk_p3 s dir virt &&& PGADDR_MASK) (indexer virt).p2_idx)

/-- The P1 entry on the walk of `virt`, in the table the P2 entry points at. -/
def walk_p1 (s : phys_state) (dir virt : Nat) : Nat :=
  read64 s.mem (pte_addr (walk_p2 s dir virt &&& PGADDR_MASK) (indexer virt).p1_idx)

/-- The machine `phys_example` with a single free frame left: bit 9 is the only
clear bit of the four-byte bitmap at `0x8000`. -/
def phys_last_frame : phys_state :=
  { mem := fun a => if a = 0x8001 then 0xFD else if 0x8000 ≤ a ∧ a < 0x8004 then 0xFF else 0,
    bitmap := 0x8000, bitmap_size := 4, heap_base := HEAP_BASE, cr3 := 0x1000 }

/-- A bitmap of 65 bytes at `0x200000` with exactly one clear bit, bit 512: the
bit of the frame that holds the bitmap. -/
def phys_one_clear_bit : phys_state :=
  { mem := fun a => if 0x200000 ≤ a ∧ a < 0x200040 then 0xFF else if a = 0x200040 then 0xFE else 0,
    bitmap := 0x200000, bitmap_size := 65, heap_base := HEAP_BASE, cr3 := 0x1000 }

/-- The machine `phys_example` with every frame in use: the four bytes of the
bitmap at `0x8000` are `0xFF`. -/
def phys_full : phys_state :=
  { mem := fun a => if 0x8000 ≤ a ∧ a < 0x8004 then 0xFF else 0,
    bitmap := 0x8000, bitmap_size := 4, heap_base := HEAP_BASE, cr3 := 0x1000 }

/-- A memory map with two available ranges separated by a reserved one: 96 MiB
available at 1 MiB, 16 MiB reserved at 97 MiB, 32 MiB available at 113 MiB. -/
def mmap_two_ranges : List multiboot_mmap_entry :=
  [{ base_addr := 0x100000, length := 0x6000000, type := 1 },
   { base_addr := 0x6100000, length := 0x1000000, type := 2 },
   { base_addr := 0x7100000, length := 0x2000000, type := 1 }]

/-- The state of `phys_init_multiboot(mmap_two_ranges)` when it reaches its two
allocations: a bitmap of 4096 bytes at `0x200000`, set to `0xFF`, on which
`phys_free_range(0x201000, 0x6000000)` has run. -/
def phys_after_free_range_two : phys_state :=
  phys_free_range
    { phys_boot with
      bitmap := 0x200000, bitmap_size := 4096,
      mem := memset phys_boot.mem 0x200000 0xFF 4096 } 0x201000 0x6000000

/-- The calls `a1 = kmalloc(16)`, `a2 = kmalloc(32)`, `kfree(a1)`, `kfree(a2)` on
`heap_fresh`: the two pointers and the heap after the second `kfree`. -/
def heap_alloc_free_twice : Option (Nat × Nat × heap_state) :=
  (kmalloc 1 heap_fresh 16).bind fun r1 =>
  (kmalloc 2 r1.2 32).map fun r2 => (r1.1, r2.1, kfree (kfree r2.2 r1.1) r2.1)

/-- The value of an `i64` held as its two's complement bits. -/
def i64_val (x : Nat) : Int := if x < 2 ^ 63 then (x : Int) else (x : Int) - 2 ^ 64

/-- The bytes `l`, none of them zero, followed by a NUL byte, stand at address
`a`: a NUL-terminated string of length `l.length`. -/
def is_cstr (m : Mem) (a : Nat) (l : List Nat) : Prop :=
  a + l.length < 2 ^ 64 ∧
  (∀ i, i < l.length → read8 m (a + i) = l.getD i 0 ∧ l.getD i 0 ≠ 0) ∧
  read8 m (a + l.length) = 0

/-- A memory holding the strings `"ab"` at `0x100`, `"ac"` at `0x200` and `"abc"`
at `0x300`. -/
def mem_strings : Mem := fun a =>
  if a = 0x100 then 97 else if a = 0x101 then 98
  else if a = 0x200 then 97 else if a = 0x201 then 99
  else if a = 0x300 then 97 else if a = 0x301 then 98 else if a = 0x302 then 99
  else 0

/-- The tasks of `l` form a ring in the order of the list: the `next` link of
each task is the task after it in `l`, and that of the last task is the first. -/
def ring_links (tasks : Nat → task_t) (l : List Nat) : Prop :=
  ∀ i, i < l.length → (tasks (l.getD i 0)).next = l.getD ((i + 1) % l.length) 0

/-- The first `n` tasks met when following `next` from `p`, `p` included. -/
def follow (tasks : Nat → task_t) : Nat → Nat → List Nat
  | _, 0 => []
  | p, n + 1 => p :: follow tasks (tasks p).next n

/-- Scheduler states reached by `init_kernel_task(k)` from a boot state (where
`next_pid` is 1) followed by successful `create_task` calls, together with the
pointers `t1, ..., tn` that these calls returned, in the order of the calls.
Each call gets a non-null block from the heap that is none of the task control
blocks in use. -/
inductive tasks_created (k : Nat) : sched_state → List Nat → Prop where
  | init (s0 : sched_state) (hk : 0x1000 ≤ k) (hpid : s0.next_pid = 1) :
      tasks_created k (init_kernel_task s0 k) []
  | create (s s1 : sched_state) (ts : List Nat) (fuel t entry_point user_stack stack_size : Nat)
      (h : tasks_created k s ts) (hnull : t ≠ 0) (hfresh : t ∉ k :: ts)
      (hc : create_task fuel s t entry_point user_stack stack_size = some (t, s1)) :
      tasks_created k s1 (ts ++ [t])

/-- Successive timer interrupts: `schedule_from_interrupt` is called once for
each frame of the list. -/
def run_interrupts (s : sched_state) : List interrupt_context → sched_state
  | [] => s
  | f :: fs => run_interrupts (schedule_from_interrupt s f).1 fs

/-- The task control block that `create_task` writes before it links the task:
the zeroed block with `pid`, the stack and the seeded context. -/
def new_task (pid entry_point user_stack stack_size : Nat) : task_t :=
  { pid := pid, state := task_state_t.TASK_READY,
    context := { zero_context with
      rax := 0xDEADBEEF, rip := entry_point,
      rsp := sub64 ((user_stack + stack_size) % 2 ^ 64) 16,
      rflags := 0x202, cs := 0x08, ss := 0x10, ds := 0x10, es := 0x10, fs := 0x10,
      gs := 0x10 },
    stack_base := user_stack, stack_size := stack_size, next := 0 }

/-- A started scheduler with a ring of two tasks: the task at `0x1000` is
current and running, the task at `0x2000` is ready. -/
def sched_ring_two : sched_state :=
  { tasks := fun p =>
      if p = 0x1000 then
        { zero_task with state := task_state_t.TASK_RUNNING, next := 0x2000 }
      else if p = 0x2000 then { zero_task with pid := 1, next := 0x1000 }
      else zero_task,
    current_task := 0x1000, task_queue := 0x1000, next_pid := 2, scheduler_ready := true }

/-- The naive byte loop that `memset` is compared with: `len` times, store
`val & 0xFF` at `dst` and step `dst` to the next byte of the 64-bit address
space. -/
def memset_naive (m : Mem) (dst val : Nat) : Nat → Mem
  | 0 => m
  | len + 1 => memset_naive (write8 m dst (val &&& 0xFF)) ((dst + 1) % 2 ^ 64) val len

/-- The switching branch of `schedule_from_interrupt`, taken for the candidate
`next_task`: the scheduler state and the frame it leaves. -/
def switch_from_interrupt (s : sched_state) (ctx : interrupt_context) (next_task : Nat) :
    sched_state × interrupt_context :=
  let cur := s.current_task
  let tasks1 := set_task s.tasks cur
    { s.tasks cur with context := save_interrupt_context ctx (s.tasks cur).context }
  let tasks2 := set_task tasks1 cur { tasks1 cur with state := task_state_t.TASK_READY }
  let tasks3 := set_task tasks2 next_task
    { tasks2 next_task with state := task_state_t.TASK_RUNNING }
  let tasks4 :=
    if (tasks3 next_task).context.rax = 0xDEADBEEF then
      set_task tasks3 next_task
        { tasks3 next_task with context := { (tasks3 next_task).context with rax := 0 } }
    else tasks3
  ({ s with tasks := tasks4, current_task := next_task },
    restore_interrupt_context (tasks4 next_task).context ctx)

/-- The ring `sched_ring_two` with the state of the task at `p` set to `st`. -/
def sched_ring_two_state (p : Nat) (st : task_state_t) : sched_state :=
  { sched_ring_two with
    tasks := set_task sched_ring_two.tasks p { sched_ring_two.tasks p with state := st } }

/-- The frame `frame_example` with `rax` equal to the first-run marker of
`create_task` and selector values that need more than 16 bits. -/
def frame_marker : interrupt_context :=
  { frame_example with
    regs := { frame_example.regs with rax := 0xDEADBEEF }, cs := 0x10008, ss := 0x10010 }

/-- An interrupt descriptor table state before `init_idt`: all entries zero and
all memory zero. -/
def idt_zero : idt_state :=
  { idt_table := fun _ =>
      { offset_lo := 0, selector := 0, ist := 0, type_attr := 0, offset_mid := 0,
        offset_hi := 0, zero := 0 },
    idtr_size := 0, idtr_address := 0, mem := fun _ => 0 }

/-- The frame `frame_example` for the interrupt vector 33. -/
def frame_irq33 : interrupt_context := { frame_example with int_no := 33 }

/-- A callback that returns at once and changes nothing. -/
def call_nothing (_ : Nat) (ctx : interrupt_context) (s : idt_state) :
    Option (idt_state × interrupt_context) := some (s, ctx)

/-- A memory whose bytes are all `0xFF`, before `init_gdt`. -/
def gdt_ones : gdt_state := { mem := fun _ => 0xFF, gdtp_limit := 0, gdtp_base := 0 }

/-- The page-table frames on the walk of `v` from `dir`, each with the table
indices that lead to it from `dir`: the directory itself, the table of a present
P4 entry, the table of a present P3 entry, and the table of a present P2 entry
that is not a huge page. -/
def walk_nodes (s : phys_state) (dir v : Nat) : List (Nat × List Nat) :=
  (dir, []) ::
    (if pte_present (walk_p4 s dir v) then
      (walk_p4 s dir v &&& PGADDR_MASK, [(indexer v).p4_idx]) ::
        (if pte_present (walk_p3 s dir v) then
          (walk_p3 s dir v &&& PGADDR_MASK, [(indexer v).p4_idx, (indexer v).p3_idx]) ::
            (if pte_present (walk_p2 s dir v) && !pte_huge_page (walk_p2 s dir v) then
              [(walk_p2 s dir v &&& PGADDR_MASK,
                [(indexer v).p4_idx, (indexer v).p3_idx, (indexer v).p2_idx])]
            else [])
        else [])
    else [])

/-- The address space of `dir` is well formed along the walks of `virt` and
`other`: the allocator is well formed, every page-table frame on the two walks
is reserved (page aligned, away from the bitmap, marked used), two entries of
the walks that lead to the same frame are the same entry (the page-table frames
are distinct), and there is no huge entry on the walk of `virt`. -/
def walks_wf (s : phys_state) (dir virt other : Nat) : Prop :=
  alloc_wf s ∧
  (∀ x ∈ walk_nodes s dir virt ++ walk_nodes s dir other, frame_reserved s x.1) ∧
  (∀ x ∈ walk_nodes s dir virt ++ walk_nodes s dir other,
    ∀ y ∈ walk_nodes s dir virt ++ walk_nodes s dir other, x.1 = y.1 → x.2 = y.2) ∧
  (pte_present (walk_p4 s dir virt) = true → pte_present (walk_p3 s dir virt) = true →
    pte_present (walk_p2 s dir virt) = true → pte_huge_page (walk_p2 s dir virt) = false)

/-- A canonical virtual address of the four-level paging: a 64-bit address whose
bits 48 to 63 repeat bit 47 (the lower half below `2 ^ 47` and the upper half
from `2 ^ 64 - 2 ^ 47` on). -/
def canonical (a : Nat) : Prop := a < 2 ^ 47 ∨ (2 ^ 64 - 2 ^ 47 ≤ a ∧ a < 2 ^ 64)

/-- The header reached from `hdr` by following the `next` links `k` times. -/
def nth_header (m : Mem) (hdr : Nat) : Nat → Nat
  | 0 => hdr
  | k + 1 => nth_header m (hdr_next m hdr) k

/-- The chain of saved frame pointers that starts at `rbp` can be read and ends
in a null pointer after `d` frames. -/
def frame_chain (readable : Nat → Bool) (m : Mem) : Nat → Nat → Bool
  | 0, rbp => decide (rbp = 0)
  | d + 1, rbp =>
    decide (rbp ≠ 0) && readable ((rbp + 8) % 2 ^ 64) && readable rbp &&
      frame_chain readable m d (read64 m rbp)

/-- The lines of a stack trace of `d` frames started from `rip` and `rbp`: for
each frame the current `rip` and `rbp`, both then replaced by the word at
`rbp`. -/
def trace_lines (m : Mem) : Nat → Nat → Nat → List console_event
  | 0, _, _ => []
  | d + 1, rip, rbp =>
    console_event.rip_line rip :: console_event.rbp_line rbp ::
      trace_lines m d (read64 m rbp) (read64 m rbp)

/-- A memory, otherwise zero, in which the word at `0x7000` is `0x7000`: a saved
frame pointer that points at itself. -/
def idt_cyclic : idt_state := { idt_zero with mem := write64 (fun _ => 0) 0x7000 0x7000 }

/-- The frame `frame_irq33` with `rbp = 0x7000`. -/
def frame_irq33_stack : interrupt_context :=
  { frame_irq33 with regs := { frame_irq33.regs with rbp := 0x7000 } }

/-- Every address can be read. -/
def readable_all : Nat → Bool := fun _ => true

/-- Every address but 5 can be read. -/
def readable_but_5 : Nat → Bool := fun a => decide (a ≠ 5)

/-- A bitmap of 65 bytes at `0x200000` in which frame 0 and frame 512, the frame
that holds the bitmap, are free: bits 0 and 512 are clear and every other bit
is set. -/
def phys_two_clear_bits : phys_state :=
  { mem := fun a =>
      if a = 0x200000 then 0xFE
      else if 0x200000 < a ∧ a < 0x200040 then 0xFF
      else if a = 0x200040 then 0xFE else 0,
    bitmap := 0x200000, bitmap_size := 65, heap_base := HEAP_BASE, cr3 := 0x1000 }

/-! # Theorems -/

/-! ## Byte store -/

theorem read8_lt (m : Mem) (a : Nat) : read8 m a < 256 :=
  Nat.mod_lt _ (by norm_num)

theorem read64_lt (m : Mem) (a : Nat) : read64 m a < 2 ^ 64 := by
  have h0 := read8_lt m a
  have h1 := read8_lt m (a + 1)
  have h2 := read8_lt m (a + 2)
  have h3 := read8_lt m (a + 3)
  have h4 := read8_lt m (a + 4)
  have h5 := read8_lt m (a + 5)
  have h6 := read8_lt m (a + 6)
  have h7 := read8_lt m (a + 7)
  unfold read64
  omega

theorem read8_write8 (m : Mem) (a v b : Nat) :
    read8 (write8 m a v) b = if b = a then v % 256 else read8 m b := by
  unfold read8 write8
  split_ifs <;> simp

theorem read8_write64 (m : Mem) (a v b : Nat) :
    read8 (write64 m a v) b =
      if a ≤ b ∧ b < a + 8 then (v / 256 ^ (b - a)) % 256 else read8 m b := by
  unfold read8 write64
  split_ifs <;> simp

theorem read64_congr (m m1 : Mem) (a : Nat) (h : ∀ i, i < 8 → read8 m1 (a + i) = read8 m (a + i)) :
    read64 m1 a = read64 m a := by
  have h0 := h 0 (by norm_num)
  simp only [Nat.add_zero] at h0
  unfold read64
  rw [h0, h 1 (by norm_num), h 2 (by norm_num), h 3 (by norm_num), h 4 (by norm_num),
    h 5 (by norm_num), h 6 (by norm_num), h 7 (by norm_num)]

theorem read64_write64_same (m : Mem) (a v : Nat) : read64 (write64 m a v) a = v % 2 ^ 64 := by
  simp only [read64, read8, write64]
  simp
  omega

theorem read64_write64_disj (m : Mem) (a v b : Nat) (h : b + 8 ≤ a ∨ a + 8 ≤ b) :
    read64 (write64 m a v) b = read64 m b := by
  apply read64_congr
  intro i hi
  rw [read8_write64, if_neg (by omega)]

theorem read64_write8_disj (m : Mem) (a v b : Nat) (h : a < b ∨ b + 8 ≤ a) :
    read64 (write8 m a v) b = read64 m b := by
  apply read64_congr
  intro i hi
  rw [read8_write8, if_neg (by omega)]

theorem read8_write64_disj (m : Mem) (a v b : Nat) (h : b < a ∨ a + 8 ≤ b) :
    read8 (write64 m a v) b = read8 m b := by
  rw [read8_write64, if_neg (by omega)]

theorem read8_write8_same (m : Mem) (a v : Nat) : read8 (write8 m a v) a = v % 256 := by
  rw [read8_write8, if_pos rfl]

theorem read8_write8_ne (m : Mem) (a v b : Nat) (h : b ≠ a) :
    read8 (write8 m a v) b = read8 m b := by
  rw [read8_write8, if_neg h]

/-! ## memset -/

theorem and_long_mask (x : Nat) : x &&& LONG_MASK = x % 8 := by
  have := Nat.and_pow_two_sub_one_eq_mod x 3
  simpa [LONG_MASK] using this

theorem fill_zero (m : Mem) (a b : Nat) : fill m a 0 b = m := by
  funext x; simp [fill]

theorem fill_fill (m : Mem) (a n k b : Nat) :
    fill (fill m a n b) (a + n) k b = fill m a (n + k) b := by
  funext x
  simp only [fill]
  split_ifs <;> first | rfl | omega

theorem write8_eq_fill (m : Mem) (a v : Nat) : write8 m a v = fill m a 1 (v % 256) := by
  funext x
  simp only [write8, fill]
  split_ifs <;> first | rfl | omega

theorem memset_bytes_spec (val : Nat) : ∀ (len : Nat) (m : Mem) (dst : Nat),
    dst + len ≤ 2 ^ 64 → memset_bytes len m dst val = fill m dst len (val % 256) := by
  intro len
  induction len with
  | zero => intro m dst _; simp [memset_bytes, fill_zero]
  | succ n ih =>
    intro m dst h
    rw [memset_bytes]
    by_cases hn : n = 0
    · subst hn
      simp [memset_bytes, write8_eq_fill]
    · have h1 : (dst + 1) % 2 ^ 64 = dst + 1 := Nat.mod_eq_of_lt (by omega)
      rw [h1, ih _ _ (by omega), write8_eq_fill, fill_fill, Nat.add_comm 1 n]

theorem byte_of_splat (v i : Nat) (hv : v < 256) (hi : i < 8) :
    (v * 0x0101010101010101 / 256 ^ i) % 256 = v := by
  interval_cases i
  · norm_num; omega
  · have : v * 0x0101010101010101 / 256 ^ 1 = v * 0x01010101010101 := by norm_num; omega
    rw [this]; omega
  · have : v * 0x0101010101010101 / 256 ^ 2 = v * 0x010101010101 := by norm_num; omega
    rw [this]; omega
  · have : v * 0x0101010101010101 / 256 ^ 3 = v * 0x0101010101 := by norm_num; omega
    rw [this]; omega
  · have : v * 0x0101010101010101 / 256 ^ 4 = v * 0x01010101 := by norm_num; omega
    rw [this]; omega
  · have : v * 0x0101010101010101 / 256 ^ 5 = v * 0x010101 := by norm_num; omega
    rw [this]; omega
  · have : v * 0x0101010101010101 / 256 ^ 6 = v * 0x0101 := by norm_num; omega
    rw [this]; omega
  · have : v * 0x0101010101010101 / 256 ^ 7 = v * 0x01 := by norm_num; omega
    rw [this]; omega

theorem write64_splat (m : Mem) (a v : Nat) (hv : v < 256) :
    write64 m a (v * 0x0101010101010101) = fill m a 8 v := by
  funext x
  simp only [write64, fill]
  split_ifs with h
  · exact byte_of_splat v (x - a) hv (by omega)
  · rfl

theorem memset_words_spec (v : Nat) (hv : v < 256) : ∀ (fuel : Nat) (m : Mem) (d len : Nat),
    len ≤ fuel → d + len ≤ 2 ^ 64 →
    memset_words fuel m d (v * 0x0101010101010101) len =
      (fill m d (8 * ((len - 1) / 8)) v, d + 8 * ((len - 1) / 8), len - 8 * ((len - 1) / 8)) := by
  intro fuel
  induction fuel with
  | zero =>
    intro m d len h _
    have : len = 0 := by omega
    subst this
    simp [memset_words, fill_zero]
  | succ n ih =>
    intro m d len h hd
    rw [memset_words]
    by_cases hl : len > 8
    · rw [if_pos hl]
      have h1 : (d + 8) % 2 ^ 64 = d + 8 := Nat.mod_eq_of_lt (by omega)
      rw [h1, ih _ _ _ (by omega) (by omega), write64_splat _ _ _ hv, fill_fill]
      have e : 8 + 8 * ((len - 8 - 1) / 8) = 8 * ((len - 1) / 8) := by omega
      rw [e]
      refine Prod.ext rfl (Prod.ext ?_ ?_) <;> simp <;> omega
    · rw [if_neg hl]
      have e : (len - 1) / 8 = 0 := by omega
      simp [e, fill_zero]

theorem memset_align_spec (val : Nat) : ∀ (fuel : Nat) (m : Mem) (dst len : Nat),
    (8 - dst % 8) % 8 ≤ fuel → (8 - dst % 8) % 8 ≤ len → len < 2 ^ 64 →
    dst + (8 - dst % 8) % 8 < 2 ^ 64 →
    memset_align fuel m dst val len =
      (fill m dst ((8 - dst % 8) % 8) (val % 256), dst + (8 - dst % 8) % 8,
        len - (8 - dst % 8) % 8) := by
  intro fuel
  induction fuel with
  | zero =>
    intro m dst len h _ _ _
    have e : (8 - dst % 8) % 8 = 0 := by omega
    simp [memset_align, e, fill_zero]
  | succ n ih =>
    intro m dst len h hl hlen hd
    rw [memset_align, and_long_mask]
    by_cases ha : dst % 8 = 0
    · have e : (8 - dst % 8) % 8 = 0 := by omega
      simp [ha, fill_zero]
    · rw [if_pos ha]
      have h1 : (dst + 1) % 2 ^ 64 = dst + 1 := Nat.mod_eq_of_lt (by omega)
      have h2 : (len + (2 ^ 64 - 1)) % 2 ^ 64 = len - 1 := by omega
      rw [h1, h2, ih _ _ _ (by omega) (by omega) (by omega) (by omega), write8_eq_fill, fill_fill]
      have e : 1 + (8 - (dst + 1) % 8) % 8 = (8 - dst % 8) % 8 := by omega
      rw [e]
      refine Prod.ext rfl (Prod.ext ?_ ?_) <;> simp <;> omega

theorem memset_spec (m : Mem) (dst val len : Nat) (h : dst + len ≤ 2 ^ 64) (hlen : len < 2 ^ 64) :
    memset m dst val len = fill m dst len (val % 256) := by
  have hv : val &&& 0xFF = val % 256 := by
    have := Nat.and_pow_two_sub_one_eq_mod val 8
    simpa using this
  have hk : ((val &&& 0xFF) * ((2 ^ 64 - 1) / 255)) % 2 ^ 64 = (val % 256) * 0x0101010101010101 := by
    rw [hv]
    have : val % 256 < 256 := Nat.mod_lt _ (by norm_num)
    omega
  unfold memset
  simp only [hk]
  by_cases hl : len ≥ 16
  · rw [if_pos hl]
    rw [memset_align_spec val 8 m dst len (by omega) (by omega) (by omega) (by omega)]
    simp only []
    rw [memset_words_spec (val % 256) (Nat.mod_lt _ (by norm_num)) _ _ _ _ (le_refl _) (by omega)]
    simp only []
    rw [memset_bytes_spec val _ _ _ (by omega), fill_fill, fill_fill]
    have e : (8 - dst % 8) % 8 + (8 * ((len - (8 - dst % 8) % 8 - 1) / 8) +
        (len - (8 - dst % 8) % 8 - 8 * ((len - (8 - dst % 8) % 8 - 1) / 8))) = len := by omega
    rw [e]
  · rw [if_neg hl]
    exact memset_bytes_spec val len m dst h

theorem phys_alloc_page_eq_fill : phys_alloc_page = phys_alloc_page_fill := by
  funext s z
  unfold phys_alloc_page phys_alloc_page_fill
  simp only []
  split
  · rfl
  · split
    · rfl
    · rename_i i _
      have h : ((scan_bitmap s.bitmap_size s.mem s.bitmap ((s.bitmap + s.bitmap_size) % 2 ^ 64)
          - s.bitmap) * 8 + i) * PAGE_SIZE % 2 ^ 64 + PAGE_SIZE ≤ 2 ^ 64 := by
        unfold PAGE_SIZE; omega
      rw [memset_spec _ _ _ _ h (by unfold PAGE_SIZE; norm_num)]

theorem get_table_eq_fill : get_table = get_table_fill := by
  funext s table index flags
  unfold get_table get_table_fill
  rw [phys_alloc_page_eq_fill]

theorem map_page_eq_fill : map_page = map_page_fill := by
  funext s dir phys virt flags
  unfold map_page map_page_fill
  rw [get_table_eq_fill]

theorem heap_request_page_eq_fill : heap_request_page = heap_request_page_fill := by
  funext s
  unfold heap_request_page heap_request_page_fill
  rw [phys_alloc_page_eq_fill, map_page_eq_fill]

theorem init_kmalloc_pages_eq_fill : init_kmalloc_pages = init_kmalloc_pages_fill := by
  funext fuel
  induction fuel with
  | zero => funext pages i p iter; rfl
  | succ n ih =>
    funext pages i p iter
    rw [init_kmalloc_pages, init_kmalloc_pages_fill, phys_alloc_page_eq_fill, map_page_eq_fill, ih]

theorem init_kmalloc_eq_fill : init_kmalloc = init_kmalloc_fill := by
  funext p s pages
  unfold init_kmalloc init_kmalloc_fill
  rw [heap_request_page_eq_fill, init_kmalloc_pages_eq_fill]
/-! ## Frame allocator -/

theorem and_one_shiftLeft_eq_zero (b i : Nat) : b &&& (1 <<< i) = 0 ↔ b.testBit i = false := by
  rw [Nat.one_shiftLeft]
  constructor
  · intro h
    have := congrArg (fun x => x.testBit i) h
    simpa [Nat.testBit_and, Nat.testBit_two_pow_self] using this
  · intro h
    apply Nat.eq_of_testBit_eq
    intro j
    rw [Nat.testBit_and, Nat.testBit_two_pow, Nat.zero_testBit]
    by_cases hj : i = j
    · subst hj; simp [h]
    · simp [hj]

theorem byte_eq_ff_iff (b : Nat) (hb : b < 256) :
    b = 0xFF ↔ ∀ t, t < 8 → b.testBit t = true := by
  constructor
  · rintro rfl t ht
    have : (0xFF : Nat) = 2 ^ 8 - 1 := by norm_num
    rw [this, Nat.testBit_two_pow_sub_one]
    simpa using ht
  · intro h
    apply Nat.eq_of_testBit_eq
    intro i
    have e : (0xFF : Nat) = 2 ^ 8 - 1 := by norm_num
    rw [e, Nat.testBit_two_pow_sub_one]
    by_cases hi : i < 8
    · simp [hi, h i hi]
    · simp only [hi, decide_False]
      apply Nat.testBit_lt_two_pow
      calc b < 2 ^ 8 := hb
        _ ≤ 2 ^ i := Nat.pow_le_pow_right (by norm_num) (by omega)

theorem scan_bitmap_spec (m : Mem) (p_end q : Nat) (hq : q < p_end) (hne : read8 m q ≠ 0xFF) :
    ∀ (fuel p : Nat), p ≤ q → q - p < fuel → (∀ x, p ≤ x → x < q → read8 m x = 0xFF) →
      scan_bitmap fuel m p p_end = q := by
  intro fuel
  induction fuel with
  | zero => intro p _ h _; omega
  | succ n ih =>
    intro p hp hf hall
    rw [scan_bitmap]
    by_cases hpq : p = q
    · subst hpq
      rw [if_neg]
      exact fun h => hne h.2
    · have hlt : p < q := by omega
      rw [if_pos ⟨by omega, hall p (le_refl _) hlt⟩]
      exact ih (p + 1) (by omega) (by omega) (fun x h1 h2 => hall x (by omega) h2)

theorem first_clear_bit_spec (b t : Nat) (ht : b.testBit t = false) :
    ∀ (n i : Nat), i ≤ t → t < i + n → (∀ j, i ≤ j → j < t → b.testBit j = true) →
      first_clear_bit b n i = some t := by
  intro n
  induction n with
  | zero => intro i h1 h2 _; omega
  | succ n ih =>
    intro i h1 h2 hall
    rw [first_clear_bit]
    by_cases hit : i = t
    · subst hit
      rw [if_pos ((and_one_shiftLeft_eq_zero b i).2 ht)]
    · have hlt : i < t := by omega
      have : ¬ (b &&& (1 <<< i) = 0) := by
        rw [and_one_shiftLeft_eq_zero, hall i (le_refl _) hlt]
        simp
      rw [if_neg this]
      exact ih (i + 1) (by omega) (by omega) (fun j h3 h4 => hall j (by omega) h4)

theorem testBit_or_one_shiftLeft (b t j : Nat) :
    (b ||| (1 <<< t)).testBit j = (b.testBit j || decide (t = j)) := by
  rw [Nat.testBit_or, Nat.one_shiftLeft, Nat.testBit_two_pow]

theorem or_one_shiftLeft_lt (b t : Nat) (hb : b < 256) (ht : t < 8) : b ||| (1 <<< t) < 256 := by
  have h1 : (1 : Nat) <<< t < 2 ^ 8 := by
    rw [Nat.one_shiftLeft]
    exact Nat.pow_lt_pow_right (by norm_num) ht
  exact Nat.or_lt_two_pow (n := 8) hb h1

theorem fill_apply_out (m : Mem) (a n b x : Nat) (h : x < a ∨ a + n ≤ x) :
    fill m a n b x = m x := by
  unfold fill
  rw [if_neg (by omega)]

theorem read8_fill_out (m : Mem) (a n b x : Nat) (h : x < a ∨ a + n ≤ x) :
    read8 (fill m a n b) x = read8 m x := by
  unfold read8
  rw [fill_apply_out m a n b x h]

theorem read8_fill_in (m : Mem) (a n b x : Nat) (h : a ≤ x ∧ x < a + n) :
    read8 (fill m a n b) x = b % 256 := by
  unfold read8 fill
  rw [if_pos h]

/-- The state after `set_page(k)` for a bit inside the bitmap: bit `k` is set
and the other bits of the bitmap are kept. -/
theorem bitmap_bit_set_page (s : phys_state) (k j : Nat)
    (hrange : s.bitmap + s.bitmap_size < 2 ^ 64) (hk : k < 8 * s.bitmap_size) :
    bitmap_bit (set_page s k) j = (bitmap_bit s j || decide (j = k)) := by
  have ha : (s.bitmap + k / 8) % 2 ^ 64 = s.bitmap + k / 8 := Nat.mod_eq_of_lt (by omega)
  unfold bitmap_bit set_page
  simp only [ha]
  rw [read8_write8]
  by_cases hb : s.bitmap + j / 8 = s.bitmap + k / 8
  · rw [if_pos hb, Nat.mod_eq_of_lt (or_one_shiftLeft_lt _ _ (read8_lt _ _) (Nat.mod_lt _ (by norm_num))),
      testBit_or_one_shiftLeft, hb]
    by_cases hjk : j = k
    · subst hjk; simp
    · have : k % 8 ≠ j % 8 := by omega
      simp [this, hjk]
  · rw [if_neg hb]
    have : j ≠ k := fun h => hb (by rw [h])
    simp [this]

theorem set_page_bitmap (s : phys_state) (k : Nat) : (set_page s k).bitmap = s.bitmap := rfl

theorem set_page_bitmap_size (s : phys_state) (k : Nat) :
    (set_page s k).bitmap_size = s.bitmap_size := rfl

/-- Behaviour of `phys_alloc_page` on a bitmap inside the address space whose lowest clear bit
is `k`: the value returned and the state left, whether or not the frame overlaps
the bitmap. -/
theorem phys_alloc_page_eq (s : phys_state) (zeroed : Bool) (k : Nat)
    (hrange : s.bitmap + s.bitmap_size < 2 ^ 64)
    (hsize : s.bitmap_size * 8 * 4096 ≤ 2 ^ 64)
    (hk : k < 8 * s.bitmap_size)
    (hclear : bitmap_bit s k = false)
    (hlow : ∀ j, j < k → bitmap_bit s j = true) :
    phys_alloc_page s zeroed = some (4096 * k,
      if zeroed then { set_page s k with mem := fill (set_page s k).mem (4096 * k) 4096 0 }
      else set_page s k) := by
  have hpe : (s.bitmap + s.bitmap_size) % 2 ^ 64 = s.bitmap + s.bitmap_size :=
    Nat.mod_eq_of_lt hrange
  have hbyte : read8 s.mem (s.bitmap + k / 8) ≠ 0xFF := by
    intro h
    have := (byte_eq_ff_iff _ (read8_lt _ _)).1 h (k % 8) (Nat.mod_lt _ (by norm_num))
    unfold bitmap_bit at hclear
    rw [hclear] at this
    exact Bool.false_ne_true this
  have hfull : ∀ x, s.bitmap ≤ x → x < s.bitmap + k / 8 → read8 s.mem x = 0xFF := by
    intro x h1 h2
    apply (byte_eq_ff_iff _ (read8_lt _ _)).2
    intro t ht
    have := hlow ((x - s.bitmap) * 8 + t) (by omega)
    unfold bitmap_bit at this
    have e1 : ((x - s.bitmap) * 8 + t) / 8 = x - s.bitmap := by omega
    have e2 : ((x - s.bitmap) * 8 + t) % 8 = t := by omega
    have e3 : s.bitmap + (x - s.bitmap) = x := by omega
    rwa [e1, e2, e3] at this
  have hscan : scan_bitmap s.bitmap_size s.mem s.bitmap (s.bitmap + s.bitmap_size) =
      s.bitmap + k / 8 :=
    scan_bitmap_spec s.mem _ _ (by omega) hbyte _ _ (by omega) (by omega) hfull
  have hbit : first_clear_bit (read8 s.mem (s.bitmap + k / 8)) 8 0 = some (k % 8) := by
    apply first_clear_bit_spec _ _ hclear 8 0 (by omega) (by omega)
    intro j _ hj
    have := hlow (k / 8 * 8 + j) (by omega)
    unfold bitmap_bit at this
    have e1 : (k / 8 * 8 + j) / 8 = k / 8 := by omega
    have e2 : (k / 8 * 8 + j) % 8 = j := by omega
    rwa [e1, e2] at this
  have hpg : (((s.bitmap + k / 8 - s.bitmap) * 8 + k % 8) * PAGE_SIZE) % 2 ^ 64 = 4096 * k := by
    unfold PAGE_SIZE
    have : s.bitmap + k / 8 - s.bitmap = k / 8 := by omega
    rw [this]
    omega
  have hdiv : 4096 * k / PAGE_SIZE = k := by unfold PAGE_SIZE; omega
  rw [phys_alloc_page_eq_fill]
  unfold phys_alloc_page_fill
  simp only [hpe, hscan, hbit, hpg, hdiv]
  rw [if_neg (by omega)]
  cases zeroed <;> rfl

/-- C4 (amended): when `k` is the lowest clear bit of a bitmap that lies inside
the address space, and the frame `k` does not overlap the bytes of the bitmap
(or `zeroed` is false), `phys_alloc_page` returns `4096 * k`, and afterwards bit
`k` is set and every other bit of the bitmap is unchanged. -/
theorem phys_alloc_page_lowest_clear_bit (s : phys_state) (zeroed : Bool) (k : Nat)
    (hrange : s.bitmap + s.bitmap_size < 2 ^ 64)
    (hsize : s.bitmap_size * 8 * 4096 ≤ 2 ^ 64)
    (hk : k < 8 * s.bitmap_size)
    (hclear : bitmap_bit s k = false)
    (hlow : ∀ j, j < k → bitmap_bit s j = true)
    (hsep : zeroed = true →
      4096 * k + 4096 ≤ s.bitmap ∨ s.bitmap + s.bitmap_size ≤ 4096 * k) :
    ∃ s1, phys_alloc_page s zeroed = some (4096 * k, s1) ∧
      s1.bitmap = s.bitmap ∧ s1.bitmap_size = s.bitmap_size ∧
      bitmap_bit s1 k = true ∧
      ∀ j, j < 8 * s.bitmap_size → j ≠ k → bitmap_bit s1 j = bitmap_bit s j := by
  rw [phys_alloc_page_eq s zeroed k hrange hsize hk hclear hlow]
  cases zeroed with
  | false =>
    refine ⟨set_page s k, rfl, rfl, rfl, ?_, ?_⟩
    · rw [bitmap_bit_set_page s k k hrange hk]; simp
    · intro j _ hjk
      rw [bitmap_bit_set_page s k j hrange hk]; simp [hjk]
  | true =>
    have hs := hsep rfl
    refine ⟨_, rfl, rfl, rfl, ?_, ?_⟩
    · have hb := bitmap_bit_set_page s k k hrange hk
      unfold bitmap_bit at hb ⊢
      simp only [if_true]
      rw [set_page_bitmap] at hb
      rw [set_page_bitmap, read8_fill_out _ _ _ _ _ (by omega), hb]
      simp
    · intro j hj hjk
      have hb := bitmap_bit_set_page s k j hrange hk
      unfold bitmap_bit at hb ⊢
      simp only [if_true]
      rw [set_page_bitmap] at hb
      rw [set_page_bitmap, read8_fill_out _ _ _ _ _ (by omega), hb]
      simp [hjk]

/-- Witness of `phys_alloc_page_lowest_clear_bit`: in `phys_example` the lowest
clear bit is bit 9 and frame 9 lies outside the bitmap. -/
theorem phys_alloc_page_lowest_clear_bit_witness :
    ∃ s1, phys_alloc_page phys_example true = some (4096 * 9, s1) ∧
      s1.bitmap = phys_example.bitmap ∧ s1.bitmap_size = phys_example.bitmap_size ∧
      bitmap_bit s1 9 = true ∧
      ∀ j, j < 8 * phys_example.bitmap_size → j ≠ 9 →
        bitmap_bit s1 j = bitmap_bit phys_example j :=
  phys_alloc_page_lowest_clear_bit phys_example true 9 (by decide) (by decide) (by decide)
    (by decide) (by decide) (fun _ => Or.inr (by decide))

set_option maxRecDepth 1000000 in
/-- C4 as stated fails when the frame handed out holds the bitmap: in
`phys_bitmap_in_free_frame` the lowest clear bit is bit 512, the call returns
`4096 * 512` and then zeroes that frame, so that afterwards bit 512 is clear
again and bit 0, which was set, is clear as well. -/
theorem phys_alloc_page_zeroes_bitmap :
    bitmap_bit phys_bitmap_in_free_frame 0 = true ∧
    bitmap_bit phys_bitmap_in_free_frame 512 = false ∧
    (∀ j, j < 512 → bitmap_bit phys_bitmap_in_free_frame j = true) ∧
    (phys_alloc_page phys_bitmap_in_free_frame true).map
        (fun r => (r.1, bitmap_bit r.2 512, bitmap_bit r.2 0)) =
      some (4096 * 512, false, false) := by
  refine ⟨by decide, by decide, ?_, ?_⟩
  · decide
  · decide
theorem scan_bitmap_props (m : Mem) (p_end : Nat) :
    ∀ (fuel p : Nat), p ≤ p_end →
      p ≤ scan_bitmap fuel m p p_end ∧ scan_bitmap fuel m p p_end ≤ p_end ∧
      (∀ x, p ≤ x → x < scan_bitmap fuel m p p_end → read8 m x = 0xFF) ∧
      (scan_bitmap fuel m p p_end < p_end → p_end - p ≤ fuel →
        read8 m (scan_bitmap fuel m p p_end) ≠ 0xFF) := by
  intro fuel
  induction fuel with
  | zero =>
    intro p hp
    simp only [scan_bitmap]
    exact ⟨le_refl _, hp, fun x h1 h2 => by omega, fun h1 h2 => by omega⟩
  | succ n ih =>
    intro p hp
    rw [scan_bitmap]
    by_cases hc : p < p_end ∧ read8 m p = 0xFF
    · rw [if_pos hc]
      obtain ⟨h1, h2, h3, h4⟩ := ih (p + 1) (by omega)
      refine ⟨by omega, h2, ?_, fun ha hb => h4 ha (by omega)⟩
      intro x hx1 hx2
      by_cases hxp : x = p
      · rw [hxp]; exact hc.2
      · exact h3 x (by omega) hx2
    · rw [if_neg hc]
      refine ⟨le_refl _, hp, fun x h1 h2 => by omega, ?_⟩
      intro ha _ hff
      exact hc ⟨ha, hff⟩

theorem first_clear_bit_some (b : Nat) :
    ∀ (n i t : Nat), first_clear_bit b n i = some t →
      i ≤ t ∧ t < i + n ∧ b.testBit t = false ∧ ∀ j, i ≤ j → j < t → b.testBit j = true := by
  intro n
  induction n with
  | zero => intro i t h; simp [first_clear_bit] at h
  | succ n ih =>
    intro i t h
    rw [first_clear_bit] at h
    by_cases hc : b &&& (1 <<< i) = 0
    · rw [if_pos hc] at h
      cases h
      exact ⟨le_refl _, by omega, (and_one_shiftLeft_eq_zero b i).1 hc, fun j h1 h2 => by omega⟩
    · rw [if_neg hc] at h
      obtain ⟨h1, h2, h3, h4⟩ := ih (i + 1) t h
      refine ⟨by omega, by omega, h3, ?_⟩
      intro j hj1 hj2
      by_cases hji : j = i
      · subst hji
        have : ¬ (b.testBit j = false) := fun hf => hc ((and_one_shiftLeft_eq_zero b j).2 hf)
        simpa using this
      · exact h4 j (by omega) hj2

/-- What a successful `phys_alloc_page(true)` did: it picked a clear bit `k`,
set it, and zeroed the frame `4096 * k`. -/
theorem phys_alloc_page_inv (s : phys_state) (pg : Nat) (s1 : phys_state)
    (hrange : s.bitmap + s.bitmap_size < 2 ^ 64) (hsize : s.bitmap_size * 8 * 4096 ≤ 2 ^ 64)
    (h : phys_alloc_page s true = some (pg, s1)) :
    ∃ k, k < 8 * s.bitmap_size ∧ bitmap_bit s k = false ∧ pg = 4096 * k ∧
      s1 = { set_page s k with mem := fill (set_page s k).mem (4096 * k) 4096 0 } := by
  rw [phys_alloc_page_eq_fill] at h
  unfold phys_alloc_page_fill at h
  have hpe : (s.bitmap + s.bitmap_size) % 2 ^ 64 = s.bitmap + s.bitmap_size :=
    Nat.mod_eq_of_lt hrange
  simp only [hpe] at h
  obtain ⟨h1, h2, _, h4⟩ := scan_bitmap_props s.mem (s.bitmap + s.bitmap_size) s.bitmap_size
    s.bitmap (by omega)
  generalize scan_bitmap s.bitmap_size s.mem s.bitmap (s.bitmap + s.bitmap_size) = p at h h1 h2 h4
  by_cases hp : p = s.bitmap + s.bitmap_size
  · rw [if_pos hp] at h; simp at h
  rw [if_neg hp] at h
  split at h
  · simp at h
  rename_i i hi
  obtain ⟨_, hi8, hbit, _⟩ := first_clear_bit_some _ _ _ _ hi
  have hk : ((p - s.bitmap) * 8 + i) * PAGE_SIZE % 2 ^ 64 = 4096 * ((p - s.bitmap) * 8 + i) := by
    unfold PAGE_SIZE; omega
  have hd : 4096 * ((p - s.bitmap) * 8 + i) / PAGE_SIZE = (p - s.bitmap) * 8 + i := by
    unfold PAGE_SIZE; omega
  simp only [hk, hd, if_true, Option.some.injEq, Prod.mk.injEq] at h
  refine ⟨(p - s.bitmap) * 8 + i, by omega, ?_, h.1.symm, ?_⟩
  · unfold bitmap_bit
    have e1 : ((p - s.bitmap) * 8 + i) / 8 = p - s.bitmap := by omega
    have e2 : ((p - s.bitmap) * 8 + i) % 8 = i := by omega
    have e3 : s.bitmap + (p - s.bitmap) = p := by omega
    rw [e1, e2, e3]
    exact hbit
  · rw [← h.2]; rfl

/-! ## `phys_free_range` and `phys_init_multiboot` -/

theorem testBit_and_not_bit (b t j : Nat) (hb : b < 256) (ht : t < 8) :
    (b &&& (0xFF ^^^ (1 <<< t))).testBit j = (b.testBit j && !decide (j = t)) := by
  have e1 : (0xFF : Nat) = 2 ^ 8 - 1 := by norm_num
  rw [Nat.testBit_and, Nat.testBit_xor, e1, Nat.testBit_two_pow_sub_one, Nat.one_shiftLeft,
    Nat.testBit_two_pow]
  by_cases hj : j < 8
  · by_cases h : j = t
    · subst h; simp [hj]
    · have h2 : t ≠ j := fun h2 => h h2.symm
      simp [hj, h, h2]
  · have hb2 : b.testBit j = false := by
      apply Nat.testBit_lt_two_pow
      calc b < 2 ^ 8 := hb
        _ ≤ 2 ^ j := Nat.pow_le_pow_right (by norm_num) (by omega)
    simp [hb2]

theorem bitmap_bit_clear_page (s : phys_state) (p j : Nat) (h : s.bitmap + p / 8 < 2 ^ 64) :
    bitmap_bit (clear_page s p) j = (bitmap_bit s j && !decide (j = p)) := by
  have ha : (s.bitmap + p / 8) % 2 ^ 64 = s.bitmap + p / 8 := Nat.mod_eq_of_lt h
  unfold bitmap_bit clear_page
  simp only [ha]
  rw [read8_write8]
  by_cases hb : s.bitmap + j / 8 = s.bitmap + p / 8
  · rw [if_pos hb, Nat.mod_eq_of_lt (Nat.lt_of_le_of_lt Nat.and_le_left (read8_lt _ _)),
      testBit_and_not_bit _ _ _ (read8_lt _ _) (Nat.mod_lt _ (by norm_num)), hb]
    by_cases hjp : j = p
    · subst hjp; simp
    · have : j % 8 ≠ p % 8 := by omega
      simp [this, hjp]
  · rw [if_neg hb]
    have : j ≠ p := fun h => hb (by rw [h])
    simp [this]

/-- Closed form of the loop of `phys_free_range` on the bits of the bitmap, as
long as no address wraps: the bits of the pages `base / 4096 + i` up to
`base / 4096 + i + n - 1` are cleared, all others are kept. -/
theorem phys_free_range_loop_bits (base : Nat) :
    ∀ (n i : Nat) (s : phys_state), base + (i + n) * 4096 ≤ 2 ^ 64 →
      s.bitmap + (base / 4096 + i + n) / 8 < 2 ^ 64 →
      (phys_free_range_loop base n i s).bitmap = s.bitmap ∧
      (phys_free_range_loop base n i s).bitmap_size = s.bitmap_size ∧
      ∀ j, bitmap_bit (phys_free_range_loop base n i s) j =
        (bitmap_bit s j && !decide (base / 4096 + i ≤ j ∧ j < base / 4096 + i + n)) := by
  intro n
  induction n with
  | zero =>
    intro i s _ _
    refine ⟨rfl, rfl, ?_⟩
    intro j
    have : ¬ (base / 4096 + i ≤ j ∧ j < base / 4096 + i + 0) := by omega
    rw [phys_free_range_loop, decide_eq_false this]
    simp
  | succ n ih =>
    intro i s h1 h2
    rw [phys_free_range_loop]
    have hp : (base + i * PAGE_SIZE) % 2 ^ 64 / PAGE_SIZE = base / 4096 + i := by
      unfold PAGE_SIZE; omega
    unfold phys_free_page
    rw [hp]
    obtain ⟨a1, a2, a3⟩ := ih (i + 1) (clear_page s (base / 4096 + i)) (by omega)
      (by show s.bitmap + _ < _; omega)
    refine ⟨a1, a2, ?_⟩
    intro j
    rw [a3 j, bitmap_bit_clear_page s _ j (by omega)]
    by_cases hj : j = base / 4096 + i
    · subst hj
      have : (base / 4096 + i ≤ base / 4096 + i ∧ base / 4096 + i < base / 4096 + i + (n + 1)) := by
        omega
      simp [this]
    · by_cases hr : base / 4096 + i ≤ j ∧ j < base / 4096 + i + (n + 1)
      · have : base / 4096 + (i + 1) ≤ j ∧ j < base / 4096 + (i + 1) + n := by omega
        simp [hr, this, hj]
      · have : ¬ (base / 4096 + (i + 1) ≤ j ∧ j < base / 4096 + (i + 1) + n) := by omega
        simp [hr, this, hj]

theorem scan_mmap_64mib : scan_mmap mmap_64mib (0, none) =
      (0x4000000, some { base_addr := 0x100000, length := 0x4000000, type := 1 }) := rfl

theorem phys_init_multiboot_unfold (s : phys_state) (mmap : List multiboot_mmap_entry)
    (avail : Nat) (big : multiboot_mmap_entry) (s2 : phys_state)
    (h : scan_mmap mmap (0, none) = (avail, some big))
    (h2 : phys_free_range
      { s with bitmap := (big.base_addr + 0x100000) % 2 ^ 64,
               bitmap_size := avail / PAGE_SIZE / 8,
               mem := memset s.mem ((big.base_addr + 0x100000) % 2 ^ 64) 0xFF
                 (avail / PAGE_SIZE / 8) }
      (if (big.base_addr + (avail / PAGE_SIZE / 8 + 0x100000)) % 2 ^ 64 < 0x200000 then 0x200000
       else (big.base_addr + (avail / PAGE_SIZE / 8 + 0x100000)) % 2 ^ 64) big.length = s2) :
    phys_init_multiboot s mmap =
      (match phys_alloc_page s2 true with
       | none => none
       | some (_, s3) =>
         match phys_alloc_page s3 true with
         | none => none
         | some (_, s4) => some s4) := by
  unfold phys_init_multiboot
  rw [h]
  simp only []
  rw [h2]

theorem phys_init_multiboot_64mib :
    phys_init_multiboot phys_boot mmap_64mib =
      (match phys_alloc_page phys_after_free_range true with
       | none => none
       | some (_, s3) =>
         match phys_alloc_page s3 true with
         | none => none
         | some (_, s4) => some s4) := by
  apply phys_init_multiboot_unfold phys_boot mmap_64mib 0x4000000
    { base_addr := 0x100000, length := 0x4000000, type := 1 } phys_after_free_range scan_mmap_64mib
  have e1 : ((0x100000 : Nat) + 0x100000) % 2 ^ 64 = 0x200000 := by norm_num
  have e2 : (0x4000000 : Nat) / PAGE_SIZE / 8 = 2048 := by unfold PAGE_SIZE; norm_num
  have e3 : ((0x100000 : Nat) + (2048 + 0x100000)) % 2 ^ 64 = 0x200800 := by norm_num
  have e4 : ¬ ((0x200800 : Nat) < 0x200000) := by norm_num
  simp only []
  rw [e1, e2, e3, if_neg e4]
  unfold phys_after_free_range
  exact Eq.refl _

theorem phys_after_free_range_bits :
    phys_after_free_range.bitmap = 0x200000 ∧ phys_after_free_range.bitmap_size = 2048 ∧
    ∀ j, j < 16384 → bitmap_bit phys_after_free_range j = decide (j < 512) := by
  obtain ⟨h1, h2, h3⟩ := phys_free_range_loop_bits 0x200800 0x4000000 0
    { phys_boot with
      bitmap := 0x200000, bitmap_size := 2048,
      mem := memset phys_boot.mem 0x200000 0xFF 2048 } (by norm_num) (by norm_num)
  refine ⟨h1, h2, ?_⟩
  intro j hj
  unfold phys_after_free_range phys_free_range
  rw [h3 j]
  have hb : bitmap_bit { phys_boot with
      bitmap := 0x200000, bitmap_size := 2048,
      mem := memset phys_boot.mem 0x200000 0xFF 2048 } j = true := by
    unfold bitmap_bit
    simp only []
    rw [memset_spec _ _ _ _ (by norm_num) (by norm_num), read8_fill_in _ _ _ _ _ (by omega)]
    have : (0xFF % 256 % 256 : Nat) = 2 ^ 8 - 1 := by norm_num
    rw [this, Nat.testBit_two_pow_sub_one]
    simp
    omega
  rw [hb]
  by_cases h : j < 512
  · have : ¬ (0x200800 / 4096 + 0 ≤ j ∧ j < 0x200800 / 4096 + 0 + 0x4000000) := by omega
    simp [h, this]
  · have : (0x200800 / 4096 + 0 ≤ j ∧ j < 0x200800 / 4096 + 0 + 0x4000000) := by omega
    simp [h, this]

/-- Behaviour of `phys_alloc_page(true)` on a bitmap inside the address space whose lowest
clear bit is `k`: frame `k` is returned; afterwards the bits of the bitmap whose
byte lies in that frame are clear, and the other bits are kept except that bit
`k` is set. -/
theorem phys_alloc_page_true_spec (s : phys_state) (k : Nat)
    (hrange : s.bitmap + s.bitmap_size < 2 ^ 64)
    (hsize : s.bitmap_size * 8 * 4096 ≤ 2 ^ 64)
    (hk : k < 8 * s.bitmap_size)
    (hclear : bitmap_bit s k = false)
    (hlow : ∀ j, j < k → bitmap_bit s j = true) :
    ∃ s1, phys_alloc_page s true = some (4096 * k, s1) ∧
      s1.bitmap = s.bitmap ∧ s1.bitmap_size = s.bitmap_size ∧
      (∀ j, 4096 * k ≤ s.bitmap + j / 8 → s.bitmap + j / 8 < 4096 * k + 4096 →
        bitmap_bit s1 j = false) ∧
      (∀ j, (s.bitmap + j / 8 < 4096 * k ∨ 4096 * k + 4096 ≤ s.bitmap + j / 8) →
        bitmap_bit s1 j = (bitmap_bit s j || decide (j = k))) := by
  refine ⟨_, phys_alloc_page_eq s true k hrange hsize hk hclear hlow, rfl, rfl, ?_, ?_⟩
  · intro j h1 h2
    unfold bitmap_bit
    simp only [if_true]
    rw [set_page_bitmap, read8_fill_in _ _ _ _ _ ⟨h1, h2⟩]
    simp
  · intro j h
    have hsp := bitmap_bit_set_page s k j hrange hk
    unfold bitmap_bit at hsp ⊢
    simp only [if_true]
    rw [set_page_bitmap] at hsp
    rw [set_page_bitmap, read8_fill_out _ _ _ _ _ h, hsp]

/-- C5 fails on the code: for the memory map `mmap_64mib` (640 KiB reserved at
0, 64 MiB available at 1 MiB) `phys_init_multiboot` returns, and the next
`phys_alloc_page` returns `0x1000`, below 2 MiB.  The bitmap (2048 bytes at
`0x200000`) does not fill its frame, the free range starts inside that frame, so
the first allocation made by `phys_init_multiboot` hands out and zeroes the
frame `0x200000` that holds the bitmap and the second one returns frame 0. -/
theorem phys_alloc_page_below_2mib :
    ∃ s p s1, phys_init_multiboot phys_boot mmap_64mib = some s ∧
      phys_alloc_page s true = some (p, s1) ∧ p = 0x1000 ∧ p < 0x200000 := by
  obtain ⟨hb2, hs2, hbits2⟩ := phys_after_free_range_bits
  -- first allocation of `phys_init_multiboot`: frame 512, which holds the bitmap
  obtain ⟨s3, ha1, hb3, hz3, hin3, _⟩ := phys_alloc_page_true_spec phys_after_free_range 512
    (by rw [hb2, hs2]; norm_num) (by rw [hs2]; norm_num) (by rw [hs2]; norm_num)
    (by rw [hbits2 512 (by norm_num)]; simp)
    (by intro j hj; rw [hbits2 j (by omega)]; simpa using hj)
  rw [hb2] at hb3 hin3
  rw [hs2] at hz3
  have hbits3 : ∀ j, j < 16384 → bitmap_bit s3 j = false :=
    fun j hj => hin3 j (by omega) (by omega)
  -- second allocation: frame 0
  obtain ⟨s4, ha2, hb4, hz4, _, hout4⟩ := phys_alloc_page_true_spec s3 0
    (by rw [hb3, hz3]; norm_num) (by rw [hz3]; norm_num) (by rw [hz3]; norm_num)
    (hbits3 0 (by norm_num)) (by intro j hj; omega)
  rw [hb3] at hb4 hout4
  rw [hz3] at hz4
  have hbits4 : ∀ j, j < 16384 → bitmap_bit s4 j = decide (j = 0) := by
    intro j hj
    rw [hout4 j (by omega), hbits3 j hj]
    simp
  -- the allocation after `phys_init_multiboot`: frame 1
  obtain ⟨s5, ha3, _⟩ := phys_alloc_page_true_spec s4 1
    (by rw [hb4, hz4]; norm_num) (by rw [hz4]; norm_num) (by rw [hz4]; norm_num)
    (by rw [hbits4 1 (by norm_num)]; simp)
    (by
      intro j hj
      have : j = 0 := by omega
      subst this
      rw [hbits4 0 (by norm_num)]; simp)
  refine ⟨s4, 4096 * 1, s5, ?_, ha3, by norm_num, by norm_num⟩
  rw [phys_init_multiboot_64mib, ha1]
  simp only []
  rw [ha2]

/-! ## Bit fields of page-table entries -/

theorem pgaddr_mask_eq : PGADDR_MASK = (2 ^ 52 - 1) <<< 12 := by decide

theorem testBit_pgaddr_mask (i : Nat) :
    PGADDR_MASK.testBit i = (decide (12 ≤ i) && decide (i < 64)) := by
  rw [pgaddr_mask_eq, Nat.testBit_shiftLeft, Nat.testBit_two_pow_sub_one]
  by_cases h : 12 ≤ i
  · by_cases h2 : i < 64
    · simp [h, h2]; omega
    · simp [h, h2]; omega
  · simp [h]

theorem testBit_of_lt_two_pow_64 (x i : Nat) (hx : x < 2 ^ 64) (hi : 64 ≤ i) :
    x.testBit i = false := by
  apply Nat.testBit_lt_two_pow
  calc x < 2 ^ 64 := hx
    _ ≤ 2 ^ i := Nat.pow_le_pow_right (by norm_num) hi

theorem and_pgaddr_mask (x : Nat) (hx : x < 2 ^ 64) :
    x &&& PGADDR_MASK = x / 4096 * 4096 := by
  apply Nat.eq_of_testBit_eq
  intro i
  have e : x / 4096 * 4096 = (x >>> 12) <<< 12 := by
    rw [Nat.shiftRight_eq_div_pow, Nat.shiftLeft_eq]
  rw [e, Nat.testBit_and, testBit_pgaddr_mask, Nat.testBit_shiftLeft, Nat.testBit_shiftRight]
  by_cases h : 12 ≤ i
  · have e2 : 12 + (i - 12) = i := by omega
    by_cases h2 : i < 64
    · simp [h, h2, e2]
    · simp [h, h2, e2, testBit_of_lt_two_pow_64 x i hx (by omega)]
  · simp [h]

theorem and_pgaddr_mask_mod (x : Nat) (hx : x < 2 ^ 64) : (x &&& PGADDR_MASK) % 4096 = 0 := by
  rw [and_pgaddr_mask x hx]; omega

theorem and_pgaddr_mask_le (x : Nat) (hx : x < 2 ^ 64) : x &&& PGADDR_MASK ≤ 2 ^ 64 - 4096 := by
  rw [and_pgaddr_mask x hx]; omega

theorem pte_addr_aligned (table index : Nat) (h : table % 8 = 0) :
    pte_addr table index % 8 = 0 := by
  unfold pte_addr; omega

theorem pte_addr_of_entry_aligned (m : Mem) (a index : Nat) :
    pte_addr (read64 m a &&& PGADDR_MASK) index % 8 = 0 := by
  apply pte_addr_aligned
  have := and_pgaddr_mask_mod (read64 m a) (read64_lt m a)
  omega

theorem pte_present_clear (e : Nat) : pte_present (pte_assign e 0 false % 2 ^ 64) = false := by
  have hk : (0xFFFFFFFFFFFFFFFF ^^^ (1 <<< 0) : Nat).testBit 0 = false := by decide
  unfold pte_present pte_assign
  rw [if_neg (by simp), Nat.testBit_mod_two_pow, Nat.testBit_and, hk]
  simp

theorem read64_write64_aligned (m : Mem) (a v b : Nat) (ha : a % 8 = 0) (hb : b % 8 = 0) :
    read64 (write64 m a v) b = if b = a then v % 2 ^ 64 else read64 m b := by
  by_cases h : b = a
  · subst h; rw [if_pos rfl, read64_write64_same]
  · rw [if_neg h, read64_write64_disj]; omega

/-- A store that clears `present` in the P2 entry (huge page) or the P1 entry on
the walk of `virt` leaves `virt` not mapped, whichever entries share a slot. -/
theorem virt_to_phys_after_clear (s : phys_state) (dir virt x v : Nat)
    (hdir : dir % 8 = 0) (hv : pte_present (v % 2 ^ 64) = false)
    (hx : x = pte_addr (read64 s.mem (pte_addr (read64 s.mem (pte_addr dir (indexer virt).p4_idx)
            &&& PGADDR_MASK) (indexer virt).p3_idx) &&& PGADDR_MASK) (indexer virt).p2_idx ∨
      (pte_huge_page (read64 s.mem (pte_addr (read64 s.mem (pte_addr (read64 s.mem
          (pte_addr dir (indexer virt).p4_idx) &&& PGADDR_MASK) (indexer virt).p3_idx)
          &&& PGADDR_MASK) (indexer virt).p2_idx)) = false ∧
       x = pte_addr (read64 s.mem (pte_addr (read64 s.mem (pte_addr (read64 s.mem
          (pte_addr dir (indexer virt).p4_idx) &&& PGADDR_MASK) (indexer virt).p3_idx)
          &&& PGADDR_MASK) (indexer virt).p2_idx) &&& PGADDR_MASK) (indexer virt).p1_idx)) :
    virt_to_phys { s with mem := write64 s.mem x v } dir virt = NotMapped := by
  have h4 := pte_addr_aligned dir (indexer virt).p4_idx hdir
  have hal := pte_addr_of_entry_aligned s.mem
  have halx : x % 8 = 0 := by
    rcases hx with rfl | ⟨_, rfl⟩ <;> exact hal _ _
  unfold virt_to_phys
  simp only []
  rw [read64_write64_aligned _ _ _ _ halx h4]
  by_cases c4 : pte_addr dir (indexer virt).p4_idx = x
  · rw [if_pos c4]
    simp only [hv, Bool.not_false, if_true]
  rw [if_neg c4]
  by_cases p4 : pte_present (read64 s.mem (pte_addr dir (indexer virt).p4_idx))
  swap
  · simp [p4]
  simp only [p4, Bool.not_true, Bool.false_eq_true, if_false]
  rw [read64_write64_aligned _ _ _ _ halx (hal _ _)]
  by_cases c3 : pte_addr (read64 s.mem (pte_addr dir (indexer virt).p4_idx) &&& PGADDR_MASK)
      (indexer virt).p3_idx = x
  · rw [if_pos c3]
    simp only [hv, Bool.not_false, if_true]
  rw [if_neg c3]
  by_cases p3 : pte_present (read64 s.mem (pte_addr (read64 s.mem
      (pte_addr dir (indexer virt).p4_idx) &&& PGADDR_MASK) (indexer virt).p3_idx))
  swap
  · simp [p3]
  simp only [p3, Bool.not_true, Bool.false_eq_true, if_false]
  rw [read64_write64_aligned _ _ _ _ halx (hal _ _)]
  by_cases c2 : pte_addr (read64 s.mem (pte_addr (read64 s.mem (pte_addr dir (indexer virt).p4_idx)
      &&& PGADDR_MASK) (indexer virt).p3_idx) &&& PGADDR_MASK) (indexer virt).p2_idx = x
  · rw [if_pos c2]
    simp only [hv, Bool.not_false, if_true]
  rw [if_neg c2]
  rcases hx with rfl | ⟨hh, rfl⟩
  · exact absurd rfl c2
  by_cases p2 : pte_present (read64 s.mem (pte_addr (read64 s.mem (pte_addr (read64 s.mem
      (pte_addr dir (indexer virt).p4_idx) &&& PGADDR_MASK) (indexer virt).p3_idx)
      &&& PGADDR_MASK) (indexer virt).p2_idx))
  swap
  · simp [p2]
  simp only [p2, hh, Bool.not_true, Bool.false_eq_true, if_false]
  rw [read64_write64_same]
  simp only [hv, Bool.not_false, if_true]

/-- C10: for every state, every 8-byte aligned table pointer `dir` and every
`virt`, `virt_to_phys(dir, virt)` returns `NotMapped` after
`unmap_page(dir, virt)`: whether an entry of the walk was missing, the page was a
huge P2 page or a 4 KiB page, and whichever entries of the walk share a slot. -/
theorem virt_to_phys_unmap_page (s : phys_state) (dir virt : Nat) (hdir : dir % 8 = 0) :
    virt_to_phys (unmap_page s dir virt) dir virt = NotMapped := by
  unfold unmap_page
  simp only []
  by_cases p4 : pte_present (read64 s.mem (pte_addr dir (indexer virt).p4_idx))
  swap
  · simp [p4, virt_to_phys]
  simp only [p4, Bool.not_true, Bool.false_eq_true, if_false]
  by_cases p3 : pte_present (read64 s.mem (pte_addr (read64 s.mem
      (pte_addr dir (indexer virt).p4_idx) &&& PGADDR_MASK) (indexer virt).p3_idx))
  swap
  · simp [p3, p4, virt_to_phys]
  simp only [p3, Bool.not_true, Bool.false_eq_true, if_false]
  by_cases p2 : pte_present (read64 s.mem (pte_addr (read64 s.mem (pte_addr (read64 s.mem
      (pte_addr dir (indexer virt).p4_idx) &&& PGADDR_MASK) (indexer virt).p3_idx)
      &&& PGADDR_MASK) (indexer virt).p2_idx))
  swap
  · simp [p2, p3, p4, virt_to_phys]
  simp only [p2, Bool.not_true, Bool.false_eq_true, if_false]
  by_cases hh : pte_huge_page (read64 s.mem (pte_addr (read64 s.mem (pte_addr (read64 s.mem
      (pte_addr dir (indexer virt).p4_idx) &&& PGADDR_MASK) (indexer virt).p3_idx)
      &&& PGADDR_MASK) (indexer virt).p2_idx))
  · simp only [hh, if_true]
    exact virt_to_phys_after_clear s dir virt _ _ hdir (pte_present_clear _) (Or.inl rfl)
  simp only [hh, Bool.false_eq_true, if_false]
  by_cases p1 : pte_present (read64 s.mem (pte_addr (read64 s.mem (pte_addr (read64 s.mem
      (pte_addr (read64 s.mem (pte_addr dir (indexer virt).p4_idx) &&& PGADDR_MASK)
      (indexer virt).p3_idx) &&& PGADDR_MASK) (indexer virt).p2_idx) &&& PGADDR_MASK)
      (indexer virt).p1_idx))
  swap
  · simp [p1, p2, p3, p4, hh, virt_to_phys]
  simp only [p1, Bool.not_true, Bool.false_eq_true, if_false]
  exact virt_to_phys_after_clear s dir virt _ _ hdir (pte_present_clear _)
    (Or.inr ⟨by simpa using hh, rfl⟩)

/-- Witness of `virt_to_phys_unmap_page`: the page `0x5000` of `phys_mapped`,
which translates to `0x400000` before the call. -/
theorem virt_to_phys_unmap_page_witness :
    virt_to_phys phys_mapped 0x1000 0x5000 = 0x400000 ∧
    virt_to_phys (unmap_page phys_mapped 0x1000 0x5000) 0x1000 0x5000 = NotMapped :=
  ⟨by decide, virt_to_phys_unmap_page phys_mapped 0x1000 0x5000 (by decide)⟩

/-! ## `get_table` and `map_page` -/

theorem testBit_aligned (x j : Nat) (hx : x % 4096 = 0) (hj : j < 12) : x.testBit j = false := by
  have e : x = 2 ^ 12 * (x / 4096) := by omega
  rw [e, Nat.testBit_mul_pow_two]
  simp
  omega

theorem pte_assign_lt (e bit : Nat) (b : Bool) (he : e < 2 ^ 64) (hb : bit < 64) :
    pte_assign e bit b < 2 ^ 64 := by
  unfold pte_assign
  cases b with
  | true =>
    rw [if_pos rfl]
    apply Nat.or_lt_two_pow he
    rw [Nat.one_shiftLeft]
    exact Nat.pow_lt_pow_right (by norm_num) hb
  | false =>
    rw [if_neg (by simp)]
    exact Nat.lt_of_le_of_lt Nat.and_le_left he

theorem testBit_pte_assign (e bit : Nat) (b : Bool) (j : Nat) (he : e < 2 ^ 64) (hb : bit < 64) :
    (pte_assign e bit b).testBit j = if j = bit then b else e.testBit j := by
  unfold pte_assign
  cases b with
  | true =>
    rw [if_pos rfl, testBit_or_one_shiftLeft]
    by_cases h : j = bit
    · subst h; simp
    · have : bit ≠ j := fun h2 => h h2.symm
      simp [h, this]
  | false =>
    rw [if_neg (by simp)]
    have e1 : (0xFFFFFFFFFFFFFFFF : Nat) = 2 ^ 64 - 1 := by norm_num
    rw [Nat.testBit_and, Nat.testBit_xor, e1, Nat.testBit_two_pow_sub_one, Nat.one_shiftLeft,
      Nat.testBit_two_pow]
    by_cases h : j = bit
    · subst h; simp [hb]
    · have h2 : bit ≠ j := fun h2 => h h2.symm
      by_cases hj : j < 64
      · simp [h, h2, hj]
      · simp [h, h2, hj, testBit_of_lt_two_pow_64 e j he (by omega)]

/-- The entry that `get_table` builds for a freshly allocated table at `pg`. -/
theorem fresh_entry_props (pg : Nat) (b1 b2 : Bool) (hpg : pg % 4096 = 0) (hlt : pg < 2 ^ 64) :
    pte_assign (pte_assign (pte_assign pg 0 true) 1 b1) 2 b2 < 2 ^ 64 ∧
    pte_present (pte_assign (pte_assign (pte_assign pg 0 true) 1 b1) 2 b2) = true ∧
    pte_huge_page (pte_assign (pte_assign (pte_assign pg 0 true) 1 b1) 2 b2) = false ∧
    pte_assign (pte_assign (pte_assign pg 0 true) 1 b1) 2 b2 &&& PGADDR_MASK = pg := by
  have h0 := pte_assign_lt pg 0 true hlt (by norm_num)
  have h1 := pte_assign_lt _ 1 b1 h0 (by norm_num)
  have h2 := pte_assign_lt _ 2 b2 h1 (by norm_num)
  have hbit : ∀ j, (pte_assign (pte_assign (pte_assign pg 0 true) 1 b1) 2 b2).testBit j =
      if j = 2 then b2 else if j = 1 then b1 else if j = 0 then true else pg.testBit j := by
    intro j
    rw [testBit_pte_assign _ _ _ _ h1 (by norm_num), testBit_pte_assign _ _ _ _ h0 (by norm_num),
      testBit_pte_assign _ _ _ _ hlt (by norm_num)]
  refine ⟨h2, ?_, ?_, ?_⟩
  · unfold pte_present
    rw [hbit]; simp
  · unfold pte_huge_page
    rw [hbit]
    simp
    exact testBit_aligned pg 7 hpg (by norm_num)
  · apply Nat.eq_of_testBit_eq
    intro j
    rw [Nat.testBit_and, testBit_pgaddr_mask, hbit]
    by_cases hj : 12 ≤ j
    · by_cases hj2 : j < 64
      · have a1 : j ≠ 2 := by omega
        have a2 : j ≠ 1 := by omega
        have a3 : j ≠ 0 := by omega
        simp [hj, hj2, a1, a2, a3]
      · simp [hj, hj2, testBit_of_lt_two_pow_64 pg j hlt (by omega)]
    · simp [hj, testBit_aligned pg j hpg (by omega)]

/-- The leaf entry that `map_page` writes, for a page-aligned `phys` and flags
within the low twelve bits. -/
theorem leaf_entry_props (phys flags : Nat) (hphys : phys % 4096 = 0) (hlt : phys < 2 ^ 64)
    (hflags : flags < 4096) (hp : flags % 2 = 1) :
    ((phys &&& PGADDR_MASK) ||| flags) < 2 ^ 64 ∧
    pte_present ((phys &&& PGADDR_MASK) ||| flags) = true ∧
    ((phys &&& PGADDR_MASK) ||| flags) &&& PGADDR_MASK = phys := by
  have e : phys &&& PGADDR_MASK = phys := by
    rw [and_pgaddr_mask phys hlt]; omega
  rw [e]
  have hf64 : flags < 2 ^ 64 := by omega
  refine ⟨Nat.or_lt_two_pow hlt hf64, ?_, ?_⟩
  · unfold pte_present
    rw [Nat.testBit_or]
    have : flags.testBit 0 = true := by simp [hp]
    simp [this]
  · apply Nat.eq_of_testBit_eq
    intro j
    rw [Nat.testBit_and, Nat.testBit_or, testBit_pgaddr_mask]
    by_cases hj : 12 ≤ j
    · have hf : flags.testBit j = false := by
        apply Nat.testBit_lt_two_pow
        calc flags < 2 ^ 12 := hflags
          _ ≤ 2 ^ j := Nat.pow_le_pow_right (by norm_num) hj
      by_cases hj2 : j < 64
      · simp [hj, hj2, hf]
      · simp [hj, hj2, hf, testBit_of_lt_two_pow_64 phys j hlt (by omega)]
    · simp [hj, testBit_aligned phys j hphys (by omega)]

theorem read8_write64_chain (m : Mem) (a v1 v2 v3 v4 x : Nat) (hx : x < a ∨ a + 8 ≤ x) :
    read8 (write64 (write64 (write64 (write64 m a v1) a v2) a v3) a v4) x = read8 m x := by
  rw [read8_write64_disj _ _ _ _ hx, read8_write64_disj _ _ _ _ hx,
    read8_write64_disj _ _ _ _ hx, read8_write64_disj _ _ _ _ hx]

theorem read64_fill_zero (m : Mem) (f n a : Nat) (h1 : f ≤ a) (h2 : a + 8 ≤ f + n) :
    read64 (fill m f n 0) a = 0 := by
  unfold read64
  rw [read8_fill_in _ _ _ _ _ (by omega), read8_fill_in _ _ _ _ _ (by omega),
    read8_fill_in _ _ _ _ _ (by omega), read8_fill_in _ _ _ _ _ (by omega),
    read8_fill_in _ _ _ _ _ (by omega), read8_fill_in _ _ _ _ _ (by omega),
    read8_fill_in _ _ _ _ _ (by omega), read8_fill_in _ _ _ _ _ (by omega)]

theorem pte_present_zero : pte_present 0 = false := by decide

/-- The memory after the allocation made by `get_table`, away from the slot and
from the new frame, is the memory before it up to the bitmap byte of the frame. -/
theorem read8_alloc_frame (s : phys_state) (k x : Nat)
    (hx : x < 4096 * k ∨ 4096 * k + 4096 ≤ x)
    (hb : x ≠ (s.bitmap + k / 8) % 2 ^ 64) :
    read8 (fill (set_page s k).mem (4096 * k) 4096 0) x = read8 s.mem x := by
  rw [read8_fill_out _ _ _ _ _ hx]
  unfold set_page
  simp only []
  rw [read8_write8_ne _ _ _ _ hb]

theorem bitmap_bit_congr (s s1 : phys_state) (j : Nat) (hb : s1.bitmap = s.bitmap)
    (hm : read8 s1.mem (s.bitmap + j / 8) = read8 s.mem (s.bitmap + j / 8)) :
    bitmap_bit s1 j = bitmap_bit s j := by
  unfold bitmap_bit
  rw [hb, hm]

/-- One level of the walk of `map_page`. -/
theorem get_table_step (s : phys_state) (table index flags t : Nat) (s1 : phys_state)
    (F : List Nat)
    (hg : get_table s table index flags = some (t, s1))
    (hwf : alloc_wf s) (hidx : index < 512)
    (hres : ∀ f ∈ F, frame_reserved s f) (htab : table ∈ F)
    (hchild : pte_present (read64 s.mem (pte_addr table index)) = true →
        frame_reserved s (read64 s.mem (pte_addr table index) &&& PGADDR_MASK) ∧
        read64 s.mem (pte_addr table index) &&& PGADDR_MASK ∉ F) :
    alloc_wf s1 ∧ (∀ f ∈ F, frame_reserved s1 f) ∧ frame_reserved s1 t ∧ t ∉ F ∧
    pte_present (read64 s1.mem (pte_addr table index)) = true ∧
    read64 s1.mem (pte_addr table index) &&& PGADDR_MASK = t ∧
    (pte_present (read64 s.mem (pte_addr table index)) = true → s1 = s) ∧
    (pte_present (read64 s.mem (pte_addr table index)) = false →
        pte_huge_page (read64 s1.mem (pte_addr table index)) = false ∧
        ∀ a, t ≤ a → a + 8 ≤ t + 4096 → read64 s1.mem a = 0) ∧
    (∀ a f, f ∈ F → f ≤ a → a + 8 ≤ f + 4096 →
        (a + 8 ≤ pte_addr table index ∨ pte_addr table index + 8 ≤ a) →
        read64 s1.mem a = read64 s.mem a) := by
  unfold get_table at hg
  simp only [] at hg
  by_cases hp : pte_present (read64 s.mem (pte_addr table index)) = true
  · rw [if_pos hp] at hg
    simp only [Option.some.injEq, Prod.mk.injEq] at hg
    obtain ⟨rfl, rfl⟩ := hg
    refine ⟨hwf, hres, (hchild hp).1, (hchild hp).2, hp, rfl, fun _ => rfl, ?_, ?_⟩
    · intro h; rw [hp] at h; exact absurd h (by simp)
    · intro a f _ _ _ _; rfl
  · rw [if_neg hp] at hg
    split at hg
    · simp at hg
    rename_i pg s0 halloc
    obtain ⟨hrange, hsize, hfree⟩ := hwf
    obtain ⟨k, hk, hbit, rfl, rfl⟩ := phys_alloc_page_inv s pg s0 hrange hsize halloc
    simp only [Option.some.injEq, Prod.mk.injEq] at hg
    obtain ⟨ht, hs1⟩ := hg
    have hkb := hfree k hk hbit
    obtain ⟨htal, htlt, htbm, htbit⟩ := hres table htab
    have hslot : pte_addr table index = table + 8 * index := by
      unfold pte_addr; exact Nat.mod_eq_of_lt (by omega)
    have hpglt : 4096 * k < 2 ^ 64 := by omega
    have hne : ∀ f ∈ F, f ≠ 4096 * k := by
      intro f hf heq
      obtain ⟨_, _, _, hb⟩ := hres f hf
      have : f / 4096 = k := by omega
      rw [this] at hb
      rw [hb hk] at hbit
      exact absurd hbit (by simp)
    have htk := hne table htab
    have hbk : (s.bitmap + k / 8) % 2 ^ 64 = s.bitmap + k / 8 := Nat.mod_eq_of_lt (by omega)
    obtain ⟨hE1, hE2, hE3, hE4⟩ := fresh_entry_props (4096 * k)
      (decide ((flags % 2 ^ 32) &&& PT_RW ≠ 0)) (decide ((flags % 2 ^ 32) &&& PT_USER ≠ 0))
      (by omega) hpglt
    have h0 := pte_assign_lt (4096 * k) 0 true hpglt (by norm_num)
    have h1 := pte_assign_lt _ 1 (decide ((flags % 2 ^ 32) &&& PT_RW ≠ 0)) h0 (by norm_num)
    -- the entry read back after the four stores
    have hentry : read64 s1.mem (pte_addr table index) =
        pte_assign (pte_assign (pte_assign (4096 * k) 0 true) 1
          (decide ((flags % 2 ^ 32) &&& PT_RW ≠ 0))) 2 (decide ((flags % 2 ^ 32) &&& PT_USER ≠ 0)) := by
      rw [← hs1]
      simp only [read64_write64_same]
      rw [Nat.mod_eq_of_lt hpglt, Nat.mod_eq_of_lt h0, Nat.mod_eq_of_lt h1, Nat.mod_eq_of_lt hE1]
    -- bytes away from the slot
    have hbytes : ∀ x, (x < pte_addr table index ∨ pte_addr table index + 8 ≤ x) →
        read8 s1.mem x = read8 (fill (set_page s k).mem (4096 * k) 4096 0) x := by
      intro x hx
      rw [← hs1]
      exact read8_write64_chain _ _ _ _ _ _ _ hx
    have ht2 : t = 4096 * k := by
      have : read64 s1.mem (pte_addr table index) &&& PGADDR_MASK = t := by
        rw [← hs1]; exact ht
      rw [← this, hentry, hE4]
    have hbm1 : s1.bitmap = s.bitmap := by rw [← hs1]; rfl
    have hbs1 : s1.bitmap_size = s.bitmap_size := by rw [← hs1]; rfl
    have hbits : ∀ j, j < 8 * s.bitmap_size →
        bitmap_bit s1 j = (bitmap_bit s j || decide (j = k)) := by
      intro j hj
      rw [← bitmap_bit_set_page s k j hrange hk]
      apply bitmap_bit_congr _ _ _ (by rw [hbm1]; rfl)
      show read8 s1.mem (s.bitmap + j / 8) = read8 (set_page s k).mem (s.bitmap + j / 8)
      rw [hbytes _ (by rw [hslot]; omega), read8_fill_out _ _ _ _ _ (by omega)]
    have hresv : ∀ f, frame_reserved s f → frame_reserved s1 f := by
      rintro f ⟨a1, a2, a3, a4⟩
      refine ⟨a1, a2, by rw [hbm1, hbs1]; exact a3, ?_⟩
      intro hlt
      rw [hbs1] at hlt
      rw [hbits _ hlt, a4 hlt]; rfl
    refine ⟨⟨by rw [hbm1, hbs1]; exact hrange, by rw [hbs1]; exact hsize, ?_⟩,
      fun f hf => hresv f (hres f hf), ?_, ?_, ?_, ?_, ?_, ?_, ?_⟩
    · intro j hj hc
      rw [hbs1] at hj
      rw [hbits j hj] at hc
      rw [hbm1, hbs1]
      apply hfree j hj
      cases hb : bitmap_bit s j
      · rfl
      · rw [hb] at hc; simp at hc
    · rw [ht2]
      refine ⟨by omega, by omega, by rw [hbm1, hbs1]; exact hkb, ?_⟩
      intro hlt
      have : 4096 * k / 4096 = k := by omega
      rw [this, hbits k hk]; simp
    · rw [ht2]
      intro hmem
      exact hne _ hmem rfl
    · rw [hentry]; exact hE2
    · rw [hentry, hE4, ht2]
    · intro h; exact absurd h hp
    · intro _
      refine ⟨by rw [hentry]; exact hE3, ?_⟩
      intro a ha1 ha2
      rw [ht2] at ha1 ha2
      have : read64 s1.mem a = read64 (fill (set_page s k).mem (4096 * k) 4096 0) a := by
        apply read64_congr
        intro i hi
        exact hbytes _ (by rw [hslot]; omega)
      rw [this, read64_fill_zero _ _ _ _ ha1 ha2]
    · intro a f hf ha1 ha2 hdis
      obtain ⟨b1, b2, b3, _⟩ := hres f hf
      have hfk := hne f hf
      apply read64_congr
      intro i hi
      rw [hbytes _ (by omega), read8_alloc_frame s k _ (by omega) (by rw [hbk]; omega)]

theorem indexer_lt (virt : Nat) :
    (indexer virt).p4_idx < 512 ∧ (indexer virt).p3_idx < 512 ∧
    (indexer virt).p2_idx < 512 ∧ (indexer virt).p1_idx < 512 := by
  have h : ∀ x : Nat, x &&& 0x1FF < 512 := fun x => Nat.and_lt_two_pow x (n := 9) (by norm_num)
  exact ⟨h _, h _, h _, h _⟩

theorem pte_addr_in_frame (f index : Nat) (hf : f + 4096 ≤ 2 ^ 64) (hi : index < 512) :
    pte_addr f index = f + 8 * index := by
  unfold pte_addr
  exact Nat.mod_eq_of_lt (by omega)

/-- The three `get_table` calls of `map_page` on well-formed tables: the tables
`t3`, `t2`, `t1` they return are distinct reserved frames, and the three entries
of the walk are present in the state after the third call. -/
theorem map_page_walk (s : phys_state) (dir virt flags i4 i3 i2 t3 t2 t1 : Nat)
    (sa sb sc : phys_state)
    (hx4 : (indexer virt).p4_idx = i4) (hx3 : (indexer virt).p3_idx = i3)
    (hx2 : (indexer virt).p2_idx = i2)
    (hi4 : i4 < 512) (hi3 : i3 < 512) (hi2 : i2 < 512)
    (hg1 : get_table s dir i4 flags = some (t3, sa))
    (hg2 : get_table sa t3 i3 flags = some (t2, sb))
    (hg3 : get_table sb t2 i2 flags = some (t1, sc))
    (hwf : walk_wf s dir virt) :
    frame_reserved sc dir ∧ frame_reserved sc t3 ∧ frame_reserved sc t2 ∧ frame_reserved sc t1 ∧
    t3 ≠ dir ∧ t2 ∉ [t3, dir] ∧ t1 ∉ [t2, t3, dir] ∧
    (pte_present (read64 sc.mem (pte_addr dir i4)) = true ∧
      read64 sc.mem (pte_addr dir i4) &&& PGADDR_MASK = t3) ∧
    (pte_present (read64 sc.mem (pte_addr t3 i3)) = true ∧
      read64 sc.mem (pte_addr t3 i3) &&& PGADDR_MASK = t2) ∧
    (pte_present (read64 sc.mem (pte_addr t2 i2)) = true ∧
      read64 sc.mem (pte_addr t2 i2) &&& PGADDR_MASK = t1 ∧
      pte_huge_page (read64 sc.mem (pte_addr t2 i2)) = false) := by
  unfold walk_wf at hwf
  rw [hx4, hx3, hx2] at hwf
  obtain ⟨hwf0, hdir, hex⟩ := hwf
  -- level 4
  obtain ⟨wfa, resa, rt3, nt3, pa, ma, samea, fresha, framea⟩ :=
    get_table_step s dir i4 flags t3 sa [dir] hg1 hwf0 hi4
      (by intro f hf; simp only [List.mem_singleton] at hf; rw [hf]; exact hdir)
      (by simp)
      (by intro hp; simpa using ⟨(hex hp).1, (hex hp).2.1⟩)
  have hzero3 : pte_present (read64 s.mem (pte_addr dir i4)) = false →
      read64 sa.mem (pte_addr t3 i3) = 0 := by
    intro h
    have e := pte_addr_in_frame t3 i3 rt3.2.1 hi3
    exact (fresha h).2 _ (by omega) (by omega)
  -- level 3
  obtain ⟨wfb, resb, rt2, nt2, pb, mb, sameb, freshb, frameb⟩ :=
    get_table_step sa t3 i3 flags t2 sb [t3, dir] hg2 wfa hi3
      (by
        intro f hf
        simp only [List.mem_cons, List.mem_singleton, List.not_mem_nil, or_false] at hf
        rcases hf with rfl | rfl
        · exact rt3
        · exact resa _ (by simp))
      (by simp)
      (by
        intro hp
        cases hp4 : pte_present (read64 s.mem (pte_addr dir i4))
        · rw [hzero3 hp4, pte_present_zero] at hp
          exact absurd hp (by simp)
        · have hs := samea hp4
          subst hs
          subst ma
          exact ⟨((hex hp4).2.2 hp).1, ((hex hp4).2.2 hp).2.1⟩)
  have hzero2 : pte_present (read64 sa.mem (pte_addr t3 i3)) = false →
      read64 sb.mem (pte_addr t2 i2) = 0 := by
    intro h
    have e := pte_addr_in_frame t2 i2 rt2.2.1 hi2
    exact (freshb h).2 _ (by omega) (by omega)
  -- what the tables of the walk looked like before, when all three entries existed
  have hold : pte_present (read64 sb.mem (pte_addr t2 i2)) = true →
      frame_reserved sb (read64 sb.mem (pte_addr t2 i2) &&& PGADDR_MASK) ∧
      read64 sb.mem (pte_addr t2 i2) &&& PGADDR_MASK ∉ [t2, t3, dir] ∧
      pte_huge_page (read64 sb.mem (pte_addr t2 i2)) = false := by
    intro hp
    cases hp3 : pte_present (read64 sa.mem (pte_addr t3 i3))
    · rw [hzero2 hp3, pte_present_zero] at hp
      exact absurd hp (by simp)
    · have hs2 := sameb hp3
      subst hs2
      cases hp4 : pte_present (read64 s.mem (pte_addr dir i4))
      · rw [hzero3 hp4, pte_present_zero] at hp3
        exact absurd hp3 (by simp)
      · have hs := samea hp4
        subst hs
        subst ma
        subst mb
        obtain ⟨a1, a2, a3⟩ := (hex hp4).2.2 hp3
        exact ⟨(a3 hp).2.1, (a3 hp).2.2, (a3 hp).1⟩
  -- level 2
  obtain ⟨wfc, resc, rt1, nt1, pc, mc, samec, freshc, framec⟩ :=
    get_table_step sb t2 i2 flags t1 sc [t2, t3, dir] hg3 wfb hi2
      (by
        intro f hf
        simp only [List.mem_cons, List.mem_singleton, List.not_mem_nil, or_false] at hf
        rcases hf with rfl | rfl | rfl
        · exact rt2
        · exact resb _ (by simp)
        · exact resb _ (by simp))
      (by simp)
      (fun hp => ⟨(hold hp).1, (hold hp).2.1⟩)
  have hhuge : pte_huge_page (read64 sc.mem (pte_addr t2 i2)) = false := by
    cases hp2 : pte_present (read64 sb.mem (pte_addr t2 i2))
    · exact (freshc hp2).1
    · have hs := samec hp2
      subst hs
      exact (hold hp2).2.2
  have rdir := resc dir (by simp)
  have rt3c := resc t3 (by simp)
  have rt2c := resc t2 (by simp)
  have e4 := pte_addr_in_frame dir i4 rdir.2.1 hi4
  have e3 := pte_addr_in_frame t3 i3 rt3c.2.1 hi3
  have e2 := pte_addr_in_frame t2 i2 rt2c.2.1 hi2
  have nt3b : t3 ≠ dir := by simpa using nt3
  have nt2b := nt2
  simp only [List.mem_cons, List.mem_singleton, List.not_mem_nil, or_false, not_or] at nt2b
  have a4 := rdir.1
  have a3 := rt3c.1
  have a2 := rt2c.1
  have r4 : read64 sc.mem (pte_addr dir i4) = read64 sa.mem (pte_addr dir i4) := by
    rw [framec _ dir (by simp) (by omega) (by omega) (by omega),
      frameb _ dir (by simp) (by omega) (by omega) (by omega)]
  have r3 : read64 sc.mem (pte_addr t3 i3) = read64 sb.mem (pte_addr t3 i3) := by
    rw [framec _ t3 (by simp) (by omega) (by omega) (by omega)]
  refine ⟨rdir, rt3c, rt2c, rt1, nt3b, nt2, nt1, ⟨?_, ?_⟩, ⟨?_, ?_⟩, pc, mc, hhuge⟩
  · rw [r4]; exact pa
  · rw [r4]; exact ma
  · rw [r3]; exact pb
  · rw [r3]; exact mb

/-- C1 (amended): when `map_page(dir, phys, virt, flags)` returns, for a
page-aligned `phys`, flags within the low twelve bits that contain the present
bit, and tables on the walk of `virt` that are well formed (`walk_wf`: distinct
reserved frames, no huge P2 entry), `virt_to_phys(dir, virt)` is `phys` and the
P4, P3 and P2 entries on the walk of `virt` are present. -/
theorem virt_to_phys_map_page (s : phys_state) (dir phys virt flags : Nat) (s1 : phys_state)
    (hmap : map_page s dir phys virt flags = some s1)
    (hphys : phys % 4096 = 0) (hlt : phys < 2 ^ 64)
    (hflags : flags < 4096) (hpresent : flags &&& PT_PRESENT ≠ 0)
    (hwf : walk_wf s dir virt) :
    virt_to_phys s1 dir virt = phys ∧
    pte_present (read64 s1.mem (pte_addr dir (indexer virt).p4_idx)) = true ∧
    pte_present (read64 s1.mem (pte_addr (read64 s1.mem (pte_addr dir (indexer virt).p4_idx)
      &&& PGADDR_MASK) (indexer virt).p3_idx)) = true ∧
    pte_present (read64 s1.mem (pte_addr (read64 s1.mem (pte_addr (read64 s1.mem
      (pte_addr dir (indexer virt).p4_idx) &&& PGADDR_MASK) (indexer virt).p3_idx)
      &&& PGADDR_MASK) (indexer virt).p2_idx)) = true := by
  obtain ⟨hi4, hi3, hi2, hi1⟩ := indexer_lt virt
  unfold map_page at hmap
  simp only [] at hmap
  split at hmap
  · simp at hmap
  rename_i t3 sa hg1
  split at hmap
  · simp at hmap
  rename_i t2 sb hg2
  split at hmap
  · simp at hmap
  rename_i t1 sc hg3
  simp only [Option.some.injEq] at hmap
  obtain ⟨rdir, rt3, rt2, rt1, nt3, nt2, nt1, ⟨pa, ma⟩, ⟨pb, mb⟩, pc, mc, hhuge⟩ :=
    map_page_walk s dir virt flags _ _ _ t3 t2 t1 sa sb sc rfl rfl rfl hi4 hi3 hi2 hg1 hg2 hg3 hwf
  clear hwf hg1 hg2 hg3
  unfold virt_to_phys
  simp only []
  generalize (indexer virt).p4_idx = i4 at *
  generalize (indexer virt).p3_idx = i3 at *
  generalize (indexer virt).p2_idx = i2 at *
  generalize (indexer virt).p1_idx = i1 at *
  have e4 := pte_addr_in_frame dir i4 rdir.2.1 hi4
  have e3 := pte_addr_in_frame t3 i3 rt3.2.1 hi3
  have e2 := pte_addr_in_frame t2 i2 rt2.2.1 hi2
  have e1 := pte_addr_in_frame t1 i1 rt1.2.1 hi1
  simp only [List.mem_cons, List.mem_singleton, List.not_mem_nil, or_false, not_or] at nt2 nt1
  have a4 := rdir.1
  have a3 := rt3.1
  have a2 := rt2.1
  have a1 := rt1.1
  obtain ⟨hv1, hv2, hv3⟩ := leaf_entry_props phys flags hphys hlt hflags (by
    have : flags &&& PT_PRESENT = flags % 2 := by
      unfold PT_PRESENT; simp
    omega)
  have r4 : read64 s1.mem (pte_addr dir i4) = read64 sc.mem (pte_addr dir i4) := by
    rw [← hmap]
    exact read64_write64_disj _ _ _ _ (by omega)
  have r3 : read64 s1.mem (pte_addr t3 i3) = read64 sc.mem (pte_addr t3 i3) := by
    rw [← hmap]
    exact read64_write64_disj _ _ _ _ (by omega)
  have r2 : read64 s1.mem (pte_addr t2 i2) = read64 sc.mem (pte_addr t2 i2) := by
    rw [← hmap]
    exact read64_write64_disj _ _ _ _ (by omega)
  have r1 : read64 s1.mem (pte_addr t1 i1) = (phys &&& PGADDR_MASK) ||| flags := by
    rw [← hmap]
    simp only []
    rw [read64_write64_same, Nat.mod_eq_of_lt hv1]
  have q4 : pte_present (read64 s1.mem (pte_addr dir i4)) = true := by rw [r4]; exact pa
  have q3 : pte_present (read64 s1.mem (pte_addr t3 i3)) = true := by rw [r3]; exact pb
  have q2 : pte_present (read64 s1.mem (pte_addr t2 i2)) = true := by rw [r2]; exact pc
  have m4 : read64 s1.mem (pte_addr dir i4) &&& PGADDR_MASK = t3 := by rw [r4]; exact ma
  have m3 : read64 s1.mem (pte_addr t3 i3) &&& PGADDR_MASK = t2 := by rw [r3]; exact mb
  have m2 : read64 s1.mem (pte_addr t2 i2) &&& PGADDR_MASK = t1 := by rw [r2]; exact mc
  have hhuge1 : pte_huge_page (read64 s1.mem (pte_addr t2 i2)) = false := by rw [r2]; exact hhuge
  simp only [q4, m4, q3, m3, q2, m2, hhuge1, r1, hv2, hv3, Bool.not_true, Bool.false_eq_true,
    if_false, and_self]

set_option maxRecDepth 1000000 in
/-- Witness of `virt_to_phys_map_page`: mapping the page `0x5000` to the frame
`0x400000` in the empty address space of `phys_example`, which allocates the
three intermediate tables. -/
theorem virt_to_phys_map_page_witness :
    ∃ s1, map_page phys_example 0x1000 0x400000 0x5000 (PT_PRESENT ||| PT_RW) = some s1 ∧
      virt_to_phys s1 0x1000 0x5000 = 0x400000 := by
  have hsome : (map_page phys_example 0x1000 0x400000 0x5000 (PT_PRESENT ||| PT_RW)).isSome
      = true := by
    rw [map_page_eq_fill]
    decide
  obtain ⟨s1, hmap⟩ := Option.isSome_iff_exists.1 hsome
  have hwf : walk_wf phys_example 0x1000 0x5000 := by
    refine ⟨⟨by decide, by decide, by decide⟩, ⟨by decide, by decide, by decide, by decide⟩, ?_⟩
    intro h
    exact absurd h (by decide)
  exact ⟨s1, hmap, (virt_to_phys_map_page phys_example 0x1000 0x400000 0x5000
    (PT_PRESENT ||| PT_RW) s1 hmap (by decide) (by decide) (by decide) (by decide) hwf).1⟩

set_option maxRecDepth 1000000 in
/-- C1 as stated fails in three ways.  (a) When `virt` lies in a present huge P2
page, `map_page` stores the leaf in the huge frame and `virt_to_phys` keeps
returning the base of the huge page.  (b) With a flag above bit 11 (`PT_PAT`)
the flag lands in the address field of the leaf.  (c) When the P4 entry points
back at the directory, the leaf store overwrites that entry and the walk ends
in a table that is not present. -/
theorem map_page_not_translated :
    ((map_page phys_huge 0x1000 0x400000 0x5000 (PT_PRESENT ||| PT_RW)).map
        (fun s1 => virt_to_phys s1 0x1000 0x5000) = some 0x200000) ∧
    ((map_page phys_mapped 0x1000 0x600000 0x5000 (PT_PRESENT ||| PT_PAT)).map
        (fun s1 => virt_to_phys s1 0x1000 0x5000) = some 0x601000) ∧
    ((map_page phys_recursive 0x1000 0x400000 0 (PT_PRESENT ||| PT_RW)).map
        (fun s1 => virt_to_phys s1 0x1000 0) = some NotMapped) := by
  refine ⟨by decide, by decide, by decide⟩

/-! ## Kernel heap -/

theorem phys_alloc_page_heap_base (s : phys_state) (z : Bool) (pg : Nat) (s1 : phys_state)
    (h : phys_alloc_page s z = some (pg, s1)) : s1.heap_base = s.heap_base := by
  unfold phys_alloc_page at h
  simp only [] at h
  split at h
  · simp at h
  · split at h
    · simp at h
    · split at h
      · simp only [Option.some.injEq, Prod.mk.injEq] at h
        rw [← h.2]; rfl
      · simp only [Option.some.injEq, Prod.mk.injEq] at h
        rw [← h.2]; rfl

theorem heap_request_page_ret (p : phys_state) (nu : Nat) (p1 : phys_state)
    (h : heap_request_page p = some (nu, p1)) : nu = p.heap_base := by
  unfold heap_request_page at h
  split at h
  · simp at h
  · rename_i page s1 ha
    simp only [] at h
    split at h
    · simp at h
    · simp only [Option.some.injEq, Prod.mk.injEq] at h
      rw [← h.1]
      exact phys_alloc_page_heap_base _ _ _ _ ha

theorem init_kmalloc_heap (p : phys_state) (s : heap_state) (pages : Nat) (p1 : phys_state)
    (h1 : heap_state) (h : init_kmalloc p s pages = some (p1, h1)) :
    h1 = init_kmalloc_header s p.heap_base pages := by
  unfold init_kmalloc at h
  split at h
  · simp at h
  · rename_i nu p2 hr
    have hnu := heap_request_page_ret _ _ _ hr
    split at h
    · simp at h
    · split at h
      · simp at h
      · simp only [Option.some.injEq, Prod.mk.injEq] at h
        rw [← h.2, hnu]

theorem sub64_eq (a b : Nat) (ha : a < 2 ^ 64) (hb : b ≤ a) : sub64 a b = a - b := by
  unfold sub64
  omega

theorem round_size_eq (a : Nat) (ha : a + 10 < 2 ^ 64) : round_size a = (a + 9) / 10 * 10 := by
  unfold round_size ROUND_NUM
  split
  · rw [sub64_eq a (a % 10) (by omega) (Nat.mod_le _ _)]
    omega
  · omega

/-- First `kmalloc` on the fresh heap at `HEAP_BASE`: the first block is split
and `HEAP_BASE + 1024` is returned.  The memory afterwards is described by the
header fields that the second call reads. -/
theorem kmalloc_fresh_first (s : heap_state) (pages a fuel : Nat)
    (hpages : pages < 65534) (ha : 0 < a)
    (hfit : (a + 9) / 10 * 10 + 32 + 10 ≤ pages * 4096 - 32) :
    ∃ h1, kmalloc (fuel + 1) (init_kmalloc_header s HEAP_BASE pages) a =
        some (HEAP_BASE + 1024, h1) ∧
      h1.heap_start = HEAP_BASE ∧
      hdr_is_free h1.mem HEAP_BASE = false ∧
      hdr_next h1.mem HEAP_BASE = HEAP_BASE + (a + 9) / 10 * 10 + 32 ∧
      hdr_is_free h1.mem (HEAP_BASE + (a + 9) / 10 * 10 + 32) = true ∧
      hdr_length h1.mem (HEAP_BASE + (a + 9) / 10 * 10 + 32) =
        pages * 4096 - 32 - (a + 9) / 10 * 10 - 32 := by
  have hra : round_size a = (a + 9) / 10 * 10 := round_size_eq a (by omega)
  generalize hr : (a + 9) / 10 * 10 = ra at hfit hra ⊢
  have hra10 : 10 ≤ ra := by omega
  have hlen : (pages * PAGE_SIZE) % 2 ^ 64 = pages * 4096 := by
    unfold PAGE_SIZE; omega
  have hL : sub64 (pages * 4096) HEADER_SIZE = pages * 4096 - 32 := by
    unfold HEADER_SIZE; rw [sub64_eq _ _ (by omega) (by omega)]
  have hL2 : sub64 (sub64 (pages * 4096 - 32) ra) HEADER_SIZE = pages * 4096 - 32 - ra - 32 := by
    unfold HEADER_SIZE
    rw [sub64_eq _ ra (by omega) (by omega), sub64_eq _ _ (by omega) (by omega)]
  have hH2 : (HEAP_BASE + ra + HEADER_SIZE) % 2 ^ 64 = HEAP_BASE + ra + 32 := by
    unfold HEAP_BASE HEADER_SIZE; omega
  have hp : (HEAP_BASE + HEADER_SIZE * HEADER_SIZE) % 2 ^ 64 = HEAP_BASE + 1024 := by
    unfold HEAP_BASE HEADER_SIZE; omega
  have hane : a ≠ 0 := by omega
  unfold kmalloc
  rw [if_neg hane, hra]
  unfold kmalloc_loop spinlock_lock init_kmalloc_header
  simp only [hlen, hL]
  have e1 : hdr_is_free (write8 (write64 (write64 (write64 s.mem HEAP_BASE (pages * 4096 - 32))
      (HEAP_BASE + 8) 0) (HEAP_BASE + 16) 0) (HEAP_BASE + 24) 1) HEAP_BASE = true := by
    unfold hdr_is_free
    rw [read8_write8_same]
    decide
  have e2 : hdr_length (write8 (write64 (write64 (write64 s.mem HEAP_BASE (pages * 4096 - 32))
      (HEAP_BASE + 8) 0) (HEAP_BASE + 16) 0) (HEAP_BASE + 24) 1) HEAP_BASE = pages * 4096 - 32 := by
    unfold hdr_length
    rw [read64_write8_disj _ _ _ _ (by omega), read64_write64_disj _ _ _ _ (by omega),
      read64_write64_disj _ _ _ _ (by omega), read64_write64_same]
    omega
  have e3 : hdr_next (write8 (write64 (write64 (write64 s.mem HEAP_BASE (pages * 4096 - 32))
      (HEAP_BASE + 8) 0) (HEAP_BASE + 16) 0) (HEAP_BASE + 24) 1) HEAP_BASE = 0 := by
    unfold hdr_next
    rw [read64_write8_disj _ _ _ _ (by omega), read64_write64_disj _ _ _ _ (by omega),
      read64_write64_same]
    rfl
  rw [e1, e2]
  simp only [if_true]
  rw [if_pos (by omega)]
  unfold split
  rw [if_neg (by unfold ROUND_NUM; omega), e2, e3, hL2, if_neg (by unfold ROUND_NUM; omega), hH2]
  simp only []
  generalize hm0 : (write8 (write64 (write64 (write64 s.mem HEAP_BASE (pages * 4096 - 32))
      (HEAP_BASE + 8) 0) (HEAP_BASE + 16) 0) (HEAP_BASE + 24) 1) = m0
  have hH : HEAP_BASE = 18446744073441124352 := rfl
  have hn1 : hdr_next (write64 m0 (0 + 16) (HEAP_BASE + ra + 32)) HEAP_BASE = 0 := by
    unfold hdr_next
    rw [read64_write64_disj _ _ _ _ (by omega)]
    rw [← hm0]
    exact e3
  rw [hn1]
  have hlast : hdr_last (write64 (write8 (write64 (write64 (write64 (write64 (write64 m0 (0 + 16)
      (HEAP_BASE + ra + 32)) (HEAP_BASE + ra + 32 + 8) 0) (HEAP_BASE + 8) (HEAP_BASE + ra + 32))
      (HEAP_BASE + ra + 32 + 16) HEAP_BASE) (HEAP_BASE + ra + 32) (pages * 4096 - 32 - ra - 32))
      (HEAP_BASE + ra + 32 + 24) 1) HEAP_BASE ra) HEAP_BASE = 0 := by
    unfold hdr_last
    rw [read64_write64_disj _ _ _ _ (by omega), read64_write8_disj _ _ _ _ (by omega),
      read64_write64_disj _ _ _ _ (by omega), read64_write64_disj _ _ _ _ (by omega),
      read64_write64_disj _ _ _ _ (by omega), read64_write64_disj _ _ _ _ (by omega),
      read64_write64_disj _ _ _ _ (by omega), ← hm0,
      read64_write8_disj _ _ _ _ (by omega), read64_write64_same]
    rfl
  rw [hlast, if_neg (by omega), hp]
  refine ⟨_, rfl, rfl, ?_, ?_, ?_, ?_⟩
  · unfold hdr_is_free spinlock_release
    simp only []
    rw [read8_write8_same]
    decide
  · unfold hdr_next spinlock_release
    simp only []
    rw [read64_write8_disj _ _ _ _ (by omega), read64_write64_disj _ _ _ _ (by omega),
      read64_write8_disj _ _ _ _ (by omega), read64_write64_disj _ _ _ _ (by omega),
      read64_write64_disj _ _ _ _ (by omega), read64_write64_same]
    omega
  · unfold hdr_is_free spinlock_release
    simp only []
    rw [read8_write8_ne _ _ _ _ (by omega), read8_write64_disj _ _ _ _ (by omega),
      read8_write8_same]
    decide
  · unfold hdr_length spinlock_release
    simp only []
    rw [read64_write8_disj _ _ _ _ (by omega), read64_write64_disj _ _ _ _ (by omega),
      read64_write8_disj _ _ _ _ (by omega), read64_write64_same]
    omega

/-- Behaviour of `kmalloc` on a heap whose first block is in use and whose second block is
free and long enough: the second block is handed out. -/
theorem kmalloc_second_block (h1 : heap_state) (b fuel h2a : Nat)
    (hb : 0 < b) (hb2 : b + 10 < 2 ^ 64)
    (hused : hdr_is_free h1.mem h1.heap_start = false)
    (hnext : hdr_next h1.mem h1.heap_start = h2a)
    (hfree : hdr_is_free h1.mem h2a = true)
    (hlen : (b + 9) / 10 * 10 ≤ hdr_length h1.mem h2a) :
    ∃ h2, kmalloc (fuel + 2) h1 b = some ((h2a + HEADER_SIZE * HEADER_SIZE) % 2 ^ 64, h2) := by
  have hrb : round_size b = (b + 9) / 10 * 10 := round_size_eq b hb2
  have hbne : b ≠ 0 := by omega
  unfold kmalloc
  rw [if_neg hbne, hrb]
  unfold spinlock_lock
  rw [kmalloc_loop, hused]
  simp only [Bool.false_eq_true, if_false]
  rw [hnext, kmalloc_loop, hfree]
  simp only [if_true]
  by_cases hgt : hdr_length h1.mem h2a > (b + 9) / 10 * 10
  · rw [if_pos hgt]
    exact ⟨_, rfl⟩
  · rw [if_neg hgt, if_pos (by omega)]
    exact ⟨_, rfl⟩

/-- The arithmetic of two allocations over the heap store alone, with every
address of the heap backed by memory: on the header that `init_kmalloc(pages)`
writes at `HEAP_BASE`, for all request sizes `a, b > 0` whose rounded blocks and
headers fit into the heap, `kmalloc(a)` followed by `kmalloc(b)` returns two
distinct non-null pointers `x` and `y` with `y ≥ x + a + sizeof(heap_header)`;
the block search of the first call ends within one round and that of the second
call within two rounds.  Which of the pages that the two calls store to
`init_kmalloc` has mapped is not part of this statement. -/
theorem kmalloc_twice_fresh (p : phys_state) (s : heap_state) (pages a b fuel1 fuel2 : Nat)
    (p1 : phys_state) (h : heap_state)
    (hinit : init_kmalloc p s pages = some (p1, h))
    (hbase : p.heap_base = HEAP_BASE) (hpages : pages < 65534)
    (ha : 0 < a) (hb : 0 < b)
    (hfit : (a + 9) / 10 * 10 + HEADER_SIZE + (b + 9) / 10 * 10 + HEADER_SIZE ≤
      pages * PAGE_SIZE) :
    ∃ x h1 y h2, kmalloc (fuel1 + 1) h a = some (x, h1) ∧
      kmalloc (fuel2 + 2) h1 b = some (y, h2) ∧
      x ≠ 0 ∧ y ≠ 0 ∧ x ≠ y ∧ x + a + HEADER_SIZE ≤ y := by
  unfold HEADER_SIZE PAGE_SIZE at hfit
  have hh := init_kmalloc_heap p s pages p1 h hinit
  rw [hbase] at hh
  subst hh
  obtain ⟨h1, hk1, hs, hused, hnext, hfree, hlen⟩ :=
    kmalloc_fresh_first s pages a fuel1 hpages ha (by omega)
  obtain ⟨h2, hk2⟩ := kmalloc_second_block h1 b fuel2
    (HEAP_BASE + (a + 9) / 10 * 10 + 32) hb (by omega)
    (by rw [hs]; exact hused) (by rw [hs]; exact hnext) hfree (by rw [hlen]; omega)
  have hq : (HEAP_BASE + (a + 9) / 10 * 10 + 32 + HEADER_SIZE * HEADER_SIZE) % 2 ^ 64 =
      HEAP_BASE + (a + 9) / 10 * 10 + 32 + 1024 := by
    unfold HEAP_BASE HEADER_SIZE; omega
  rw [hq] at hk2
  refine ⟨_, h1, _, h2, hk1, hk2, ?_, ?_, ?_, ?_⟩
  · unfold HEAP_BASE; omega
  · unfold HEAP_BASE; omega
  · omega
  · unfold HEADER_SIZE; omega

set_option maxRecDepth 1000000 in
/-- Witness of `kmalloc_twice_fresh`: `init_kmalloc(10)` on the machine
`phys_example`, then `kmalloc(16)` and `kmalloc(32)`. -/
theorem kmalloc_twice_fresh_witness :
    ∃ p1 h, init_kmalloc phys_example heap_zero 10 = some (p1, h) ∧
      ∃ x h1 y h2, kmalloc 1 h 16 = some (x, h1) ∧ kmalloc 2 h1 32 = some (y, h2) ∧
        x ≠ 0 ∧ y ≠ 0 ∧ x ≠ y ∧ x + 16 + HEADER_SIZE ≤ y := by
  have hsome : (init_kmalloc phys_example heap_zero 10).isSome = true := by
    rw [init_kmalloc_eq_fill]
    decide
  obtain ⟨⟨p1, h⟩, hinit⟩ := Option.isSome_iff_exists.1 hsome
  exact ⟨p1, h, hinit, kmalloc_twice_fresh phys_example heap_zero 10 16 32 0 0 p1 h hinit rfl
    (by decide) (by decide) (by decide) (by decide)⟩

set_option maxRecDepth 1000000 in
/-- The heap that `init_kmalloc(10)` leaves on the machine `phys_example` is
`heap_fresh`. -/
theorem init_kmalloc_example :
    ∃ p1, init_kmalloc phys_example heap_zero 10 = some (p1, heap_fresh) := by
  have hsome : (init_kmalloc phys_example heap_zero 10).isSome = true := by
    rw [init_kmalloc_eq_fill]
    decide
  obtain ⟨⟨p1, h⟩, hinit⟩ := Option.isSome_iff_exists.1 hsome
  have := init_kmalloc_heap _ _ _ _ _ hinit
  subst this
  exact ⟨p1, hinit⟩

set_option maxRecDepth 1000000 in
/-- C2 fails on the code: `init_kmalloc(10)` on the machine `phys_example` leaves
the heap `heap_fresh`, whose free block of 40928 bytes has room for requests of
30000 and 16 bytes with their headers, and it maps the page of `HEAP_BASE` (to
the frame `0xD000`) but not the page of `HEAP_BASE + 30032`, which is page 7 of
the heap: the loop `i < pages - i` maps the pages 0 to 4.  `kmalloc(30000)`
splits the block and stores the header of the rest at `HEAP_BASE + 30032`: the
bytes there are zero before the call and hold a free header of length 10896
after it.  In the kernel that store is a page fault, and the call does not
return a pointer. -/
theorem kmalloc_fresh_stores_to_unmapped_page :
    (∃ p1, init_kmalloc phys_example heap_zero 10 = some (p1, heap_fresh)) ∧
    30000 + HEADER_SIZE + 16 + HEADER_SIZE ≤
      hdr_length heap_fresh.mem heap_fresh.heap_start ∧
    (init_kmalloc phys_example heap_zero 10).map (fun r =>
        (virt_to_phys r.1 0x1000 HEAP_BASE,
         virt_to_phys r.1 0x1000 (HEAP_BASE + 30032))) =
      some (0xD000, NotMapped) ∧
    (hdr_is_free heap_fresh.mem (HEAP_BASE + 30032),
      hdr_length heap_fresh.mem (HEAP_BASE + 30032)) = (false, 0) ∧
    (kmalloc 1 heap_fresh 30000).map (fun r =>
        (r.1, hdr_next r.2.mem HEAP_BASE, hdr_is_free r.2.mem (HEAP_BASE + 30032),
          hdr_length r.2.mem (HEAP_BASE + 30032))) =
      some (HEAP_BASE + 1024, HEAP_BASE + 30032, true, 10896) := by
  refine ⟨init_kmalloc_example, by decide, ?_, by decide, by decide⟩
  rw [init_kmalloc_eq_fill]
  decide

set_option maxRecDepth 1000000 in
/-- C3 fails on the code: after `init_kmalloc(10)`, `x = kmalloc(16)` and
`kfree(x)` every allocation has been freed, yet the block at `heap_start` is
still in use with length 20 and is followed by a second block (free, length
40876); the initial payload is 40928.  `kmalloc` returns
`HEAP_BASE + 1024` for the header at `HEAP_BASE`, and `kfree` marks the bytes
at `x - 32 = HEAP_BASE + 992` instead of that header. -/
theorem kfree_leaves_first_block_used :
    (∃ p1, init_kmalloc phys_example heap_zero 10 = some (p1, heap_fresh)) ∧
    hdr_length heap_fresh.mem heap_fresh.heap_start = 40928 ∧
    (kmalloc 1 heap_fresh 16).map (fun r =>
        (r.1, (kfree r.2 r.1).heap_start,
         hdr_is_free (kfree r.2 r.1).mem HEAP_BASE,
         hdr_length (kfree r.2 r.1).mem HEAP_BASE,
         hdr_next (kfree r.2 r.1).mem HEAP_BASE)) =
      some (HEAP_BASE + 1024, HEAP_BASE, false, 20, HEAP_BASE + 52) ∧
    (kmalloc 1 heap_fresh 16).map (fun r =>
        (hdr_is_free (kfree r.2 r.1).mem (HEAP_BASE + 52),
         hdr_length (kfree r.2 r.1).mem (HEAP_BASE + 52),
         hdr_next (kfree r.2 r.1).mem (HEAP_BASE + 52))) =
      some (true, 40876, 0) := by
  refine ⟨init_kmalloc_example, by decide, by decide, by decide⟩

set_option maxRecDepth 1000000 in
/-- C8 fails on the code: after four `kmalloc(960)` returning `x0 .. x3`,
`kfree(x1)` and `kfree(x0)`, the block at `HEAP_BASE + 992` (the successor of
the first block) has `next = HEAP_BASE + 2976`, while that block still has
`last = HEAP_BASE + 1984`: `combine_forward` unlinks the merged block without
updating the `last` link of the block after it. -/
theorem combine_forward_breaks_links :
    (∃ p1, init_kmalloc phys_example heap_zero 10 = some (p1, heap_fresh)) ∧
    heap_four_blocks.map (fun r =>
        (r.1, r.2.1,
         hdr_next (kfree (kfree r.2.2.2.2 r.2.1) r.1).mem (kfree (kfree r.2.2.2.2 r.2.1) r.1).heap_start,
         hdr_next (kfree (kfree r.2.2.2.2 r.2.1) r.1).mem (HEAP_BASE + 992),
         hdr_last (kfree (kfree r.2.2.2.2 r.2.1) r.1).mem (HEAP_BASE + 2976))) =
      some (HEAP_BASE + 1024, HEAP_BASE + 2016, HEAP_BASE + 992, HEAP_BASE + 2976,
        HEAP_BASE + 1984) := by
  refine ⟨init_kmalloc_example, by decide⟩

set_option maxRecDepth 1000000 in
/-- C9 fails on the code: after four `kmalloc(960)` returning `x0 .. x3`,
`kfree(x1)`, `kfree(x0)` and `kfree(x2)`, the chain from `heap_start` reaches the
free block at `HEAP_BASE + 992`, whose successor `HEAP_BASE + 2976` is free as
well. -/
theorem kfree_leaves_adjacent_free_blocks :
    (∃ p1, init_kmalloc phys_example heap_zero 10 = some (p1, heap_fresh)) ∧
    heap_four_blocks.map (fun r =>
        (r.2.2.1,
         hdr_next (kfree (kfree (kfree r.2.2.2.2 r.2.1) r.1) r.2.2.1).mem
           (kfree (kfree (kfree r.2.2.2.2 r.2.1) r.1) r.2.2.1).heap_start,
         hdr_is_free (kfree (kfree (kfree r.2.2.2.2 r.2.1) r.1) r.2.2.1).mem (HEAP_BASE + 992),
         hdr_next (kfree (kfree (kfree r.2.2.2.2 r.2.1) r.1) r.2.2.1).mem (HEAP_BASE + 992),
         hdr_is_free (kfree (kfree (kfree r.2.2.2.2 r.2.1) r.1) r.2.2.1).mem
           (HEAP_BASE + 2976))) =
      some (HEAP_BASE + 3008, HEAP_BASE + 992, true, HEAP_BASE + 2976, true) := by
  refine ⟨init_kmalloc_example, by decide⟩

/-! ## Scheduler -/

theorem set_task_same (tasks : Nat → task_t) (p : Nat) (t : task_t) :
    set_task tasks p t p = t := by
  simp [set_task]

theorem set_task_ne (tasks : Nat → task_t) (p q : Nat) (t : task_t) (h : q ≠ p) :
    set_task tasks p t q = tasks q := by
  simp [set_task, h]

/-- C7: when the scheduler is ready and the successor `next` of the current task
is another task that is ready, `schedule_from_interrupt` (a) stores the frame's
15 general registers, `rip`, `rsp`, `rflags` and the 16-bit selectors `cs`, `ss`
in the context of the old current task and makes it ready, (b) makes `next` the
running current task, (c) loads the frame from the saved context of `next`, with
`rax = 0` when the saved `rax` was the marker `0xDEADBEEF`, and (d) keeps
`int_no`, `err` and every other task control block. -/
theorem schedule_from_interrupt_switches (s : sched_state) (ctx : interrupt_context)
    (hready : s.scheduler_ready = true) (hcur : s.current_task ≠ 0) (hq : s.task_queue ≠ 0)
    (hnext : (s.tasks s.current_task).next ≠ 0)
    (hne : (s.tasks s.current_task).next ≠ s.current_task)
    (hst : (s.tasks (s.tasks s.current_task).next).state = task_state_t.TASK_READY) :
    -- (a)
    (((schedule_from_interrupt s ctx).1.tasks s.current_task).context.rax = ctx.regs.rax ∧
     ((schedule_from_interrupt s ctx).1.tasks s.current_task).context.rbx = ctx.regs.rbx ∧
     ((schedule_from_interrupt s ctx).1.tasks s.current_task).context.rcx = ctx.regs.rcx ∧
     ((schedule_from_interrupt s ctx).1.tasks s.current_task).context.rdx = ctx.regs.rdx ∧
     ((schedule_from_interrupt s ctx).1.tasks s.current_task).context.rsi = ctx.regs.rsi ∧
     ((schedule_from_interrupt s ctx).1.tasks s.current_task).context.rdi = ctx.regs.rdi ∧
     ((schedule_from_interrupt s ctx).1.tasks s.current_task).context.rbp = ctx.regs.rbp ∧
     ((schedule_from_interrupt s ctx).1.tasks s.current_task).context.r8 = ctx.regs.r8 ∧
     ((schedule_from_interrupt s ctx).1.tasks s.current_task).context.r9 = ctx.regs.r9 ∧
     ((schedule_from_interrupt s ctx).1.tasks s.current_task).context.r10 = ctx.regs.r10 ∧
     ((schedule_from_interrupt s ctx).1.tasks s.current_task).context.r11 = ctx.regs.r11 ∧
     ((schedule_from_interrupt s ctx).1.tasks s.current_task).context.r12 = ctx.regs.r12 ∧
     ((schedule_from_interrupt s ctx).1.tasks s.current_task).context.r13 = ctx.regs.r13 ∧
     ((schedule_from_interrupt s ctx).1.tasks s.current_task).context.r14 = ctx.regs.r14 ∧
     ((schedule_from_interrupt s ctx).1.tasks s.current_task).context.r15 = ctx.regs.r15 ∧
     ((schedule_from_interrupt s ctx).1.tasks s.current_task).context.rip = ctx.rip ∧
     ((schedule_from_interrupt s ctx).1.tasks s.current_task).context.rsp = ctx.rsp ∧
     ((schedule_from_interrupt s ctx).1.tasks s.current_task).context.rflags = ctx.rflags ∧
     ((schedule_from_interrupt s ctx).1.tasks s.current_task).context.cs = ctx.cs % 2 ^ 16 ∧
     ((schedule_from_interrupt s ctx).1.tasks s.current_task).context.ss = ctx.ss % 2 ^ 16 ∧
     ((schedule_from_interrupt s ctx).1.tasks s.current_task).state = task_state_t.TASK_READY) ∧
    -- (b)
    ((schedule_from_interrupt s ctx).1.current_task = (s.tasks s.current_task).next ∧
     ((schedule_from_interrupt s ctx).1.tasks (s.tasks s.current_task).next).state =
        task_state_t.TASK_RUNNING) ∧
    -- (c)
    ((schedule_from_interrupt s ctx).2.regs.rax =
        (if (s.tasks (s.tasks s.current_task).next).context.rax = 0xDEADBEEF then 0
         else (s.tasks (s.tasks s.current_task).next).context.rax) ∧
     (schedule_from_interrupt s ctx).2.regs.rbx = (s.tasks (s.tasks s.current_task).next).context.rbx ∧
     (schedule_from_interrupt s ctx).2.regs.rcx = (s.tasks (s.tasks s.current_task).next).context.rcx ∧
     (schedule_from_interrupt s ctx).2.regs.rdx = (s.tasks (s.tasks s.current_task).next).context.rdx ∧
     (schedule_from_interrupt s ctx).2.regs.rsi = (s.tasks (s.tasks s.current_task).next).context.rsi ∧
     (schedule_from_interrupt s ctx).2.regs.rdi = (s.tasks (s.tasks s.current_task).next).context.rdi ∧
     (schedule_from_interrupt s ctx).2.regs.rbp = (s.tasks (s.tasks s.current_task).next).context.rbp ∧
     (schedule_from_interrupt s ctx).2.regs.r8 = (s.tasks (s.tasks s.current_task).next).context.r8 ∧
     (schedule_from_interrupt s ctx).2.regs.r9 = (s.tasks (s.tasks s.current_task).next).context.r9 ∧
     (schedule_from_interrupt s ctx).2.regs.r10 = (s.tasks (s.tasks s.current_task).next).context.r10 ∧
     (schedule_from_interrupt s ctx).2.regs.r11 = (s.tasks (s.tasks s.current_task).next).context.r11 ∧
     (schedule_from_interrupt s ctx).2.regs.r12 = (s.tasks (s.tasks s.current_task).next).context.r12 ∧
     (schedule_from_interrupt s ctx).2.regs.r13 = (s.tasks (s.tasks s.current_task).next).context.r13 ∧
     (schedule_from_interrupt s ctx).2.regs.r14 = (s.tasks (s.tasks s.current_task).next).context.r14 ∧
     (schedule_from_interrupt s ctx).2.regs.r15 = (s.tasks (s.tasks s.current_task).next).context.r15 ∧
     (schedule_from_interrupt s ctx).2.rip = (s.tasks (s.tasks s.current_task).next).context.rip ∧
     (schedule_from_interrupt s ctx).2.rsp = (s.tasks (s.tasks s.current_task).next).context.rsp ∧
     (schedule_from_interrupt s ctx).2.rflags = (s.tasks (s.tasks s.current_task).next).context.rflags ∧
     (schedule_from_interrupt s ctx).2.cs = (s.tasks (s.tasks s.current_task).next).context.cs ∧
     (schedule_from_interrupt s ctx).2.ss = (s.tasks (s.tasks s.current_task).next).context.ss) ∧
    -- (d)
    ((schedule_from_interrupt s ctx).2.int_no = ctx.int_no ∧
     (schedule_from_interrupt s ctx).2.err = ctx.err ∧
     ∀ q, q ≠ s.current_task → q ≠ (s.tasks s.current_task).next →
       (schedule_from_interrupt s ctx).1.tasks q = s.tasks q) := by
  have hne2 : s.current_task ≠ (s.tasks s.current_task).next := fun h => hne h.symm
  have hstep : schedule_from_interrupt s ctx =
      (let cur := s.current_task
       let next_task := (s.tasks s.current_task).next
       let tasks1 := set_task s.tasks cur
        { s.tasks cur with context := save_interrupt_context ctx (s.tasks cur).context }
       let tasks2 := set_task tasks1 cur { tasks1 cur with state := task_state_t.TASK_READY }
       let tasks3 := set_task tasks2 next_task
        { tasks2 next_task with state := task_state_t.TASK_RUNNING }
       let tasks4 :=
        if (tasks3 next_task).context.rax = 0xDEADBEEF then
          set_task tasks3 next_task
            { tasks3 next_task with context := { (tasks3 next_task).context with rax := 0 } }
        else tasks3
       ({ s with tasks := tasks4, current_task := next_task },
        restore_interrupt_context (tasks4 next_task).context ctx)) := by
    simp [schedule_from_interrupt, hready, hcur, hq, hnext, hne, hst]
  rw [hstep]
  by_cases hm : (s.tasks (s.tasks s.current_task).next).context.rax = 0xDEADBEEF
  · simp [set_task, hne, hne2, hm, save_interrupt_context, restore_interrupt_context]
    intro q h1 h2
    simp [h1, h2]
  · simp [set_task, hne, hne2, hm, save_interrupt_context, restore_interrupt_context]
    intro q h1 h2
    simp [h1, h2]

theorem find_last_mem (tasks : Nat → task_t) (q : Nat) (l : List Nat)
    (hcl : ∀ p ∈ l, (tasks p).next ∈ l) :
    ∀ (fuel x last : Nat), x ∈ l → find_last fuel tasks q x = some last → last ∈ l := by
  intro fuel
  induction fuel with
  | zero => intro x last _ h; simp [find_last] at h
  | succ n ih =>
    intro x last hx h
    rw [find_last] at h
    by_cases hn : (tasks x).next ≠ q
    · rw [if_pos hn] at h
      exact ih _ _ (hcl x hx) h
    · rw [if_neg hn] at h
      cases h
      exact hx

theorem sched_inv_boot (s0 : sched_state) (k : Nat) (hk : 0x1000 ≤ k) :
    sched_inv (set_current_task (init_kernel_task s0 k) k) [k] := by
  have h0 : k ≠ 0 := by omega
  have h1 : ¬ k < 0x1000 := by omega
  simp [sched_inv, set_current_task, init_kernel_task, h0, h1, set_task]
  omega

theorem sched_inv_create (s s1 : sched_state) (l : List Nat)
    (fuel task entry_point user_stack stack_size r : Nat)
    (hinv : sched_inv s l) (hnull : task ≠ 0) (hfresh : task ∉ l)
    (hc : create_task fuel s task entry_point user_stack stack_size = some (r, s1)) :
    sched_inv s1 (task :: l) := by
  obtain ⟨hcur, hq, h0, hcl, hrun⟩ := hinv
  have hq0 : s.task_queue ≠ 0 := fun h => h0 (h ▸ hq)
  have hct : s.current_task ≠ task := fun h => hfresh (h ▸ hcur)
  simp only [create_task, if_neg hnull, if_neg hq0] at hc
  split at hc
  · simp at hc
  · rename_i last hl
    have hcl1 : ∀ p ∈ l, ((set_task s.tasks task
        { zero_task with
          pid := s.next_pid, state := task_state_t.TASK_READY,
          stack_base := user_stack, stack_size := stack_size,
          context := { zero_context with
            rax := 0xDEADBEEF, rip := entry_point,
            rsp := sub64 ((user_stack + stack_size) % 2 ^ 64) 16,
            rflags := 0x202, cs := 0x08, ss := 0x10, ds := 0x10, es := 0x10, fs := 0x10,
            gs := 0x10 } }) p).next ∈ l := by
      intro p hp
      have : p ≠ task := fun h => hfresh (h ▸ hp)
      rw [set_task_ne _ _ _ _ this]
      exact hcl p hp
    have hlast : last ∈ l := find_last_mem _ _ l hcl1 _ _ _ hq hl
    have hlt : last ≠ task := fun h => hfresh (h ▸ hlast)
    simp only [Option.some.injEq, Prod.mk.injEq] at hc
    obtain ⟨_, rfl⟩ := hc
    refine ⟨List.mem_cons_of_mem _ hcur, List.mem_cons_of_mem _ hq, ?_, ?_, ?_⟩
    · simp only [List.mem_cons, not_or]
      exact ⟨fun h => hnull h.symm, h0⟩
    · intro p hp
      simp only [List.mem_cons] at hp
      rcases hp with rfl | hp
      · simp [set_task, hlt.symm, hq]
      · have hpt : p ≠ task := fun h => hfresh (h ▸ hp)
        by_cases hpl : p = last
        · simp [set_task, hpl]
        · simp only [set_task, if_neg hpl, if_neg hpt]
          exact List.mem_cons_of_mem _ (hcl p hp)
    · intro p hp
      simp only [List.mem_cons] at hp
      rcases hp with rfl | hp
      · simp [set_task, hlt.symm, zero_task, hct.symm]
      · have hpt : p ≠ task := fun h => hfresh (h ▸ hp)
        by_cases hpl : p = last
        · subst hpl
          simp [set_task, hpt]
          exact hrun p hp
        · simp only [set_task, if_neg hpl, if_neg hpt]
          exact hrun p hp

theorem sched_inv_set_current (s : sched_state) (l : List Nat) (task : Nat)
    (hinv : sched_inv s l) (ht : task = 0 ∨ task = s.current_task) :
    sched_inv (set_current_task s task) l := by
  obtain ⟨hcur, hq, h0, hcl, hrun⟩ := hinv
  rcases ht with rfl | rfl
  · simpa [set_current_task] using ⟨hcur, hq, h0, hcl, hrun⟩
  · have hc0 : s.current_task ≠ 0 := fun h => h0 (h ▸ hcur)
    simp only [set_current_task, if_neg hc0]
    refine ⟨hcur, hq, h0, ?_, ?_⟩
    · intro p hp
      by_cases hpc : p = s.current_task
      · subst hpc; simpa [set_task] using hcl _ hp
      · simpa [set_task, hpc] using hcl p hp
    · intro p hp
      by_cases hpc : p = s.current_task
      · subst hpc; simp [set_task]
      · simpa [set_task, hpc] using hrun p hp

theorem sched_inv_start (s : sched_state) (l : List Nat) (hinv : sched_inv s l) :
    sched_inv (start_scheduler s) l := by
  unfold start_scheduler
  split
  · exact hinv
  · exact hinv

theorem sched_inv_switch (s : sched_state) (l : List Nat) (hinv : sched_inv s l)
    (nxt : Nat) (hn : nxt ∈ l) (hne : nxt ≠ s.current_task) (c1 c2 : task_context_t) :
    sched_inv
      { s with
        tasks := set_task (set_task s.tasks s.current_task
            { (s.tasks s.current_task) with context := c1, state := task_state_t.TASK_READY })
          nxt { (s.tasks nxt) with context := c2, state := task_state_t.TASK_RUNNING },
        current_task := nxt } l := by
  obtain ⟨hcur, hq, h0, hcl, hrun⟩ := hinv
  refine ⟨hn, hq, h0, ?_, ?_⟩
  · intro p hp
    by_cases h1 : p = nxt
    · subst h1; simpa [set_task] using hcl _ hp
    · by_cases h2 : p = s.current_task
      · subst h2; simpa [set_task, h1] using hcl _ hp
      · simpa [set_task, h1, h2] using hcl p hp
  · intro p hp
    by_cases h1 : p = nxt
    · subst h1; simp [set_task]
    · by_cases h2 : p = s.current_task
      · subst h2; simp [set_task, h1]
      · have := hrun p hp
        simp [set_task, h1, h2, this]

theorem sched_next_mem (s : sched_state) (l : List Nat) (hinv : sched_inv s l) :
    (if (s.tasks s.current_task).next = 0 then s.task_queue
      else (s.tasks s.current_task).next) ∈ l := by
  obtain ⟨hcur, hq, _, hcl, _⟩ := hinv
  by_cases h : (s.tasks s.current_task).next = 0
  · rw [if_pos h]; exact hq
  · rw [if_neg h]; exact hcl _ hcur

theorem sched_inv_schedule (s : sched_state) (l : List Nat) (hinv : sched_inv s l) :
    sched_inv (schedule s) l := by
  have hn := sched_next_mem s l hinv
  unfold schedule
  by_cases hc : s.current_task = 0 ∨ s.task_queue = 0
  · rw [if_pos hc]; exact hinv
  · rw [if_neg hc]
    simp only []
    generalize (if (s.tasks s.current_task).next = 0 then s.task_queue
        else (s.tasks s.current_task).next) = nxt at hn ⊢
    by_cases hsw : nxt ≠ s.current_task ∧ (s.tasks nxt).state = task_state_t.TASK_READY
    · rw [if_pos hsw]
      have := sched_inv_switch s l hinv nxt hn hsw.1 (s.tasks s.current_task).context
        (s.tasks nxt).context
      convert this using 2
      simp [set_task, hsw.1]
    · rw [if_neg hsw]; exact hinv

theorem sched_inv_interrupt (s : sched_state) (l : List Nat) (ctx : interrupt_context)
    (hinv : sched_inv s l) : sched_inv (schedule_from_interrupt s ctx).1 l := by
  have hn := sched_next_mem s l hinv
  unfold schedule_from_interrupt
  by_cases h1 : (!s.scheduler_ready) = true
  · rw [if_pos h1]; exact hinv
  rw [if_neg h1]
  by_cases h2 : s.current_task = 0
  · rw [if_pos h2]; exact hinv
  rw [if_neg h2]
  by_cases h3 : s.task_queue = 0
  · rw [if_pos h3]; exact hinv
  rw [if_neg h3]
  simp only []
  generalize (if (s.tasks s.current_task).next = 0 then s.task_queue
      else (s.tasks s.current_task).next) = nxt at hn ⊢
  by_cases h4 : nxt = 0
  · rw [if_pos h4]; exact hinv
  rw [if_neg h4]
  by_cases hsw : nxt ≠ s.current_task ∧ (s.tasks nxt).state = task_state_t.TASK_READY
  · rw [if_pos hsw]
    by_cases hm : (s.tasks nxt).context.rax = 0xDEADBEEF
    · have := sched_inv_switch s l hinv nxt hn hsw.1
        (save_interrupt_context ctx (s.tasks s.current_task).context)
        { (s.tasks nxt).context with rax := 0 }
      convert this using 2
      funext q
      simp [set_task, hsw.1, hm]
      split_ifs <;> rfl
    · have := sched_inv_switch s l hinv nxt hn hsw.1
        (save_interrupt_context ctx (s.tasks s.current_task).context)
        (s.tasks nxt).context
      convert this using 2
      funext q
      simp [set_task, hsw.1, hm]
      split_ifs <;> rfl
  · rw [if_neg hsw]; exact hinv

theorem sched_reach_inv (k : Nat) (s : sched_state) (l : List Nat) (h : sched_reach k s l) :
    sched_inv s l := by
  induction h with
  | boot s0 hk => exact sched_inv_boot s0 k hk
  | create s s1 l fuel task e u sz r _ hnull hfresh hc ih =>
    exact sched_inv_create s s1 l fuel task e u sz r ih hnull hfresh hc
  | set_current s l task _ ht ih => exact sched_inv_set_current s l task ih ht
  | start s l _ ih => exact sched_inv_start s l ih
  | interrupt s l ctx _ ih => exact sched_inv_interrupt s l ctx ih
  | yield_to_next s l _ ih => exact sched_inv_schedule s l ih

/-- C6 (amended): in every scheduler state reached from `init_kernel_task(k)` and
`set_current_task(k)` by `create_task` (with a fresh block), `start_scheduler`,
`schedule_from_interrupt`, `schedule` and `set_current_task` of the task that is
already current, exactly one task control block is in state `TASK_RUNNING`. -/
theorem exactly_one_running (k : Nat) (s : sched_state) (l : List Nat)
    (h : sched_reach k s l) :
    ∃! p, p ∈ l ∧ (s.tasks p).state = task_state_t.TASK_RUNNING := by
  obtain ⟨hcur, _, _, _, hrun⟩ := sched_reach_inv k s l h
  refine ⟨s.current_task, ⟨hcur, (hrun _ hcur).2 rfl⟩, ?_⟩
  rintro p ⟨hp, hs⟩
  exact (hrun p hp).1 hs

/-- Witness of `exactly_one_running`: the state right after boot. -/
theorem exactly_one_running_witness :
    ∃! p, p ∈ [0x1000] ∧
      ((set_current_task (init_kernel_task sched_boot 0x1000) 0x1000).tasks p).state =
        task_state_t.TASK_RUNNING :=
  exactly_one_running 0x1000 _ _ (sched_reach.boot sched_boot (by decide))

/-- C6 as stated fails: after `init_kernel_task(k)`, `set_current_task(k)`,
`create_task` returning `t` and `set_current_task(t)`, both `k` and `t` are in
state `TASK_RUNNING`. -/
theorem set_current_task_two_running :
    ∃ s, sched_set_current_twice = some s ∧
      (s.tasks 0x1000).state = task_state_t.TASK_RUNNING ∧
      (s.tasks 0x2000).state = task_state_t.TASK_RUNNING ∧
      ¬ ∃! p, p ∈ [0x2000, 0x1000] ∧ (s.tasks p).state = task_state_t.TASK_RUNNING := by
  refine ⟨_, rfl, by decide, by decide, ?_⟩
  rintro ⟨p, _, hu⟩
  have h1 := hu 0x1000 ⟨by simp, by decide⟩
  have h2 := hu 0x2000 ⟨by simp, by decide⟩
  omega

/-- Witness of `schedule_from_interrupt_switches`: two tasks, the kernel task is
current and the created task is ready with the marker in `rax`. -/
theorem schedule_from_interrupt_switches_witness :
    ∃ s, sched_two_tasks = some s ∧
      (schedule_from_interrupt s frame_example).1.current_task = 0x2000 ∧
      (schedule_from_interrupt s frame_example).2.regs.rax = 0 ∧
      (schedule_from_interrupt s frame_example).2.rip = 0x400000 := by
  refine ⟨_, rfl, ?_⟩
  have h := schedule_from_interrupt_switches
    (start_scheduler (create_task 1 (set_current_task (init_kernel_task sched_boot 0x1000) 0x1000)
      0x2000 0x400000 0x8000 4096 |>.get (by decide)).2) frame_example
    (by decide) (by decide) (by decide) (by decide) (by decide) (by decide)
  exact ⟨h.2.1.1, h.2.2.1.1, h.2.2.1.2.2.2.2.2.2.2.2.2.2.2.2.2.2.2.1⟩


/-! ## Values returned by `virt_to_phys` -/

theorem or_eq_left_iff_of_disjoint (h o : Nat) (hd : ∀ i, o.testBit i = true → h.testBit i = false) :
    h ||| o = h ↔ o = 0 := by
  constructor
  · intro e
    apply Nat.eq_of_testBit_eq
    intro i
    rw [Nat.zero_testBit]
    by_contra hne
    have ho : o.testBit i = true := by simpa using hne
    have h1 : (h ||| o).testBit i = true := by rw [Nat.testBit_or, ho]; simp
    rw [e, hd i ho] at h1
    exact absurd h1 (by simp)
  · intro e
    rw [e, Nat.or_zero]

theorem testBit_and_0xFFF (v i : Nat) : (v &&& 0xFFF).testBit i = (v.testBit i && decide (i < 12)) := by
  have : (0xFFF : Nat) = 2 ^ 12 - 1 := by norm_num
  rw [Nat.testBit_and, this, Nat.testBit_two_pow_sub_one]

theorem testBit_and_0x1FFFFF (v i : Nat) :
    (v &&& 0x1FFFFF).testBit i = (v.testBit i && decide (i < 21)) := by
  have : (0x1FFFFF : Nat) = 2 ^ 21 - 1 := by norm_num
  rw [Nat.testBit_and, this, Nat.testBit_two_pow_sub_one]

theorem virt_to_phys_walk (s : phys_state) (dir virt : Nat) :
    virt_to_phys s dir virt =
      if !pte_present (walk_p4 s dir virt) then NotMapped
      else if !pte_present (walk_p3 s dir virt) then NotMapped
      else if !pte_present (walk_p2 s dir virt) then NotMapped
      else if pte_huge_page (walk_p2 s dir virt) then walk_p2 s dir virt &&& PGADDR_MASK
      else if !pte_present (walk_p1 s dir virt) then NotMapped
      else walk_p1 s dir virt &&& PGADDR_MASK := rfl

/-- C11 (amended): when the walk of `virt` finds present entries at P4, P3, P2
(not huge) and P1, `virt_to_phys` returns the P1 entry with its low twelve bits
cleared, the base of the frame; this is
`(P1 entry & ~0xFFF) | (virt & 0xFFF)` exactly when the page offset of `virt`
is zero. -/
theorem virt_to_phys_leaf_base (s : phys_state) (dir virt : Nat)
    (h4 : pte_present (walk_p4 s dir virt) = true)
    (h3 : pte_present (walk_p3 s dir virt) = true)
    (h2 : pte_present (walk_p2 s dir virt) = true)
    (hh : pte_huge_page (walk_p2 s dir virt) = false)
    (h1 : pte_present (walk_p1 s dir virt) = true) :
    virt_to_phys s dir virt = walk_p1 s dir virt &&& PGADDR_MASK ∧
    (virt_to_phys s dir virt = (walk_p1 s dir virt &&& PGADDR_MASK) ||| (virt &&& 0xFFF) ↔
      virt &&& 0xFFF = 0) := by
  have hv : virt_to_phys s dir virt = walk_p1 s dir virt &&& PGADDR_MASK := by
    rw [virt_to_phys_walk]
    simp [h4, h3, h2, hh, h1]
  refine ⟨hv, ?_⟩
  rw [hv, eq_comm]
  apply or_eq_left_iff_of_disjoint
  intro i hi
  rw [testBit_and_0xFFF] at hi
  have hlt : i < 12 := by
    simp only [Bool.and_eq_true, decide_eq_true_eq] at hi
    exact hi.2
  rw [Nat.testBit_and, testBit_pgaddr_mask]
  simp
  omega

/-- Witness of `virt_to_phys_leaf_base`: the page `0x5000` of `phys_mapped`. -/
theorem virt_to_phys_leaf_base_witness :
    virt_to_phys phys_mapped 0x1000 0x5000 = walk_p1 phys_mapped 0x1000 0x5000 &&& PGADDR_MASK ∧
    (virt_to_phys phys_mapped 0x1000 0x5000 =
        (walk_p1 phys_mapped 0x1000 0x5000 &&& PGADDR_MASK) ||| (0x5000 &&& 0xFFF) ↔
      0x5000 &&& 0xFFF = 0) :=
  virt_to_phys_leaf_base phys_mapped 0x1000 0x5000 (by decide) (by decide) (by decide)
    (by decide) (by decide)

/-- C11 as stated fails for an address that is not page aligned: in
`phys_mapped` the walk of `0x5123` finds present entries at all four levels, the
P1 entry is `0x400003`, and `virt_to_phys` returns `0x400000`, not
`0x400000 | 0x123`. -/
theorem virt_to_phys_drops_page_offset :
    pte_present (walk_p4 phys_mapped 0x1000 0x5123) = true ∧
    pte_present (walk_p3 phys_mapped 0x1000 0x5123) = true ∧
    pte_present (walk_p2 phys_mapped 0x1000 0x5123) = true ∧
    pte_huge_page (walk_p2 phys_mapped 0x1000 0x5123) = false ∧
    pte_present (walk_p1 phys_mapped 0x1000 0x5123) = true ∧
    walk_p1 phys_mapped 0x1000 0x5123 = 0x400003 ∧
    virt_to_phys phys_mapped 0x1000 0x5123 = 0x400000 ∧
    (walk_p1 phys_mapped 0x1000 0x5123 &&& PGADDR_MASK) ||| (0x5123 &&& 0xFFF) = 0x400123 := by
  decide

/-- C12 (amended): when the walk of `virt` finds present entries at P4 and P3
and a present huge P2 entry, `virt_to_phys` returns the P2 entry with its low
twelve bits cleared; when the base held by the entry is 2 MiB aligned this is
`(P2 entry & ~0x1FFFFF) | (virt & 0x1FFFFF)` exactly when the low 21 bits of
`virt` are zero. -/
theorem virt_to_phys_huge_base (s : phys_state) (dir virt : Nat)
    (h4 : pte_present (walk_p4 s dir virt) = true)
    (h3 : pte_present (walk_p3 s dir virt) = true)
    (h2 : pte_present (walk_p2 s dir virt) = true)
    (hh : pte_huge_page (walk_p2 s dir virt) = true) :
    virt_to_phys s dir virt = walk_p2 s dir virt &&& PGADDR_MASK ∧
    (walk_p2 s dir virt &&& 0x1FF000 = 0 →
      (virt_to_phys s dir virt =
          (walk_p2 s dir virt &&& 0xFFFFFFFFFFE00000) ||| (virt &&& 0x1FFFFF) ↔
        virt &&& 0x1FFFFF = 0)) := by
  have hv : virt_to_phys s dir virt = walk_p2 s dir virt &&& PGADDR_MASK := by
    rw [virt_to_phys_walk]
    simp [h4, h3, h2, hh]
  refine ⟨hv, ?_⟩
  intro hal
  have hm : (0xFFFFFFFFFFE00000 : Nat) = (2 ^ 43 - 1) <<< 21 := by decide
  have hmid : (0x1FF000 : Nat) = (2 ^ 9 - 1) <<< 12 := by decide
  have hbits : ∀ i, 12 ≤ i → i < 21 → (walk_p2 s dir virt).testBit i = false := by
    intro i h12 h21
    have := congrArg (fun n => Nat.testBit n i) hal
    simp only [Nat.testBit_and, Nat.zero_testBit, hmid, Nat.testBit_shiftLeft,
      Nat.testBit_two_pow_sub_one] at this
    have hd : decide (i ≥ 12) = true := by simpa using h12
    have hd2 : decide (i - 12 < 9) = true := by simp; omega
    rw [hd, hd2] at this
    simpa using this
  have hbase : walk_p2 s dir virt &&& PGADDR_MASK =
      walk_p2 s dir virt &&& 0xFFFFFFFFFFE00000 := by
    apply Nat.eq_of_testBit_eq
    intro i
    rw [Nat.testBit_and, Nat.testBit_and, testBit_pgaddr_mask, hm, Nat.testBit_shiftLeft,
      Nat.testBit_two_pow_sub_one]
    by_cases c21 : 21 ≤ i
    · have e1 : decide (12 ≤ i) = true := by simp; omega
      have e2 : decide (i ≥ 21) = true := by simpa using c21
      rw [e1, e2]
      congr 1
      simp only [Bool.true_and]
      by_cases c64 : i < 64
      · have : i - 21 < 43 := by omega
        simp [c64, this]
      · have : ¬ i - 21 < 43 := by omega
        simp [c64, this]
    · have e2 : decide (i ≥ 21) = false := by simpa using c21
      rw [e2]
      by_cases c12 : 12 ≤ i
      · rw [hbits i c12 (by omega)]
        simp
      · simp [c12]
  rw [hv, hbase, eq_comm]
  apply or_eq_left_iff_of_disjoint
  intro i hi
  rw [testBit_and_0x1FFFFF] at hi
  have hlt : i < 21 := by
    simp only [Bool.and_eq_true, decide_eq_true_eq] at hi
    exact hi.2
  rw [Nat.testBit_and, hm, Nat.testBit_shiftLeft]
  have e2 : decide (i ≥ 21) = false := by simp; omega
  rw [e2]
  simp

/-- Witness of `virt_to_phys_huge_base`: the huge page at 0 of `phys_huge`. -/
theorem virt_to_phys_huge_base_witness :
    virt_to_phys phys_huge 0x1000 0 = walk_p2 phys_huge 0x1000 0 &&& PGADDR_MASK ∧
    (walk_p2 phys_huge 0x1000 0 &&& 0x1FF000 = 0 →
      (virt_to_phys phys_huge 0x1000 0 =
          (walk_p2 phys_huge 0x1000 0 &&& 0xFFFFFFFFFFE00000) ||| (0 &&& 0x1FFFFF) ↔
        0 &&& 0x1FFFFF = 0)) :=
  virt_to_phys_huge_base phys_huge 0x1000 0 (by decide) (by decide) (by decide) (by decide)

/-- C12 as stated fails for an address inside a huge page: in `phys_huge` the
walk of `0x5000` finds present entries at P4 and P3 and the present huge P2 entry
`0x200083`, and `virt_to_phys` returns `0x200000`, not `0x200000 | 0x5000`. -/
theorem virt_to_phys_drops_huge_offset :
    pte_present (walk_p4 phys_huge 0x1000 0x5000) = true ∧
    pte_present (walk_p3 phys_huge 0x1000 0x5000) = true ∧
    pte_present (walk_p2 phys_huge 0x1000 0x5000) = true ∧
    pte_huge_page (walk_p2 phys_huge 0x1000 0x5000) = true ∧
    walk_p2 phys_huge 0x1000 0x5000 = 0x200083 ∧
    virt_to_phys phys_huge 0x1000 0x5000 = 0x200000 ∧
    (walk_p2 phys_huge 0x1000 0x5000 &&& 0xFFFFFFFFFFE00000) ||| (0x5000 &&& 0x1FFFFF) =
      0x205000 := by
  decide

/-! ## Running out of frames -/

theorem scan_bitmap_all_ff (m : Mem) (p_end fuel p : Nat) (hp : p ≤ p_end)
    (hf : p_end - p ≤ fuel) (hall : ∀ x, p ≤ x → x < p_end → read8 m x = 0xFF) :
    scan_bitmap fuel m p p_end = p_end := by
  obtain ⟨h1, h2, _, h4⟩ := scan_bitmap_props m p_end fuel p hp
  by_contra hne
  have hlt : scan_bitmap fuel m p p_end < p_end := by omega
  exact h4 hlt hf (hall _ h1 hlt)

theorem first_clear_bit_none (b : Nat) :
    ∀ (n i : Nat), first_clear_bit b n i = none →
      ∀ j, i ≤ j → j < i + n → b.testBit j = true := by
  intro n
  induction n with
  | zero => intro i _ j h1 h2; omega
  | succ n ih =>
    intro i h j h1 h2
    rw [first_clear_bit] at h
    by_cases hc : b &&& (1 <<< i) = 0
    · rw [if_pos hc] at h; simp at h
    · rw [if_neg hc] at h
      by_cases hji : j = i
      · subst hji
        have : ¬ (b.testBit j = false) := fun hf => hc ((and_one_shiftLeft_eq_zero b j).2 hf)
        simpa using this
      · exact ih (i + 1) h j (by omega) (by omega)

/-- On a bitmap inside the address space `phys_alloc_page` panics exactly when
every byte of the bitmap is `0xFF`, and the panic is then the out-of-memory one
(the scan has reached `p_end`). -/
theorem phys_alloc_page_none_iff (s : phys_state) (zeroed : Bool)
    (hrange : s.bitmap + s.bitmap_size < 2 ^ 64) :
    (phys_alloc_page s zeroed = none ↔
      ∀ i, i < s.bitmap_size → read8 s.mem (s.bitmap + i) = 0xFF) ∧
    (phys_alloc_page s zeroed = none →
      scan_bitmap s.bitmap_size s.mem s.bitmap ((s.bitmap + s.bitmap_size) % 2 ^ 64) =
        (s.bitmap + s.bitmap_size) % 2 ^ 64) := by
  have hpe : (s.bitmap + s.bitmap_size) % 2 ^ 64 = s.bitmap + s.bitmap_size :=
    Nat.mod_eq_of_lt hrange
  have key : phys_alloc_page s zeroed = none →
      scan_bitmap s.bitmap_size s.mem s.bitmap (s.bitmap + s.bitmap_size) =
        s.bitmap + s.bitmap_size := by
    intro h
    unfold phys_alloc_page at h
    simp only [hpe] at h
    obtain ⟨h1, h2, _, h4⟩ := scan_bitmap_props s.mem (s.bitmap + s.bitmap_size) s.bitmap_size
      s.bitmap (by omega)
    generalize scan_bitmap s.bitmap_size s.mem s.bitmap (s.bitmap + s.bitmap_size) = p
      at h h1 h2 h4 ⊢
    by_contra hp
    rw [if_neg hp] at h
    have hne := h4 (by omega) (by omega)
    split at h
    · rename_i hn
      have hall := first_clear_bit_none _ _ _ hn
      exact hne ((byte_eq_ff_iff _ (read8_lt _ _)).2 (fun t ht => hall t (by omega) (by omega)))
    · cases zeroed <;> simp at h
  rw [hpe]
  refine ⟨⟨?_, ?_⟩, key⟩
  · intro h i hi
    have hs := key h
    obtain ⟨_, _, h3, _⟩ := scan_bitmap_props s.mem (s.bitmap + s.bitmap_size) s.bitmap_size
      s.bitmap (by omega)
    exact h3 (s.bitmap + i) (by omega) (by omega)
  · intro hall
    have hs := scan_bitmap_all_ff s.mem (s.bitmap + s.bitmap_size) s.bitmap_size s.bitmap
      (by omega) (by omega) (fun x h1 h2 => by
        have := hall (x - s.bitmap) (by omega)
        rwa [show s.bitmap + (x - s.bitmap) = x by omega] at this)
    unfold phys_alloc_page
    simp only [hpe, hs, if_true]

/-- The bitmap after `phys_alloc_page` has taken the lowest clear bit `k`, when
the frame is not zeroed or does not overlap the bitmap. -/
theorem phys_alloc_page_bits (s : phys_state) (zeroed : Bool) (k : Nat)
    (hrange : s.bitmap + s.bitmap_size < 2 ^ 64)
    (hsize : s.bitmap_size * 8 * 4096 ≤ 2 ^ 64)
    (hk : k < 8 * s.bitmap_size)
    (hclear : bitmap_bit s k = false)
    (hlow : ∀ j, j < k → bitmap_bit s j = true)
    (hsep : zeroed = true →
      4096 * k + 4096 ≤ s.bitmap ∨ s.bitmap + s.bitmap_size ≤ 4096 * k) :
    ∃ s1, phys_alloc_page s zeroed = some (4096 * k, s1) ∧
      s1.bitmap = s.bitmap ∧ s1.bitmap_size = s.bitmap_size ∧
      ∀ j, j < 8 * s.bitmap_size → bitmap_bit s1 j = (bitmap_bit s j || decide (j = k)) := by
  rw [phys_alloc_page_eq s zeroed k hrange hsize hk hclear hlow]
  cases zeroed with
  | false =>
    exact ⟨set_page s k, rfl, rfl, rfl, fun j _ => bitmap_bit_set_page s k j hrange hk⟩
  | true =>
    have hs := hsep rfl
    refine ⟨_, rfl, rfl, rfl, ?_⟩
    intro j hj
    have hb := bitmap_bit_set_page s k j hrange hk
    unfold bitmap_bit at hb ⊢
    simp only [if_true]
    rw [set_page_bitmap] at hb
    rw [set_page_bitmap, read8_fill_out _ _ _ _ _ (by omega), hb]

/-- C13 (amended): on a bitmap inside the address space `phys_alloc_page` fails
if and only if every one of the `bitmap_size` bytes of the bitmap is `0xFF`, and
the failure is then the out-of-memory panic (the scan has reached `p_end`).
Starting from a bitmap with exactly one clear bit `k`, the first call succeeds
and the second call panics, provided the frame `k` is not zeroed or does not
overlap the bytes of the bitmap. -/
theorem phys_alloc_page_out_of_memory (s : phys_state) (zeroed : Bool)
    (hrange : s.bitmap + s.bitmap_size < 2 ^ 64) :
    (phys_alloc_page s zeroed = none ↔
      ∀ i, i < s.bitmap_size → read8 s.mem (s.bitmap + i) = 0xFF) ∧
    (phys_alloc_page s zeroed = none →
      scan_bitmap s.bitmap_size s.mem s.bitmap ((s.bitmap + s.bitmap_size) % 2 ^ 64) =
        (s.bitmap + s.bitmap_size) % 2 ^ 64) ∧
    ∀ k, s.bitmap_size * 8 * 4096 ≤ 2 ^ 64 → k < 8 * s.bitmap_size →
      (∀ j, j < 8 * s.bitmap_size → (bitmap_bit s j = false ↔ j = k)) →
      (zeroed = true →
        4096 * k + 4096 ≤ s.bitmap ∨ s.bitmap + s.bitmap_size ≤ 4096 * k) →
      ∃ s1, phys_alloc_page s zeroed = some (4096 * k, s1) ∧
        ∀ z, phys_alloc_page s1 z = none := by
  refine ⟨(phys_alloc_page_none_iff s zeroed hrange).1,
    (phys_alloc_page_none_iff s zeroed hrange).2, ?_⟩
  intro k hsize hk hone hsep
  have hclear : bitmap_bit s k = false := (hone k hk).2 rfl
  have hlow : ∀ j, j < k → bitmap_bit s j = true := by
    intro j hj
    have := (hone j (by omega)).not.2 (by omega)
    simpa using this
  obtain ⟨s1, h1, hb, hs, hbits⟩ :=
    phys_alloc_page_bits s zeroed k hrange hsize hk hclear hlow hsep
  refine ⟨s1, h1, ?_⟩
  intro z
  apply (phys_alloc_page_none_iff s1 z (by rw [hb, hs]; exact hrange)).1.2
  intro i hi
  rw [hs] at hi
  apply (byte_eq_ff_iff _ (read8_lt _ _)).2
  intro t ht
  have hj := hbits (8 * i + t) (by omega)
  unfold bitmap_bit at hj
  rw [show (8 * i + t) / 8 = i by omega, show (8 * i + t) % 8 = t by omega] at hj
  rw [hj]
  by_cases hjk : 8 * i + t = k
  · simp [hjk]
  · have := (hone (8 * i + t) (by omega)).not.2 hjk
    unfold bitmap_bit at this
    rw [show (8 * i + t) / 8 = i by omega, show (8 * i + t) % 8 = t by omega] at this
    simp only [Bool.not_eq_false] at this
    rw [this]
    simp

/-- Witness of `phys_alloc_page_out_of_memory`: in `phys_last_frame` bit 9 is the
only clear bit; the first call returns frame 9 and the second call panics. -/
theorem phys_alloc_page_out_of_memory_witness :
    ∃ s1, phys_alloc_page phys_last_frame true = some (4096 * 9, s1) ∧
      ∀ z, phys_alloc_page s1 z = none :=
  (phys_alloc_page_out_of_memory phys_last_frame true (by decide)).2.2 9 (by decide)
    (by decide) (by decide) (fun _ => Or.inr (by decide))

set_option maxRecDepth 1000000 in
/-- C13 as stated fails when the only free frame holds the bitmap: in
`phys_one_clear_bit` bit 512 is the only clear bit, the first call returns
`4096 * 512` and zeroes that frame, and the second call does not panic: it
returns frame 0. -/
theorem phys_alloc_page_second_call_succeeds :
    (∀ j, j < 8 * phys_one_clear_bit.bitmap_size →
      (bitmap_bit phys_one_clear_bit j = false ↔ j = 512)) ∧
    (phys_alloc_page phys_one_clear_bit true).map (fun r => r.1) = some (4096 * 512) ∧
    (phys_alloc_page phys_one_clear_bit true).bind
        (fun r => (phys_alloc_page r.2 true).map (fun r2 => r2.1)) = some 0 := by
  refine ⟨by decide, ?_, ?_⟩
  · rw [phys_alloc_page_eq_fill]; decide
  · simp only [phys_alloc_page_eq_fill]; decide

/-! ## Frames cleared by `phys_free_range` -/

/-- C14 fails on the code: `phys_free_range(0x9000, 0x2000)` on the full bitmap
`phys_full` is asked to free the two frames of `[0x9000, 0xB000)`, bits 9 and 10.
The loop runs `0x2000` times, once per byte of the length, and clears the
`0x2000` bits from bit 9 on: bit 11, the frame at `0xB000` outside the range, is
clear afterwards. -/
theorem phys_free_range_clears_length_bits :
    (∀ j, bitmap_bit (phys_free_range phys_full 0x9000 0x2000) j =
      (bitmap_bit phys_full j && !decide (9 ≤ j ∧ j < 9 + 0x2000))) ∧
    0x9000 + 0x2000 ≤ 4096 * 11 ∧
    bitmap_bit phys_full 11 = true ∧
    bitmap_bit (phys_free_range phys_full 0x9000 0x2000) 11 = false := by
  have h := (phys_free_range_loop_bits 0x9000 0x2000 0 phys_full (by norm_num)
    (by unfold phys_full; norm_num)).2.2
  have e : (0x9000 : Nat) / 4096 + 0 = 9 := by norm_num
  rw [e] at h
  have h11 : bitmap_bit phys_full 11 = true := by decide
  refine ⟨?_, by norm_num, h11, ?_⟩
  · unfold phys_free_range
    exact h
  unfold phys_free_range
  rw [h 11, h11]
  simp

/-! ## The bitmap left by `phys_init_multiboot` -/

/-- The run of `phys_init_multiboot` on `mmap_64mib`: its first allocation
returns the frame `0x200000` of the bitmap, its second one frame 0, and in the
state it leaves bit 0 is the only bit of the bitmap that is set. -/
theorem phys_init_multiboot_64mib_run :
    ∃ s3 s4, phys_alloc_page phys_after_free_range true = some (4096 * 512, s3) ∧
      phys_alloc_page s3 true = some (4096 * 0, s4) ∧
      phys_init_multiboot phys_boot mmap_64mib = some s4 ∧
      s4.bitmap = 0x200000 ∧ s4.bitmap_size = 2048 ∧
      ∀ j, j < 16384 → bitmap_bit s4 j = decide (j = 0) := by
  obtain ⟨hb2, hs2, hbits2⟩ := phys_after_free_range_bits
  obtain ⟨s3, ha1, hb3, hz3, hin3, _⟩ := phys_alloc_page_true_spec phys_after_free_range 512
    (by rw [hb2, hs2]; norm_num) (by rw [hs2]; norm_num) (by rw [hs2]; norm_num)
    (by rw [hbits2 512 (by norm_num)]; simp)
    (by intro j hj; rw [hbits2 j (by omega)]; simpa using hj)
  rw [hb2] at hb3 hin3
  rw [hs2] at hz3
  have hbits3 : ∀ j, j < 16384 → bitmap_bit s3 j = false :=
    fun j hj => hin3 j (by omega) (by omega)
  obtain ⟨s4, ha2, hb4, hz4, _, hout4⟩ := phys_alloc_page_true_spec s3 0
    (by rw [hb3, hz3]; norm_num) (by rw [hz3]; norm_num) (by rw [hz3]; norm_num)
    (hbits3 0 (by norm_num)) (by intro j hj; omega)
  rw [hb3] at hb4 hout4
  rw [hz3] at hz4
  refine ⟨s3, s4, ha1, ha2, ?_, hb4, hz4, ?_⟩
  · rw [phys_init_multiboot_64mib, ha1]
    simp only []
    rw [ha2]
  · intro j hj
    rw [hout4 j (by omega), hbits3 j hj]
    simp

/-- C15 fails on the code: on the memory map `mmap_64mib` the bitmap has 2048
bytes at `0x200000`, inside frame 512.  The first allocation that
`phys_init_multiboot` makes returns that frame (and zeroes it), and in the state
that `phys_init_multiboot` leaves the bit of frame 512 is clear. -/
theorem phys_init_multiboot_frees_bitmap_frame :
    ∃ s3 s, phys_alloc_page phys_after_free_range true = some (0x200000, s3) ∧
      phys_init_multiboot phys_boot mmap_64mib = some s ∧
      s.bitmap = 0x200000 ∧ s.bitmap_size = 2048 ∧
      4096 * 512 ≤ s.bitmap ∧ s.bitmap < 4096 * 512 + 4096 ∧
      512 < 8 * s.bitmap_size ∧ bitmap_bit s 512 = false := by
  obtain ⟨s3, s4, h1, _, h3, hb, hs, hbits⟩ := phys_init_multiboot_64mib_run
  refine ⟨s3, s4, h1, h3, hb, hs, by omega, by omega, by omega, ?_⟩
  rw [hbits 512 (by norm_num)]
  simp

theorem scan_mmap_two_ranges : scan_mmap mmap_two_ranges (0, none) =
      (0x8000000, some { base_addr := 0x100000, length := 0x6000000, type := 1 }) := rfl

theorem phys_init_multiboot_two_ranges :
    phys_init_multiboot phys_boot mmap_two_ranges =
      (match phys_alloc_page phys_after_free_range_two true with
       | none => none
       | some (_, s3) =>
         match phys_alloc_page s3 true with
         | none => none
         | some (_, s4) => some s4) := by
  apply phys_init_multiboot_unfold phys_boot mmap_two_ranges 0x8000000
    { base_addr := 0x100000, length := 0x6000000, type := 1 } phys_after_free_range_two
    scan_mmap_two_ranges
  have e1 : ((0x100000 : Nat) + 0x100000) % 2 ^ 64 = 0x200000 := by norm_num
  have e2 : (0x8000000 : Nat) / PAGE_SIZE / 8 = 4096 := by unfold PAGE_SIZE; norm_num
  have e3 : ((0x100000 : Nat) + (4096 + 0x100000)) % 2 ^ 64 = 0x201000 := by norm_num
  have e4 : ¬ ((0x201000 : Nat) < 0x200000) := by norm_num
  simp only []
  rw [e1, e2, e3, if_neg e4]
  unfold phys_after_free_range_two
  exact Eq.refl _

theorem phys_after_free_range_two_bits :
    phys_after_free_range_two.bitmap = 0x200000 ∧
    phys_after_free_range_two.bitmap_size = 4096 ∧
    ∀ j, j < 32768 → bitmap_bit phys_after_free_range_two j = decide (j < 513) := by
  obtain ⟨h1, h2, h3⟩ := phys_free_range_loop_bits 0x201000 0x6000000 0
    { phys_boot with
      bitmap := 0x200000, bitmap_size := 4096,
      mem := memset phys_boot.mem 0x200000 0xFF 4096 } (by norm_num) (by norm_num)
  refine ⟨h1, h2, ?_⟩
  intro j hj
  unfold phys_after_free_range_two phys_free_range
  rw [h3 j]
  have hb : bitmap_bit { phys_boot with
      bitmap := 0x200000, bitmap_size := 4096,
      mem := memset phys_boot.mem 0x200000 0xFF 4096 } j = true := by
    unfold bitmap_bit
    simp only []
    rw [memset_spec _ _ _ _ (by norm_num) (by norm_num), read8_fill_in _ _ _ _ _ (by omega)]
    have : (0xFF % 256 % 256 : Nat) = 2 ^ 8 - 1 := by norm_num
    rw [this, Nat.testBit_two_pow_sub_one]
    simp
    omega
  rw [hb]
  by_cases h : j < 513
  · have : ¬ (0x201000 / 4096 + 0 ≤ j ∧ j < 0x201000 / 4096 + 0 + 0x6000000) := by omega
    simp [h, this]
  · have : (0x201000 / 4096 + 0 ≤ j ∧ j < 0x201000 / 4096 + 0 + 0x6000000) := by omega
    simp [h, this]

/-- C16 fails on the code: on the memory map `mmap_two_ranges` the pool is the
range `[0x100000, 0x6100000)`, yet in the state that `phys_init_multiboot` leaves
the bit of frame `0x6100` is clear within the bitmap.  That frame starts at
`0x6100000`, inside the reserved range, and lies in no available range of the
map: `phys_free_range` clears one bit per byte of the length of the pool, past
the end of the pool and up to the end of the bitmap. -/
theorem phys_init_multiboot_frees_reserved_frame :
    ∃ s, phys_init_multiboot phys_boot mmap_two_ranges = some s ∧
      s.bitmap_size = 4096 ∧ 0x6100 < 8 * s.bitmap_size ∧
      (∀ j, j < 32768 → bitmap_bit s j = decide (j < 515)) ∧
      bitmap_bit s 0x6100 = false ∧
      (∃ e ∈ mmap_two_ranges, e.type = 2 ∧
        e.base_addr ≤ 4096 * 0x6100 ∧ 4096 * 0x6100 < e.base_addr + e.length) ∧
      (∀ e ∈ mmap_two_ranges, e.type = MULTIBOOT_MEMORY_AVAILABLE →
        ¬ (e.base_addr ≤ 4096 * 0x6100 ∧ 4096 * 0x6100 < e.base_addr + e.length)) := by
  obtain ⟨hb2, hs2, hbits2⟩ := phys_after_free_range_two_bits
  obtain ⟨s3, ha1, hb3, hz3, _, hout3⟩ := phys_alloc_page_true_spec phys_after_free_range_two 513
    (by rw [hb2, hs2]; norm_num) (by rw [hs2]; norm_num) (by rw [hs2]; norm_num)
    (by rw [hbits2 513 (by norm_num)]; simp)
    (by intro j hj; rw [hbits2 j (by omega)]; simpa using hj)
  rw [hb2] at hb3 hout3
  rw [hs2] at hz3
  have hbits3 : ∀ j, j < 32768 → bitmap_bit s3 j = decide (j < 514) := by
    intro j hj
    rw [hout3 j (by omega), hbits2 j hj]
    by_cases h : j < 513
    · have : j < 514 := by omega
      simp [h, this]
    · by_cases h2 : j = 513
      · simp [h2]
      · have : ¬ j < 514 := by omega
        simp [h, h2, this]
  obtain ⟨s4, ha2, hb4, hz4, _, hout4⟩ := phys_alloc_page_true_spec s3 514
    (by rw [hb3, hz3]; norm_num) (by rw [hz3]; norm_num) (by rw [hz3]; norm_num)
    (by rw [hbits3 514 (by norm_num)]; simp)
    (by intro j hj; rw [hbits3 j (by omega)]; simpa using hj)
  rw [hb3] at hb4 hout4
  rw [hz3] at hz4
  have hbits4 : ∀ j, j < 32768 → bitmap_bit s4 j = decide (j < 515) := by
    intro j hj
    rw [hout4 j (by omega), hbits3 j hj]
    by_cases h : j < 514
    · have : j < 515 := by omega
      simp [h, this]
    · by_cases h2 : j = 514
      · simp [h2]
      · have : ¬ j < 515 := by omega
        simp [h, h2, this]
  refine ⟨s4, ?_, hz4, by omega, hbits4, ?_, ?_, ?_⟩
  · rw [phys_init_multiboot_two_ranges, ha1]
    simp only []
    rw [ha2]
  · rw [hbits4 0x6100 (by norm_num)]
    simp
  · exact ⟨{ base_addr := 0x6100000, length := 0x1000000, type := 2 }, by simp [mmap_two_ranges],
      rfl, by norm_num, by norm_num⟩
  · decide

/-! ## Pointers handed out by `kmalloc` -/

/-- A pointer returned by the block search of `kmalloc` is
`sizeof(heap_header_t)` headers past the header `h` of the block handed out,
which is marked as in use. -/
theorem kmalloc_loop_pointer (size : Nat) :
    ∀ (fuel : Nat) (s : heap_state) (hdr x : Nat) (s1 : heap_state),
      kmalloc_loop fuel s size hdr = some (x, s1) →
      ∃ h, x = (h + HEADER_SIZE * HEADER_SIZE) % 2 ^ 64 ∧ hdr_is_free s1.mem h = false := by
  intro fuel
  induction fuel with
  | zero => intro s hdr x s1 h; simp [kmalloc_loop] at h
  | succ n ih =>
    intro s hdr x s1 h
    rw [kmalloc_loop] at h
    by_cases hf : hdr_is_free s.mem hdr = true
    · rw [if_pos hf] at h
      by_cases hgt : hdr_length s.mem hdr > size
      · rw [if_pos hgt] at h
        simp only [Option.some.injEq, Prod.mk.injEq] at h
        refine ⟨hdr, h.1.symm, ?_⟩
        rw [← h.2]
        unfold hdr_is_free spinlock_release
        simp only []
        rw [read8_write8_same]
        decide
      · rw [if_neg hgt] at h
        by_cases heq : hdr_length s.mem hdr = size
        · rw [if_pos heq] at h
          simp only [Option.some.injEq, Prod.mk.injEq] at h
          refine ⟨hdr, h.1.symm, ?_⟩
          rw [← h.2]
          unfold hdr_is_free spinlock_release
          simp only []
          rw [read8_write8_same]
          decide
        · rw [if_neg heq] at h
          exact ih _ _ _ _ h
    · rw [if_neg hf] at h
      exact ih _ _ _ _ h

set_option maxRecDepth 1000000 in
/-- C17 fails on the code: `kmalloc(16)` on `heap_fresh` hands out the block
whose header is at `HEAP_BASE` (it is free before and in use after), and returns
`HEAP_BASE + 1024`, not `HEAP_BASE + sizeof(heap_header)`.  `kfree` of that
pointer takes the header at `HEAP_BASE + 992`: it sets the `is_free` byte there
and leaves the header at `HEAP_BASE` in use. -/
theorem kfree_header_is_not_kmalloc_header :
    (∃ p1, init_kmalloc phys_example heap_zero 10 = some (p1, heap_fresh)) ∧
    hdr_is_free heap_fresh.mem HEAP_BASE = true ∧
    (kmalloc 1 heap_fresh 16).map (fun r =>
        (r.1, hdr_is_free r.2.mem HEAP_BASE, sub64 r.1 HEADER_SIZE,
         hdr_is_free r.2.mem (HEAP_BASE + 992))) =
      some (HEAP_BASE + 1024, false, HEAP_BASE + 992, false) ∧
    (kmalloc 1 heap_fresh 16).map (fun r =>
        (hdr_is_free (kfree r.2 r.1).mem (HEAP_BASE + 992),
         hdr_is_free (kfree r.2 r.1).mem HEAP_BASE)) = some (true, false) ∧
    HEAP_BASE + 1024 ≠ HEAP_BASE + HEADER_SIZE ∧ HEAP_BASE + 992 ≠ HEAP_BASE := by
  refine ⟨init_kmalloc_example, by decide, by decide, by decide, by decide, by decide⟩

theorem kmalloc_loop_null_forever (size : Nat) :
    ∀ fuel, kmalloc_loop fuel heap_fresh size 0 = none := by
  intro fuel
  induction fuel with
  | zero => rfl
  | succ n ih =>
    rw [kmalloc_loop]
    have h1 : hdr_is_free heap_fresh.mem 0 = false := by decide
    have h2 : hdr_next heap_fresh.mem 0 = 0 := by decide
    rw [h1, h2]
    simpa using ih

/-- C18 fails on the code: on `heap_fresh` the only block has length 40928 and a
null `next`, so no free block can hold 50000 bytes.  `kmalloc(50000)` does not
return, whatever the number of rounds: the block search has no exit for the
end of the list, it follows the null `next` link to address 0 and stays there,
and `expand_heap` is not reached. -/
theorem kmalloc_never_expands :
    (∃ p1, init_kmalloc phys_example heap_zero 10 = some (p1, heap_fresh)) ∧
    hdr_length heap_fresh.mem heap_fresh.heap_start = 40928 ∧
    hdr_next heap_fresh.mem heap_fresh.heap_start = 0 ∧
    ∀ fuel, kmalloc fuel heap_fresh 50000 = none := by
  refine ⟨init_kmalloc_example, by decide, by decide, ?_⟩
  intro fuel
  unfold kmalloc spinlock_lock
  rw [if_neg (by decide)]
  have hr : round_size 50000 = 50000 := by decide
  have hs : heap_fresh.heap_start = HEAP_BASE := rfl
  rw [hr, hs]
  cases fuel with
  | zero => rfl
  | succ n =>
    rw [kmalloc_loop]
    have h1 : hdr_is_free heap_fresh.mem HEAP_BASE = true := by decide
    have h2 : hdr_length heap_fresh.mem HEAP_BASE = 40928 := by decide
    have h3 : hdr_next heap_fresh.mem HEAP_BASE = 0 := by decide
    rw [h1, h2, h3]
    simp only [if_true]
    rw [if_neg (by decide), if_neg (by decide)]
    exact kmalloc_loop_null_forever 50000 n

set_option maxRecDepth 1000000 in
/-- C19 fails on the code: after `a1 = kmalloc(16)`, `a2 = kmalloc(32)`,
`kfree(a1)` and `kfree(a2)` on `heap_fresh`, the next `kmalloc(16)` returns
`HEAP_BASE + 1148`, a third block, and not `a1 = HEAP_BASE + 1024`: the two
`kfree` calls have marked the bytes at `a1 - 32` and `a2 - 32` and left both
blocks in use. -/
theorem kmalloc_after_free_returns_new_block :
    (∃ p1, init_kmalloc phys_example heap_zero 10 = some (p1, heap_fresh)) ∧
    heap_alloc_free_twice.bind (fun r =>
        (kmalloc 3 r.2.2 16).map (fun r3 =>
          (r.1, r.2.1, hdr_is_free r.2.2.mem HEAP_BASE, hdr_is_free r.2.2.mem (HEAP_BASE + 52),
           r3.1))) =
      some (HEAP_BASE + 1024, HEAP_BASE + 1076, false, false, HEAP_BASE + 1148) ∧
    HEAP_BASE + 1148 ≠ HEAP_BASE + 1024 := by
  refine ⟨init_kmalloc_example, by decide, by decide⟩

/-- The body of `split`, with its two early returns and the stores in the order
of the source. -/
theorem split_eq (m : Mem) (this size : Nat) :
    split m this size =
      if size < ROUND_NUM then (0, m)
      else if sub64 (sub64 (hdr_length m this) size) HEADER_SIZE < ROUND_NUM then (0, m)
      else
        let header := (this + size + HEADER_SIZE) % 2 ^ 64
        let m1 := write64 m (hdr_next m this + 16) header
        let m2 := write64 m1 (header + 8) (hdr_next m1 this)
        let m3 := write64 m2 (this + 8) header
        let m4 := write64 m3 (header + 16) this
        let m5 := write64 m4 header (sub64 (sub64 (hdr_length m this) size) HEADER_SIZE)
        let m6 := write8 m5 (header + 24) 1
        let m7 := write64 m6 this size
        (header, if hdr_last m7 this = this then write64 m7 (this + 16) header else m7) := rfl

/-- The last store of `split` to the length of the block is `this->length = size`;
the store to `this->last` that may follow does not reach it. -/
theorem length_after_last (m6 : Mem) (this size header : Nat) (hlt : size < 2 ^ 64) :
    hdr_length (if hdr_last (write64 m6 this size) this = this then
        write64 (write64 m6 this size) (this + 16) header
      else write64 m6 this size) this = size := by
  unfold hdr_length
  split
  · rw [read64_write64_disj _ _ _ _ (by omega), read64_write64_same, Nat.mod_eq_of_lt hlt]
  · rw [read64_write64_same, Nat.mod_eq_of_lt hlt]

/-- What `split` does to the length of the block it is called on: either it
returns early and leaves the memory as it is, or the length of the block is
`size` afterwards. -/
theorem split_keeps_or_sets_length (m : Mem) (this size : Nat) (hlt : size < 2 ^ 64) :
    ((size < ROUND_NUM ∨ sub64 (sub64 (hdr_length m this) size) HEADER_SIZE < ROUND_NUM) ∧
      (split m this size).2 = m) ∨
    hdr_length (split m this size).2 this = size := by
  by_cases h1 : size < ROUND_NUM
  · left
    refine ⟨Or.inl h1, ?_⟩
    rw [split_eq, if_pos h1]
  · by_cases h2 : sub64 (sub64 (hdr_length m this) size) HEADER_SIZE < ROUND_NUM
    · left
      refine ⟨Or.inr h2, ?_⟩
      rw [split_eq, if_neg h1, if_pos h2]
    · right
      rw [split_eq, if_neg h1, if_neg h2]
      simp only []
      exact length_after_last _ _ _ _ hlt

/-- The block that the search of `kmalloc` hands out: the first header on the
chain from `hdr` that is free with length at least `size`. -/
theorem kmalloc_loop_block (size : Nat) (hsize : 10 ≤ size) (hlt : size < 2 ^ 64) :
    ∀ (fuel : Nat) (s : heap_state) (hdr x : Nat) (s1 : heap_state),
      kmalloc_loop fuel s size hdr = some (x, s1) →
      ∃ k, k < fuel ∧
        (∀ j, j < k → ¬ (hdr_is_free s.mem (nth_header s.mem hdr j) = true ∧
            size ≤ hdr_length s.mem (nth_header s.mem hdr j))) ∧
        hdr_is_free s.mem (nth_header s.mem hdr k) = true ∧
        size ≤ hdr_length s.mem (nth_header s.mem hdr k) ∧
        x = (nth_header s.mem hdr k + HEADER_SIZE * HEADER_SIZE) % 2 ^ 64 ∧
        hdr_is_free s1.mem (nth_header s.mem hdr k) = false ∧
        (hdr_length s1.mem (nth_header s.mem hdr k) = size ∨
          hdr_length s1.mem (nth_header s.mem hdr k) =
            hdr_length s.mem (nth_header s.mem hdr k)) ∧
        hdr_length s1.mem (nth_header s.mem hdr k) < size + 42 := by
  intro fuel
  induction fuel with
  | zero => intro s hdr x s1 h; simp [kmalloc_loop] at h
  | succ n ih =>
    intro s hdr x s1 h
    have hfreed : ∀ m : Mem, hdr_is_free (write8 m (hdr + 24) 0) hdr = false := by
      intro m
      unfold hdr_is_free
      rw [read8_write8_same]
      decide
    have hlen8 : ∀ m : Mem, hdr_length (write8 m (hdr + 24) 0) hdr = hdr_length m hdr := by
      intro m
      unfold hdr_length
      rw [read64_write8_disj _ _ _ _ (by omega)]
    have hLlt : hdr_length s.mem hdr < 2 ^ 64 := read64_lt _ _
    have hstep : ∀ y s2, kmalloc_loop n s size (hdr_next s.mem hdr) = some (y, s2) →
        ¬ (hdr_is_free s.mem hdr = true ∧ size ≤ hdr_length s.mem hdr) →
        ∃ k, k < n + 1 ∧
          (∀ j, j < k → ¬ (hdr_is_free s.mem (nth_header s.mem hdr j) = true ∧
              size ≤ hdr_length s.mem (nth_header s.mem hdr j))) ∧
          hdr_is_free s.mem (nth_header s.mem hdr k) = true ∧
          size ≤ hdr_length s.mem (nth_header s.mem hdr k) ∧
          y = (nth_header s.mem hdr k + HEADER_SIZE * HEADER_SIZE) % 2 ^ 64 ∧
          hdr_is_free s2.mem (nth_header s.mem hdr k) = false ∧
          (hdr_length s2.mem (nth_header s.mem hdr k) = size ∨
            hdr_length s2.mem (nth_header s.mem hdr k) =
              hdr_length s.mem (nth_header s.mem hdr k)) ∧
          hdr_length s2.mem (nth_header s.mem hdr k) < size + 42 := by
      intro y s2 hrec hnot
      obtain ⟨k, hk, hfirst, rest⟩ := ih s (hdr_next s.mem hdr) y s2 hrec
      refine ⟨k + 1, by omega, ?_, rest⟩
      intro j hj
      cases j with
      | zero => exact hnot
      | succ i => exact hfirst i (by omega)
    rw [kmalloc_loop] at h
    by_cases hf : hdr_is_free s.mem hdr = true
    · rw [if_pos hf] at h
      by_cases hgt : hdr_length s.mem hdr > size
      · rw [if_pos hgt] at h
        simp only [Option.some.injEq, Prod.mk.injEq] at h
        obtain ⟨hx, hs1⟩ := h
        have hm : s1.mem = write8 (split s.mem hdr size).2 (hdr + 24) 0 := by
          rw [← hs1]; rfl
        refine ⟨0, by omega, fun j hj => absurd hj (by omega), hf, by
          show size ≤ hdr_length s.mem hdr
          omega, hx.symm, ?_, ?_, ?_⟩
        · show hdr_is_free s1.mem hdr = false
          rw [hm]; exact hfreed _
        · show hdr_length s1.mem hdr = size ∨ hdr_length s1.mem hdr = hdr_length s.mem hdr
          rw [hm, hlen8]
          rcases split_keeps_or_sets_length s.mem hdr size hlt with ⟨_, e⟩ | e
          · right; rw [e]
          · left; exact e
        · show hdr_length s1.mem hdr < size + 42
          rw [hm, hlen8]
          rcases split_keeps_or_sets_length s.mem hdr size hlt with ⟨c, e⟩ | e
          · rw [e]
            unfold sub64 ROUND_NUM HEADER_SIZE at c
            omega
          · rw [e]; omega
      · rw [if_neg hgt] at h
        by_cases heq : hdr_length s.mem hdr = size
        · rw [if_pos heq] at h
          simp only [Option.some.injEq, Prod.mk.injEq] at h
          obtain ⟨hx, hs1⟩ := h
          have hm : s1.mem = write8 s.mem (hdr + 24) 0 := by
            rw [← hs1]; rfl
          refine ⟨0, by omega, fun j hj => absurd hj (by omega), hf, by
            show size ≤ hdr_length s.mem hdr
            omega, hx.symm, ?_, ?_, ?_⟩
          · show hdr_is_free s1.mem hdr = false
            rw [hm]; exact hfreed _
          · show hdr_length s1.mem hdr = size ∨ hdr_length s1.mem hdr = hdr_length s.mem hdr
            rw [hm, hlen8]
            exact Or.inl heq
          · show hdr_length s1.mem hdr < size + 42
            rw [hm, hlen8]
            omega
        · rw [if_neg heq] at h
          exact hstep x s1 h (fun c => by omega)
    · rw [if_neg hf] at h
      exact hstep x s1 h (fun c => hf c.1)

/-- C20 (amended): `kmalloc` applies its granularity `ROUND_NUM` to the size of
the request, not to the address it returns.  For every heap state and every
`n > 0`, with `r` the request rounded up to the next multiple of `ROUND_NUM`:
when `kmalloc(n)` returns the pointer `x`, the block handed out is the first
block `hd` on the chain from `heap_start` that is free with length at least
`r`; after the call `hd` is in use and its length is `r` when it was split and
unchanged otherwise, in both cases at least `r` and below
`r + sizeof(heap_header) + 10`; and `x` is the address `hd` plus the constant
offset that `kmalloc` adds to the header of the block, the same for every
request and every heap state. -/
theorem kmalloc_pointer_offset (fuel : Nat) (s : heap_state) (n x : Nat) (s1 : heap_state)
    (hn : 0 < n) (hlt : n + 10 < 2 ^ 64) (h : kmalloc fuel s n = some (x, s1)) :
    round_size n % ROUND_NUM = 0 ∧ n ≤ round_size n ∧ round_size n < n + ROUND_NUM ∧
    ∃ k, k < fuel ∧
      (∀ j, j < k → ¬ (hdr_is_free s.mem (nth_header s.mem s.heap_start j) = true ∧
          round_size n ≤ hdr_length s.mem (nth_header s.mem s.heap_start j))) ∧
      hdr_is_free s.mem (nth_header s.mem s.heap_start k) = true ∧
      round_size n ≤ hdr_length s.mem (nth_header s.mem s.heap_start k) ∧
      x = (nth_header s.mem s.heap_start k + HEADER_SIZE * HEADER_SIZE) % 2 ^ 64 ∧
      hdr_is_free s1.mem (nth_header s.mem s.heap_start k) = false ∧
      (hdr_length s1.mem (nth_header s.mem s.heap_start k) = round_size n ∨
        hdr_length s1.mem (nth_header s.mem s.heap_start k) =
          hdr_length s.mem (nth_header s.mem s.heap_start k)) ∧
      round_size n ≤ hdr_length s1.mem (nth_header s.mem s.heap_start k) ∧
      hdr_length s1.mem (nth_header s.mem s.heap_start k) <
        round_size n + HEADER_SIZE + ROUND_NUM := by
  have hr := round_size_eq n hlt
  have h10 : 10 ≤ round_size n := by rw [hr]; omega
  have hr64 : round_size n < 2 ^ 64 := by rw [hr]; omega
  refine ⟨by rw [hr]; unfold ROUND_NUM; omega, by rw [hr]; omega,
    by rw [hr]; unfold ROUND_NUM; omega, ?_⟩
  unfold kmalloc at h
  rw [if_neg (by omega)] at h
  have hl : spinlock_lock s = s := rfl
  rw [hl] at h
  obtain ⟨k, hk, hfirst, hfree, hle, hx, hused, hlen, hub⟩ :=
    kmalloc_loop_block (round_size n) h10 hr64 fuel s s.heap_start x s1 h
  refine ⟨k, hk, hfirst, hfree, hle, hx, hused, hlen, ?_, ?_⟩
  · rcases hlen with e | e
    · rw [e]
    · rw [e]; exact hle
  · unfold HEADER_SIZE ROUND_NUM
    exact hub

set_option maxRecDepth 1000000 in
/-- Witness of `kmalloc_pointer_offset`: `kmalloc(16)` on `heap_fresh`. -/
theorem kmalloc_pointer_offset_witness :
    ∃ x s1, kmalloc 1 heap_fresh 16 = some (x, s1) ∧
      (round_size 16 % ROUND_NUM = 0 ∧ 16 ≤ round_size 16 ∧ round_size 16 < 16 + ROUND_NUM ∧
      ∃ k, k < 1 ∧
        (∀ j, j < k → ¬ (hdr_is_free heap_fresh.mem
            (nth_header heap_fresh.mem heap_fresh.heap_start j) = true ∧
          round_size 16 ≤ hdr_length heap_fresh.mem
            (nth_header heap_fresh.mem heap_fresh.heap_start j))) ∧
        hdr_is_free heap_fresh.mem (nth_header heap_fresh.mem heap_fresh.heap_start k) = true ∧
        round_size 16 ≤
          hdr_length heap_fresh.mem (nth_header heap_fresh.mem heap_fresh.heap_start k) ∧
        x = (nth_header heap_fresh.mem heap_fresh.heap_start k + HEADER_SIZE * HEADER_SIZE)
          % 2 ^ 64 ∧
        hdr_is_free s1.mem (nth_header heap_fresh.mem heap_fresh.heap_start k) = false ∧
        (hdr_length s1.mem (nth_header heap_fresh.mem heap_fresh.heap_start k) = round_size 16 ∨
          hdr_length s1.mem (nth_header heap_fresh.mem heap_fresh.heap_start k) =
            hdr_length heap_fresh.mem (nth_header heap_fresh.mem heap_fresh.heap_start k)) ∧
        round_size 16 ≤ hdr_length s1.mem (nth_header heap_fresh.mem heap_fresh.heap_start k) ∧
        hdr_length s1.mem (nth_header heap_fresh.mem heap_fresh.heap_start k) <
          round_size 16 + HEADER_SIZE + ROUND_NUM) := by
  have hsome : (kmalloc 1 heap_fresh 16).isSome = true := by decide
  obtain ⟨⟨x, s1⟩, hk⟩ := Option.isSome_iff_exists.1 hsome
  exact ⟨x, s1, hk, kmalloc_pointer_offset 1 heap_fresh 16 x s1 (by decide) (by decide) hk⟩

set_option maxRecDepth 1000000 in
/-- C20 as stated fails on the first allocation: `kmalloc(16)` on `heap_fresh`
hands out the block whose header is at `HEAP_BASE` and returns a pointer that
leaves the remainder 6 when divided by `ROUND_NUM`.  No address of that block is
rounded: its header leaves the remainder 2 and the address right behind the
header the remainder 4. -/
theorem kmalloc_pointer_not_aligned :
    (∃ p1, init_kmalloc phys_example heap_zero 10 = some (p1, heap_fresh)) ∧
    (kmalloc 1 heap_fresh 16).map (fun r => (r.1, r.1 % ROUND_NUM)) =
      some (HEAP_BASE + 1024, 6) ∧
    heap_fresh.heap_start % ROUND_NUM = 2 ∧
    (heap_fresh.heap_start + HEADER_SIZE) % ROUND_NUM = 4 := by
  refine ⟨init_kmalloc_example, by decide, by decide, by decide⟩

/-! ## Calls that change nothing -/

/-- C30: for every heap state, `kmalloc(0)` returns the null pointer before the
lock is taken and before any block is looked at: the heap memory with its block
list, `last_header` and the other statics of the heap are unchanged.  The frame
allocator and the page tables are out of reach of this path. -/
theorem kmalloc_zero_returns_null (fuel : Nat) (s : heap_state) :
    kmalloc fuel s 0 = some (0, s) := by
  unfold kmalloc
  rw [if_pos rfl]

/-- C26: `schedule_from_interrupt` returns the scheduler state (globals and every
task control block) and the frame as they were whenever `scheduler_ready` is
false, or the candidate (`current_task->next`, or `task_queue` when that is null)
is the current task, or the candidate is not ready. -/
theorem schedule_from_interrupt_no_switch (s : sched_state) (ctx : interrupt_context)
    (h : s.scheduler_ready = false ∨
      (if (s.tasks s.current_task).next = 0 then s.task_queue
        else (s.tasks s.current_task).next) = s.current_task ∨
      (s.tasks (if (s.tasks s.current_task).next = 0 then s.task_queue
        else (s.tasks s.current_task).next)).state ≠ task_state_t.TASK_READY) :
    schedule_from_interrupt s ctx = (s, ctx) := by
  unfold schedule_from_interrupt
  by_cases hr : s.scheduler_ready = true
  swap
  · simp [hr]
  have hc : ¬ ((if (s.tasks s.current_task).next = 0 then s.task_queue
        else (s.tasks s.current_task).next) ≠ s.current_task ∧
      (s.tasks (if (s.tasks s.current_task).next = 0 then s.task_queue
        else (s.tasks s.current_task).next)).state = task_state_t.TASK_READY) := by
    rcases h with h | h | h
    · rw [hr] at h; exact absurd h (by simp)
    · exact fun hh => hh.1 h
    · exact fun hh => h hh.2
  simp only [hr, Bool.not_true, Bool.false_eq_true, if_false]
  by_cases h1 : s.current_task = 0
  · rw [if_pos h1]
  rw [if_neg h1]
  by_cases h2 : s.task_queue = 0
  · rw [if_pos h2]
  rw [if_neg h2]
  by_cases h3 : (if (s.tasks s.current_task).next = 0 then s.task_queue
      else (s.tasks s.current_task).next) = 0
  · rw [if_pos h3]
  rw [if_neg h3, if_neg hc]

/-- Witness of `schedule_from_interrupt_no_switch`: the scheduler has not been
started. -/
theorem schedule_from_interrupt_no_switch_witness :
    schedule_from_interrupt sched_boot frame_example = (sched_boot, frame_example) :=
  schedule_from_interrupt_no_switch sched_boot frame_example (Or.inl rfl)

/-! ## Pages handed to the heap -/

set_option maxRecDepth 1000000 in
/-- C21 fails on the code: three calls of `heap_request_page` on the machine
`phys_example` return `HEAP_BASE`, `HEAP_BASE + 4096` and `HEAP_BASE + 4096`
again.  Every call resets `heap_base` to `HEAP_BASE` before it maps, so the
second call maps its frame `0xD000` at `HEAP_BASE`, and the address it returns,
`HEAP_BASE + 4096`, is not mapped. -/
theorem heap_request_page_repeats :
    (heap_request_page phys_example).bind (fun r1 =>
      (heap_request_page r1.2).bind (fun r2 =>
        (heap_request_page r2.2).map (fun r3 =>
          (r1.1, r2.1, r3.1, virt_to_phys r2.2 0x1000 r2.1,
            virt_to_phys r2.2 0x1000 HEAP_BASE)))) =
      some (HEAP_BASE, HEAP_BASE + 4096, HEAP_BASE + 4096, NotMapped, 0xD000) := by
  simp only [heap_request_page_eq_fill]
  decide

set_option maxRecDepth 1000000 in
/-- C22 fails on the code: `init_kmalloc(10)` on the machine `phys_example`
leaves the heap `heap_fresh` of ten pages, but its loop `i < pages - i` has
mapped the first five only: the page at `HEAP_BASE + 4 * 4096` is mapped (to
the frame `0x11000`), the pages at `HEAP_BASE + 5 * 4096` and
`HEAP_BASE + 9 * 4096` are not. -/
theorem init_kmalloc_maps_half :
    (∃ p1, init_kmalloc phys_example heap_zero 10 = some (p1, heap_fresh)) ∧
    heap_fresh.heap_end = HEAP_BASE + 10 * 4096 ∧
    (init_kmalloc phys_example heap_zero 10).map (fun r =>
        (virt_to_phys r.1 0x1000 (HEAP_BASE + 4 * 4096),
         virt_to_phys r.1 0x1000 (HEAP_BASE + 5 * 4096),
         virt_to_phys r.1 0x1000 (HEAP_BASE + 9 * 4096))) =
      some (0x11000, NotMapped, NotMapped) := by
  refine ⟨init_kmalloc_example, by decide, ?_⟩
  rw [init_kmalloc_eq_fill]
  decide

/-! ## The leaf entry written by `map_page` -/

/-- C23 (amended): when `map_page(dir, phys, virt, flags)` returns on a walk that
is well formed (`walk_wf`), the P1 entry of `virt` is
`(phys & ~0xFFF) | flags`, with the 64-bit `flags` taken as they are: the
address field of the entry is that of `phys | flags`.  For flags within the low
twelve bits the entry is `(phys & ~0xFFF) | (flags & 0xFFF)`. -/
theorem map_page_leaf_entry (s : phys_state) (dir phys virt flags : Nat) (s1 : phys_state)
    (hmap : map_page s dir phys virt flags = some s1)
    (hflags : flags < 2 ^ 64)
    (hwf : walk_wf s dir virt) :
    walk_p1 s1 dir virt = (phys &&& PGADDR_MASK) ||| flags ∧
    walk_p1 s1 dir virt &&& PGADDR_MASK = (phys ||| flags) &&& PGADDR_MASK ∧
    (flags < 4096 → walk_p1 s1 dir virt = (phys &&& PGADDR_MASK) ||| (flags &&& 0xFFF)) := by
  obtain ⟨hi4, hi3, hi2, hi1⟩ := indexer_lt virt
  unfold map_page at hmap
  simp only [] at hmap
  split at hmap
  · simp at hmap
  rename_i t3 sa hg1
  split at hmap
  · simp at hmap
  rename_i t2 sb hg2
  split at hmap
  · simp at hmap
  rename_i t1 sc hg3
  simp only [Option.some.injEq] at hmap
  obtain ⟨rdir, rt3, rt2, rt1, nt3, nt2, nt1, ⟨pa, ma⟩, ⟨pb, mb⟩, pc, mc, hhuge⟩ :=
    map_page_walk s dir virt flags _ _ _ t3 t2 t1 sa sb sc rfl rfl rfl hi4 hi3 hi2 hg1 hg2 hg3 hwf
  clear hwf hg1 hg2 hg3
  have hentry : walk_p1 s1 dir virt = (phys &&& PGADDR_MASK) ||| flags := by
    unfold walk_p1 walk_p2 walk_p3 walk_p4
    generalize (indexer virt).p4_idx = i4 at *
    generalize (indexer virt).p3_idx = i3 at *
    generalize (indexer virt).p2_idx = i2 at *
    generalize (indexer virt).p1_idx = i1 at *
    have e4 := pte_addr_in_frame dir i4 rdir.2.1 hi4
    have e3 := pte_addr_in_frame t3 i3 rt3.2.1 hi3
    have e2 := pte_addr_in_frame t2 i2 rt2.2.1 hi2
    have e1 := pte_addr_in_frame t1 i1 rt1.2.1 hi1
    simp only [List.mem_cons, List.mem_singleton, List.not_mem_nil, or_false, not_or] at nt2 nt1
    have a4 := rdir.1
    have a3 := rt3.1
    have a2 := rt2.1
    have a1 := rt1.1
    have hv1 : (phys &&& PGADDR_MASK) ||| flags < 2 ^ 64 :=
      Nat.or_lt_two_pow (lt_of_le_of_lt Nat.and_le_right (by unfold PGADDR_MASK; norm_num)) hflags
    have r4 : read64 s1.mem (pte_addr dir i4) = read64 sc.mem (pte_addr dir i4) := by
      rw [← hmap]
      exact read64_write64_disj _ _ _ _ (by omega)
    have r3 : read64 s1.mem (pte_addr t3 i3) = read64 sc.mem (pte_addr t3 i3) := by
      rw [← hmap]
      exact read64_write64_disj _ _ _ _ (by omega)
    have r2 : read64 s1.mem (pte_addr t2 i2) = read64 sc.mem (pte_addr t2 i2) := by
      rw [← hmap]
      exact read64_write64_disj _ _ _ _ (by omega)
    have r1 : read64 s1.mem (pte_addr t1 i1) = (phys &&& PGADDR_MASK) ||| flags := by
      rw [← hmap]
      simp only []
      rw [read64_write64_same, Nat.mod_eq_of_lt hv1]
    rw [r4, ma, r3, mb, r2, mc, r1]
  refine ⟨hentry, ?_, ?_⟩
  · rw [hentry]
    apply Nat.eq_of_testBit_eq
    intro i
    simp only [Nat.testBit_and, Nat.testBit_or]
    cases phys.testBit i <;> cases flags.testBit i <;> cases PGADDR_MASK.testBit i <;> rfl
  · intro hlt
    rw [hentry]
    have : flags &&& 0xFFF = flags := by
      have e : (0xFFF : Nat) = 2 ^ 12 - 1 := by norm_num
      rw [e, Nat.and_pow_two_sub_one_eq_mod, Nat.mod_eq_of_lt (by omega)]
    rw [this]

set_option maxRecDepth 1000000 in
/-- Witness of `map_page_leaf_entry`: mapping the page `0x5000` to the frame
`0x400000` with `PT_PRESENT | PT_RW` in the empty address space of
`phys_example`. -/
theorem map_page_leaf_entry_witness :
    ∃ s1, map_page phys_example 0x1000 0x400000 0x5000 (PT_PRESENT ||| PT_RW) = some s1 ∧
      walk_p1 s1 0x1000 0x5000 = (0x400000 &&& PGADDR_MASK) ||| (PT_PRESENT ||| PT_RW) := by
  have hsome : (map_page phys_example 0x1000 0x400000 0x5000 (PT_PRESENT ||| PT_RW)).isSome
      = true := by
    rw [map_page_eq_fill]
    decide
  obtain ⟨s1, hmap⟩ := Option.isSome_iff_exists.1 hsome
  have hwf : walk_wf phys_example 0x1000 0x5000 := by
    refine ⟨⟨by decide, by decide, by decide⟩, ⟨by decide, by decide, by decide, by decide⟩, ?_⟩
    intro h
    exact absurd h (by decide)
  exact ⟨s1, hmap, (map_page_leaf_entry phys_example 0x1000 0x400000 0x5000
    (PT_PRESENT ||| PT_RW) s1 hmap (by decide) hwf).1⟩

set_option maxRecDepth 1000000 in
/-- C23 as stated fails for a flag above bit 11: `map_page` of the page `0x5000`
of `phys_mapped` to the frame `0x600000` with `PT_PRESENT | PT_PAT` writes the P1
entry `0x601001`, whose address field is `0x601000`; the entry
`(phys & ~0xFFF) | (flags & 0xFFF)` is `0x600001`. -/
theorem map_page_flag_in_address_field :
    (map_page phys_mapped 0x1000 0x600000 0x5000 (PT_PRESENT ||| PT_PAT)).map
        (fun s1 => (walk_p1 s1 0x1000 0x5000, walk_p1 s1 0x1000 0x5000 &&& PGADDR_MASK)) =
      some (0x601001, 0x601000) ∧
    (0x600000 &&& PGADDR_MASK) ||| ((PT_PRESENT ||| PT_PAT) &&& 0xFFF) = 0x600001 := by
  refine ⟨?_, by decide⟩
  rw [map_page_eq_fill]
  decide

/-! ## Allocating, freeing and allocating again -/

theorem phys_alloc_page_frame_eq (s : phys_state) (z : Bool) :
    (phys_alloc_page s z).map (fun r => r.1) = (phys_alloc_page s true).map (fun r => r.1) := by
  unfold phys_alloc_page
  simp only []
  split
  · rfl
  · split
    · rfl
    · cases z <;> rfl

/-- A frame returned by `phys_alloc_page` is the frame of a bit that was clear. -/
theorem phys_alloc_page_ret_clear (s : phys_state) (z : Bool) (pg : Nat) (s1 : phys_state)
    (hrange : s.bitmap + s.bitmap_size < 2 ^ 64) (hsize : s.bitmap_size * 8 * 4096 ≤ 2 ^ 64)
    (h : phys_alloc_page s z = some (pg, s1)) :
    ∃ k, k < 8 * s.bitmap_size ∧ bitmap_bit s k = false ∧ pg = 4096 * k := by
  have h1 := phys_alloc_page_frame_eq s z
  rw [h] at h1
  simp only [Option.map_some'] at h1
  cases ht : phys_alloc_page s true with
  | none => rw [ht] at h1; simp at h1
  | some r =>
    obtain ⟨pg2, s2⟩ := r
    rw [ht] at h1
    simp only [Option.map_some', Option.some.injEq] at h1
    obtain ⟨k, hk, hc, hp, _⟩ := phys_alloc_page_inv s pg2 s2 hrange hsize ht
    exact ⟨k, hk, hc, by rw [h1, hp]⟩

/-- C28 (amended): on a bitmap inside the address space whose lowest clear bit is
`k`, when the frame `k` is not zeroed or does not overlap the bytes of the
bitmap, `phys_alloc_page` returns `P = 4096 * k`; after `phys_free_page(P)` the
next `phys_alloc_page` returns `P` again, and without the release the next
`phys_alloc_page`, when it succeeds, returns a frame other than `P` (in both
cases whatever the `zeroed` argument of that next call is). -/
theorem phys_alloc_free_alloc (s : phys_state) (zeroed : Bool) (k : Nat)
    (hrange : s.bitmap + s.bitmap_size < 2 ^ 64)
    (hsize : s.bitmap_size * 8 * 4096 ≤ 2 ^ 64)
    (hk : k < 8 * s.bitmap_size)
    (hclear : bitmap_bit s k = false)
    (hlow : ∀ j, j < k → bitmap_bit s j = true)
    (hsep : zeroed = true →
      4096 * k + 4096 ≤ s.bitmap ∨ s.bitmap + s.bitmap_size ≤ 4096 * k) :
    ∃ s1, phys_alloc_page s zeroed = some (4096 * k, s1) ∧
      (∀ z2, ∃ s3, phys_alloc_page (phys_free_page s1 (4096 * k)) z2 = some (4096 * k, s3)) ∧
      (∀ z2 q s3, phys_alloc_page s1 z2 = some (q, s3) → q ≠ 4096 * k) := by
  obtain ⟨s1, h1, hb, hs, hbits⟩ :=
    phys_alloc_page_bits s zeroed k hrange hsize hk hclear hlow hsep
  refine ⟨s1, h1, ?_, ?_⟩
  · intro z2
    have hdiv : 4096 * k / PAGE_SIZE = k := by unfold PAGE_SIZE; omega
    have hfb : (phys_free_page s1 (4096 * k)).bitmap = s.bitmap := by
      unfold phys_free_page clear_page; exact hb
    have hfs : (phys_free_page s1 (4096 * k)).bitmap_size = s.bitmap_size := by
      unfold phys_free_page clear_page; exact hs
    have hfbits : ∀ j, bitmap_bit (phys_free_page s1 (4096 * k)) j =
        (bitmap_bit s1 j && !decide (j = k)) := by
      intro j
      unfold phys_free_page
      rw [hdiv]
      exact bitmap_bit_clear_page s1 k j (by rw [hb]; omega)
    exact ⟨_, phys_alloc_page_eq (phys_free_page s1 (4096 * k)) z2 k
      (by rw [hfb, hfs]; exact hrange) (by rw [hfs]; exact hsize) (by rw [hfs]; exact hk)
      (by rw [hfbits]; simp)
      (by
        intro j hj
        rw [hfbits, hbits j (by omega), hlow j hj]
        have : j ≠ k := by omega
        simp [this])⟩
  · intro z2 q s3 h2
    obtain ⟨k2, hk2, hc2, hq⟩ := phys_alloc_page_ret_clear s1 z2 q s3
      (by rw [hb, hs]; exact hrange) (by rw [hs]; exact hsize) h2
    rw [hs] at hk2
    rw [hbits k2 hk2] at hc2
    have hne : k2 ≠ k := by
      intro e
      rw [e] at hc2
      simp at hc2
    omega

/-- Witness of `phys_alloc_free_alloc`: frame 9 of `phys_example`. -/
theorem phys_alloc_free_alloc_witness :
    ∃ s1, phys_alloc_page phys_example true = some (4096 * 9, s1) ∧
      (∀ z2, ∃ s3, phys_alloc_page (phys_free_page s1 (4096 * 9)) z2 = some (4096 * 9, s3)) ∧
      (∀ z2 q s3, phys_alloc_page s1 z2 = some (q, s3) → q ≠ 4096 * 9) :=
  phys_alloc_free_alloc phys_example true 9 (by decide) (by decide) (by decide)
    (by decide) (by decide) (fun _ => Or.inr (by decide))

set_option maxRecDepth 1000000 in
/-- C28 as stated fails when the frame handed out holds the bitmap: in
`phys_bitmap_in_free_frame` the first call returns `P = 0x200000` and zeroes the
bitmap with it; after `phys_free_page(P)` the next call returns frame 0, not
`P`. -/
theorem phys_alloc_free_alloc_other_frame :
    (phys_alloc_page phys_bitmap_in_free_frame true).bind (fun r =>
        (phys_alloc_page (phys_free_page r.2 r.1) true).map (fun r2 => (r.1, r2.1))) =
      some (0x200000, 0) := by
  simp only [phys_alloc_page_eq_fill]
  decide

set_option maxRecDepth 1000000 in
/-- Without a release only the next call is kept away from `P`: in
`phys_two_clear_bits` the first call returns `P = 0`, the second returns the
frame `0x200000` and zeroes the bitmap with it, and the third returns `P = 0`
again. -/
theorem phys_alloc_page_third_call_repeats :
    (phys_alloc_page phys_two_clear_bits true).bind (fun r1 =>
      (phys_alloc_page r1.2 true).bind (fun r2 =>
        (phys_alloc_page r2.2 true).map (fun r3 => (r1.1, r2.1, r3.1)))) =
      some (0, 0x200000, 0) := by
  simp only [phys_alloc_page_eq_fill]
  decide

/-! ## `strlen` and `strcmp` -/

theorem strlen_loop_spec (m : Mem) (a : Nat) (l : List Nat) (h : is_cstr m a l)
    (hl : l.length < 2 ^ 31) :
    ∀ (fuel i : Nat), i ≤ l.length → l.length - i < fuel →
      strlen_loop fuel m a i = some l.length := by
  obtain ⟨hr, hb, hz⟩ := h
  intro fuel
  induction fuel with
  | zero => intro i _ h2; omega
  | succ n ih =>
    intro i hi hf
    rw [strlen_loop]
    have hs : sext32 i = i := by unfold sext32; rw [if_pos (by omega)]
    have ha : (a + i) % 2 ^ 64 = a + i := Nat.mod_eq_of_lt (by omega)
    rw [hs, ha]
    by_cases hil : i = l.length
    · rw [hil, hz]
      simp
    · have hlt : i < l.length := by omega
      have := hb i hlt
      rw [if_pos (by rw [this.1]; exact this.2)]
      have hi1 : (i + 1) % 2 ^ 32 = i + 1 := Nat.mod_eq_of_lt (by omega)
      rw [hi1]
      exact ih (i + 1) (by omega) (by omega)

theorem strlen_spec (m : Mem) (a : Nat) (l : List Nat) (h : is_cstr m a l)
    (hl : l.length < 2 ^ 31) (fuel : Nat) (hf : l.length < fuel) :
    strlen fuel m a = some l.length := by
  unfold strlen
  rw [strlen_loop_spec m a l h hl fuel 0 (by omega) (by omega)]
  simp only [Option.map_some', Option.some.injEq]
  unfold sext32
  rw [if_pos hl]

theorem sub64_sext8_ne_zero (c1 c2 : Nat) (h1 : c1 < 256) (h2 : c2 < 256) (hne : c1 ≠ c2) :
    sub64 (sext8 c2) (sext8 c1) ≠ 0 := by
  unfold sub64 sext8
  split <;> split <;> omega

theorem strcmp_loop_spec (m : Mem) (a1 a2 : Nat) (l1 l2 : List Nat)
    (h1 : is_cstr m a1 l1) (h2 : is_cstr m a2 l2) (hlen : l1.length = l2.length)
    (hl : l1.length < 2 ^ 31) :
    ∀ (fuel i : Nat), i ≤ l1.length → l1.length - i < fuel →
      ∃ r, strcmp_loop fuel m a1 a2 l1.length i = some r ∧
        (r = 0 ↔ ∀ j, i ≤ j → j < l1.length → l1.getD j 0 = l2.getD j 0) := by
  obtain ⟨hr1, hb1, _⟩ := h1
  obtain ⟨hr2, hb2, _⟩ := h2
  intro fuel
  induction fuel with
  | zero => intro i _ h; omega
  | succ n ih =>
    intro i hi hf
    rw [strcmp_loop]
    have hs : sext32 i = i := by unfold sext32; rw [if_pos (by omega)]
    rw [hs]
    by_cases hil : i = l1.length
    · have : slt64 i l1.length = false := by
        unfold slt64; rw [hil]; simp
      rw [this]
      simp only [Bool.false_eq_true, if_false]
      exact ⟨0, rfl, by simp; intro j h1 h2; omega⟩
    · have hlt : i < l1.length := by omega
      have : slt64 i l1.length = true := by
        unfold slt64
        simp only [decide_eq_true_eq]
        omega
      rw [this]
      simp only [if_true]
      have e1 : (a1 + i) % 2 ^ 64 = a1 + i := Nat.mod_eq_of_lt (by omega)
      have e2 : (a2 + i) % 2 ^ 64 = a2 + i := Nat.mod_eq_of_lt (by omega)
      rw [e1, e2, (hb1 i hlt).1, (hb2 i (by omega)).1]
      by_cases hc : l1.getD i 0 = l2.getD i 0
      · rw [if_neg (by simpa using hc)]
        have hi1 : (i + 1) % 2 ^ 32 = i + 1 := Nat.mod_eq_of_lt (by omega)
        rw [hi1]
        obtain ⟨r, hr, hiff⟩ := ih (i + 1) (by omega) (by omega)
        refine ⟨r, hr, hiff.trans ⟨?_, ?_⟩⟩
        · intro h j hj1 hj2
          by_cases hji : j = i
          · rw [hji]; exact hc
          · exact h j (by omega) hj2
        · intro h j hj1 hj2
          exact h j (by omega) hj2
      · rw [if_pos hc]
        refine ⟨_, rfl, ?_⟩
        have hb1' : l1.getD i 0 < 256 := by rw [← (hb1 i hlt).1]; exact read8_lt _ _
        have hb2' : l2.getD i 0 < 256 := by rw [← (hb2 i (by omega)).1]; exact read8_lt _ _
        constructor
        · intro h0
          exact absurd h0 (sub64_sext8_ne_zero _ _ hb1' hb2' hc)
        · intro h
          exact absurd (h i (le_refl _) hlt) hc

theorem list_eq_iff_getD (l1 l2 : List Nat) (hlen : l1.length = l2.length) :
    l1 = l2 ↔ ∀ j, 0 ≤ j → j < l1.length → l1.getD j 0 = l2.getD j 0 := by
  constructor
  · intro h j _ _
    rw [h]
  · intro h
    apply List.ext_getElem hlen
    intro j hj1 hj2
    have := h j (Nat.zero_le _) hj1
    rwa [List.getD_eq_getElem _ _ hj1, List.getD_eq_getElem _ _ hj2] at this

/-- C29: for NUL-terminated strings `l1` at `s1` and `l2` at `s2`, both shorter
than `2 ^ 31` bytes, `strcmp(s1, s2)` returns (once the loops are given more
rounds than the strings have bytes), the value returned is 0 if and only if the
two strings have the same length and the same bytes, and for strings of
different length it is `strlen(s2) - strlen(s1)` as a signed number. -/
theorem strcmp_zero_iff_equal (m : Mem) (s1 s2 : Nat) (l1 l2 : List Nat) (fuel : Nat)
    (h1 : is_cstr m s1 l1) (h2 : is_cstr m s2 l2)
    (hl1 : l1.length < 2 ^ 31) (hl2 : l2.length < 2 ^ 31)
    (hf1 : l1.length < fuel) (hf2 : l2.length < fuel) :
    ∃ r, strcmp fuel m s1 s2 = some r ∧
      (r = 0 ↔ l1 = l2) ∧
      (l1.length ≠ l2.length → i64_val r = (l2.length : Int) - (l1.length : Int)) := by
  unfold strcmp
  rw [strlen_spec m s1 l1 h1 hl1 fuel hf1, strlen_spec m s2 l2 h2 hl2 fuel hf2]
  simp only []
  by_cases hlen : l1.length = l2.length
  · have hd : sub64 l2.length l1.length = 0 := by unfold sub64; omega
    rw [hd]
    simp only [ne_eq, not_true_eq_false, if_false]
    obtain ⟨r, hr, hiff⟩ := strcmp_loop_spec m s1 s2 l1 l2 h1 h2 hlen hl1 fuel 0
      (by omega) (by omega)
    exact ⟨r, hr, hiff.trans (list_eq_iff_getD l1 l2 hlen).symm, fun h => absurd hlen h⟩
  · have hd : sub64 l2.length l1.length ≠ 0 := by unfold sub64; omega
    rw [if_pos hd]
    refine ⟨_, rfl, ⟨fun h => absurd h hd, fun h => absurd (by rw [h]) hlen⟩, ?_⟩
    intro _
    unfold i64_val sub64
    split <;> omega

/-- Witness of `strcmp_zero_iff_equal`: the strings `"ab"` and `"abc"` of
`mem_strings`. -/
theorem strcmp_zero_iff_equal_witness :
    ∃ r, strcmp 4 mem_strings 0x100 0x300 = some r ∧
      (r = 0 ↔ [97, 98] = [97, 98, 99]) ∧
      (([97, 98] : List Nat).length ≠ ([97, 98, 99] : List Nat).length →
        i64_val r = (([97, 98, 99] : List Nat).length : Int) - (([97, 98] : List Nat).length : Int)) :=
  strcmp_zero_iff_equal mem_strings 0x100 0x300 [97, 98] [97, 98, 99] 4
    (by unfold is_cstr; decide) (by unfold is_cstr; decide) (by decide) (by decide)
    (by decide) (by decide)

/-! ## The ring of tasks -/

theorem getD_mem_of_lt (l : List Nat) (i : Nat) (h : i < l.length) : l.getD i 0 ∈ l := by
  rw [List.getD_eq_getElem _ _ h]
  exact List.getElem_mem _

theorem getD_inj_of_nodup (l : List Nat) (hnd : l.Nodup) (i j : Nat) (hi : i < l.length)
    (hj : j < l.length) (h : l.getD i 0 = l.getD j 0) : i = j := by
  rw [List.getD_eq_getElem _ _ hi, List.getD_eq_getElem _ _ hj] at h
  exact (List.Nodup.getElem_inj_iff hnd).1 h

/-- On a ring the tail search of `create_task`, started at the node `i`, ends at
the last node of the ring, within as many rounds as there are nodes left. -/
theorem find_last_ring (tasks : Nat → task_t) (l : List Nat) (hnd : l.Nodup)
    (hring : ring_links tasks l) :
    ∀ (fuel i : Nat), i < l.length →
      (l.length - i ≤ fuel →
        find_last fuel tasks (l.getD 0 0) (l.getD i 0) = some (l.getD (l.length - 1) 0)) ∧
      (∀ last, find_last fuel tasks (l.getD 0 0) (l.getD i 0) = some last →
        last = l.getD (l.length - 1) 0) := by
  intro fuel
  induction fuel with
  | zero =>
    intro i hi
    exact ⟨fun h => by omega, fun last h => by simp [find_last] at h⟩
  | succ n ih =>
    intro i hi
    rw [find_last, hring i hi]
    by_cases hil : i + 1 = l.length
    · have e : (i + 1) % l.length = 0 := by rw [hil]; exact Nat.mod_self _
      rw [e]
      simp only [ne_eq, not_true_eq_false, if_false, Option.some.injEq]
      have : i = l.length - 1 := by omega
      rw [this]
      exact ⟨fun _ => rfl, fun last h => h.symm⟩
    · have hlt : i + 1 < l.length := by omega
      have e : (i + 1) % l.length = i + 1 := Nat.mod_eq_of_lt hlt
      rw [e]
      have hne : l.getD (i + 1) 0 ≠ l.getD 0 0 := by
        intro h
        have := getD_inj_of_nodup l hnd (i + 1) 0 hlt (by omega) h
        omega
      rw [if_pos hne]
      obtain ⟨h1, h2⟩ := ih (i + 1) hlt
      exact ⟨fun h => h1 (by omega), h2⟩

theorem ring_links_congr (tasks tasks2 : Nat → task_t) (l : List Nat)
    (h : ∀ p ∈ l, (tasks2 p).next = (tasks p).next) (hr : ring_links tasks l) :
    ring_links tasks2 l := by
  intro i hi
  rw [h _ (getD_mem_of_lt l i hi)]
  exact hr i hi

theorem create_task_unfold (fuel : Nat) (s : sched_state) (t e st sz : Nat) (ht : t ≠ 0) :
    create_task fuel s t e st sz =
      if s.task_queue = 0 then
        some (t, { s with
          tasks := set_task (set_task s.tasks t (new_task s.next_pid e st sz)) t
            { new_task s.next_pid e st sz with next := t },
          next_pid := (s.next_pid + 1) % 2 ^ 32, task_queue := t })
      else
        match find_last fuel (set_task s.tasks t (new_task s.next_pid e st sz))
            s.task_queue s.task_queue with
        | none => none
        | some last =>
          some (t, { s with
            tasks := set_task (set_task (set_task s.tasks t (new_task s.next_pid e st sz)) t
                { new_task s.next_pid e st sz with next := s.task_queue }) last
              { set_task (set_task s.tasks t (new_task s.next_pid e st sz)) t
                  { new_task s.next_pid e st sz with next := s.task_queue } last with
                next := t },
            next_pid := (s.next_pid + 1) % 2 ^ 32 }) := by
  unfold create_task
  rw [if_neg ht]
  simp only [set_task_same]
  rfl

/-- What `create_task` does on a ring `l` headed by `task_queue` (or on the empty
queue, `l = []`) when it is given a fresh non-null block `t`: it returns `t`
within `l.length` rounds of the tail search; whatever the fuel, the state it
leaves is the same: the new block holds `new_task` linked to the head, and the
old tail is linked to `t`. -/
theorem create_task_spec (s : sched_state) (l : List Nat) (t e st sz : Nat)
    (hq : s.task_queue = l.getD 0 0) (hnd : l.Nodup) (h0 : 0 ∉ l)
    (hring : ring_links s.tasks l) (ht : t ≠ 0) (hfresh : t ∉ l) :
    (∃ s1, create_task l.length s t e st sz = some (t, s1)) ∧
    ∀ fuel r s1, create_task fuel s t e st sz = some (r, s1) →
      r = t ∧
      s1.task_queue = (if l = [] then t else s.task_queue) ∧
      s1.current_task = s.current_task ∧ s1.scheduler_ready = s.scheduler_ready ∧
      s1.next_pid = (s.next_pid + 1) % 2 ^ 32 ∧
      s1.tasks t = { new_task s.next_pid e st sz with
        next := if l = [] then t else s.task_queue } ∧
      (∀ p, p ≠ t → (l ≠ [] → p ≠ l.getD (l.length - 1) 0) → s1.tasks p = s.tasks p) ∧
      (l ≠ [] → s1.tasks (l.getD (l.length - 1) 0) =
        { s.tasks (l.getD (l.length - 1) 0) with next := t }) := by
  cases l with
  | nil =>
    have hq0 : s.task_queue = 0 := by simpa using hq
    constructor
    · rw [create_task_unfold _ _ _ _ _ _ ht, if_pos hq0]
      exact ⟨_, rfl⟩
    · intro fuel r s1 h
      rw [create_task_unfold _ _ _ _ _ _ ht, if_pos hq0] at h
      simp only [Option.some.injEq, Prod.mk.injEq] at h
      obtain ⟨h1, h2⟩ := h
      subst h2
      refine ⟨h1.symm, by simp, rfl, rfl, rfl, ?_, ?_, fun h => absurd rfl h⟩
      · simp [set_task]
      · intro p hp _
        simp [set_task, hp]
  | cons a r0 =>
    have hqa : s.task_queue = a := by simpa using hq
    have ha0 : a ≠ 0 := by
      intro h; rw [h] at h0; exact h0 (List.mem_cons_self _ _)
    have hring1 : ring_links (set_task s.tasks t (new_task s.next_pid e st sz)) (a :: r0) := by
      apply ring_links_congr s.tasks _ _ _ hring
      intro p hp
      have : p ≠ t := fun h => hfresh (h ▸ hp)
      rw [set_task_ne _ _ _ _ this]
    have hfl := fun fuel => find_last_ring _ (a :: r0) hnd hring1 fuel 0 (by simp)
    simp only [List.getD_cons_zero] at hfl
    have hlast_mem : (a :: r0).getD ((a :: r0).length - 1) 0 ∈ a :: r0 :=
      getD_mem_of_lt _ _ (by simp)
    have htl : (a :: r0).getD ((a :: r0).length - 1) 0 ≠ t := fun h => hfresh (h ▸ hlast_mem)
    generalize (a :: r0).getD ((a :: r0).length - 1) 0 = last at hfl htl
    constructor
    · rw [create_task_unfold _ _ _ _ _ _ ht, hqa, if_neg ha0, (hfl _).1 (by omega)]
      exact ⟨_, rfl⟩
    · intro fuel r s1 h
      rw [create_task_unfold _ _ _ _ _ _ ht, hqa, if_neg ha0] at h
      cases hf : find_last fuel (set_task s.tasks t (new_task s.next_pid e st sz)) a a with
      | none => rw [hf] at h; simp at h
      | some x =>
        rw [hf] at h
        have hx := (hfl fuel).2 x hf
        subst hx
        simp only [Option.some.injEq, Prod.mk.injEq] at h
        obtain ⟨h1, h2⟩ := h
        subst h2
        refine ⟨h1.symm, by simp [hqa], rfl, rfl, rfl, ?_, ?_, ?_⟩
        · simp [set_task, htl.symm, hqa]
        · intro p hp hpl
          simp [set_task, hp, hpl (by simp)]
        · intro _
          simp [set_task, htl]

theorem ring_links_append (tasks tasks2 : Nat → task_t) (l : List Nat) (t : Nat)
    (hne : l ≠ []) (hnd : l.Nodup) (hfresh : t ∉ l) (hring : ring_links tasks l)
    (ht : (tasks2 t).next = l.getD 0 0)
    (hlast : (tasks2 (l.getD (l.length - 1) 0)).next = t)
    (hother : ∀ p, p ≠ t → p ≠ l.getD (l.length - 1) 0 → tasks2 p = tasks p) :
    ring_links tasks2 (l ++ [t]) := by
  have hpos : 0 < l.length := List.length_pos.2 hne
  intro i hi
  rw [List.length_append, List.length_singleton] at hi ⊢
  by_cases h1 : i + 1 < l.length
  · have e : (i + 1) % (l.length + 1) = i + 1 := Nat.mod_eq_of_lt (by omega)
    rw [e, List.getD_append _ _ _ _ (by omega), List.getD_append _ _ _ _ h1]
    have hm := getD_mem_of_lt l i (by omega)
    have hnt : l.getD i 0 ≠ t := fun h => hfresh (h ▸ hm)
    have hnl : l.getD i 0 ≠ l.getD (l.length - 1) 0 := by
      intro h
      have := getD_inj_of_nodup l hnd i (l.length - 1) (by omega) (by omega) h
      omega
    rw [hother _ hnt hnl, hring i (by omega), Nat.mod_eq_of_lt h1]
  · by_cases h2 : i + 1 = l.length
    · have e : (i + 1) % (l.length + 1) = l.length := by
        rw [h2]; exact Nat.mod_eq_of_lt (by omega)
      rw [e, List.getD_append _ _ _ _ (by omega), List.getD_append_right _ _ _ _ (le_refl _)]
      have : i = l.length - 1 := by omega
      rw [this, hlast]
      simp
    · have hil : i = l.length := by omega
      have e : (i + 1) % (l.length + 1) = 0 := by rw [hil]; exact Nat.mod_self _
      rw [e, hil, List.getD_append_right _ _ _ _ (le_refl _), List.getD_append _ _ _ _ hpos]
      simpa using ht

/-- The invariant of `tasks_created`: the queue is headed by the kernel task, the
kernel task and the created tasks are distinct and linked into a ring in the
order of their creation, and the pids count the creations. -/
theorem tasks_created_inv (k : Nat) (s : sched_state) (ts : List Nat)
    (h : tasks_created k s ts) :
    s.task_queue = k ∧ (k :: ts).Nodup ∧ 0 ∉ k :: ts ∧ ring_links s.tasks (k :: ts) ∧
    s.next_pid = (ts.length + 1) % 2 ^ 32 ∧ (s.tasks k).pid = 0 ∧
    ∀ i, i < ts.length → (s.tasks (ts.getD i 0)).pid = (i + 1) % 2 ^ 32 := by
  induction h with
  | init s0 hk hpid =>
    have hk0 : k ≠ 0 := by omega
    have hk1 : ¬ k < 0x1000 := by omega
    unfold init_kernel_task
    rw [if_neg hk0, if_neg hk1]
    refine ⟨rfl, by simp, by simp; omega, ?_, by simpa using hpid, by simp [set_task], ?_⟩
    · intro i hi
      have : i = 0 := by simpa using hi
      subst this
      simp [set_task]
    · intro i hi
      simp at hi
  | create s s1 ts fuel t e st sz h hnull hfresh hc ih =>
    obtain ⟨hq, hnd, h0, hring, hpid, hpk, hpids⟩ := ih
    obtain ⟨_, hspec⟩ := create_task_spec s (k :: ts) t e st sz (by simpa using hq) hnd h0
      hring hnull hfresh
    obtain ⟨_, hq1, _, _, hnp, hT, hother, hlast⟩ := hspec fuel t s1 hc
    have hlast := hlast (by simp)
    simp only [List.cons_ne_nil, not_false_eq_true, if_false, reduceCtorEq] at hq1 hT
    have hpidother : ∀ p, p ≠ t → (s1.tasks p).pid = (s.tasks p).pid := by
      intro p hp
      by_cases hpl : p = (k :: ts).getD ((k :: ts).length - 1) 0
      · rw [hpl, hlast]
      · rw [hother p hp (fun _ => hpl)]
    have hkt : k ≠ t := fun h => hfresh (h ▸ List.mem_cons_self _ _)
    refine ⟨by rw [hq1, hq], ?_, ?_, ?_, ?_, ?_, ?_⟩
    · rw [← List.cons_append]
      apply List.Nodup.append hnd (List.nodup_singleton t)
      intro x hx hx2
      rw [List.mem_singleton] at hx2
      exact hfresh (hx2 ▸ hx)
    · rw [← List.cons_append, List.mem_append]
      intro hmem
      rcases hmem with hmem | hmem
      · exact h0 hmem
      · rw [List.mem_singleton] at hmem
        exact hnull hmem.symm
    · rw [← List.cons_append]
      apply ring_links_append s.tasks s1.tasks (k :: ts) t (by simp) hnd hfresh hring
      · rw [hT]; simpa using hq
      · rw [hlast]
      · exact fun p h1 h2 => hother p h1 (fun _ => h2)
    · rw [hnp, hpid, List.length_append, List.length_singleton]
      omega
    · rw [hpidother k hkt, hpk]
    · intro i hi
      rw [List.length_append, List.length_singleton] at hi
      by_cases hil : i < ts.length
      · rw [List.getD_append _ _ _ _ hil]
        have hm := getD_mem_of_lt ts i hil
        have : ts.getD i 0 ≠ t := fun h => hfresh (List.mem_cons_of_mem _ (h ▸ hm))
        rw [hpidother _ this, hpids i hil]
      · have : i = ts.length := by omega
        rw [this, List.getD_append_right _ _ _ _ (le_refl _)]
        simp only [Nat.sub_self, List.getD_cons_zero]
        rw [hT]
        simp only [new_task]
        exact hpid

theorem follow_ring (tasks : Nat → task_t) (l : List Nat) (hring : ring_links tasks l) :
    ∀ (d i : Nat), i + d + 1 = l.length →
      follow tasks (l.getD i 0) (d + 2) = l.drop i ++ [l.getD 0 0] := by
  intro d
  induction d with
  | zero =>
    intro i hi
    have hlt : i < l.length := by omega
    have e : (i + 1) % l.length = 0 := by
      rw [show i + 1 = l.length by omega]; exact Nat.mod_self _
    simp only [follow]
    rw [hring i hlt, e, List.drop_eq_getElem_cons hlt, List.getD_eq_getElem _ _ hlt,
      List.drop_of_length_le (by omega)]
    rfl
  | succ n ih =>
    intro i hi
    have hlt : i < l.length := by omega
    have e : (i + 1) % l.length = i + 1 := Nat.mod_eq_of_lt (by omega)
    rw [follow, hring i hlt, e, ih (i + 1) (by omega), List.drop_eq_getElem_cons hlt,
      List.getD_eq_getElem _ _ hlt]
    rfl

/-- C25: after `init_kernel_task(k)` and `n` successful `create_task` calls that
returned `t1, ..., tn`, following `next` from `task_queue` visits
`k, t1, ..., tn` in that order and comes back to `k`; these `n + 1` nodes are
distinct, so the ring is cyclic and every new task has been linked as the last
node before the head.  The tail search of a further `create_task` ends within
`n + 1` rounds, and the call returns the block it was given. -/
theorem ring_after_creates (k : Nat) (s : sched_state) (ts : List Nat)
    (h : tasks_created k s ts) :
    s.task_queue = k ∧ (k :: ts).Nodup ∧
    follow s.tasks s.task_queue (ts.length + 2) = k :: ts ++ [k] ∧
    ring_links s.tasks (k :: ts) ∧
    ∀ t e st sz, t ≠ 0 → t ∉ k :: ts →
      ∃ s1, create_task (ts.length + 1) s t e st sz = some (t, s1) ∧
        tasks_created k s1 (ts ++ [t]) := by
  obtain ⟨hq, hnd, h0, hring, _, _, _⟩ := tasks_created_inv k s ts h
  refine ⟨hq, hnd, ?_, hring, ?_⟩
  · have := follow_ring s.tasks (k :: ts) hring ts.length 0 (by simp)
    simpa [hq] using this
  · intro t e st sz ht hfresh
    obtain ⟨⟨s1, hc⟩, _⟩ := create_task_spec s (k :: ts) t e st sz (by simpa using hq) hnd h0
      hring ht hfresh
    exact ⟨s1, hc, tasks_created.create s s1 ts _ t e st sz h ht hfresh hc⟩

/-- Witness of `ring_after_creates`: the kernel task at `0x1000` and one task
created at `0x2000` from the boot state. -/
theorem ring_after_creates_witness :
    ∃ s, tasks_created 0x1000 s ([] ++ [0x2000]) ∧
      s.task_queue = 0x1000 ∧ (0x1000 :: ([] ++ [0x2000])).Nodup ∧
      follow s.tasks s.task_queue (([] ++ [0x2000] : List Nat).length + 2) =
        0x1000 :: ([] ++ [0x2000]) ++ [0x1000] := by
  have h0 : tasks_created 0x1000 (init_kernel_task sched_boot 0x1000) [] :=
    tasks_created.init sched_boot (by decide) rfl
  obtain ⟨s1, _, h1⟩ := (ring_after_creates 0x1000 _ [] h0).2.2.2.2 0x2000 0x400000 0x8000 4096
    (by decide) (by decide)
  obtain ⟨a, b, c, _⟩ := ring_after_creates 0x1000 s1 _ h1
  exact ⟨s1, h1, a, b, c⟩

/-- C24: for a non-null block `task` that is none of the tasks of the ring `l`
(headed by `task_queue`; `l = []` for the empty queue), `create_task(entry,
stack, size)` returns `task` within `l.length` rounds of its tail search.  The
task control block is `new_task`: `pid` is the previous `next_pid`, the state is
`TASK_READY`, `rip = entry`, `rsp = stack + size - 16`, `rflags = 0x202`,
`cs = 0x08`, `ss = ds = es = fs = gs = 0x10`, `rax = 0xDEADBEEF`, the other
registers are 0, `stack_base = stack`, `stack_size = size`, and it is linked to
the head.  `next_pid` is incremented and the pids of the other tasks are kept, so
that after `init_kernel_task(k)` the kernel task has pid 0 and the `i`-th created
task has pid `i` (modulo `2 ^ 32`). -/
theorem create_task_tcb (s : sched_state) (l : List Nat) (task entry stack size : Nat)
    (hq : s.task_queue = l.getD 0 0) (hnd : l.Nodup) (h0 : 0 ∉ l)
    (hring : ring_links s.tasks l) (ht : task ≠ 0) (hfresh : task ∉ l) :
    (∃ s1, create_task l.length s task entry stack size = some (task, s1) ∧
      s1.tasks task = { new_task s.next_pid entry stack size with
        next := if l = [] then task else s.task_queue } ∧
      (s1.tasks task).pid = s.next_pid ∧
      (s1.tasks task).state = task_state_t.TASK_READY ∧
      (s1.tasks task).context.rip = entry ∧
      (s1.tasks task).context.rsp = sub64 ((stack + size) % 2 ^ 64) 16 ∧
      (16 ≤ stack + size → stack + size < 2 ^ 64 →
        (s1.tasks task).context.rsp = stack + size - 16) ∧
      (s1.tasks task).context.rax = 0xDEADBEEF ∧
      s1.next_pid = (s.next_pid + 1) % 2 ^ 32 ∧
      ∀ p, p ≠ task → (s1.tasks p).pid = (s.tasks p).pid) ∧
    ∀ k s2 ts, tasks_created k s2 ts →
      (s2.tasks k).pid = 0 ∧
      ∀ i, i < ts.length → (s2.tasks (ts.getD i 0)).pid = (i + 1) % 2 ^ 32 := by
  constructor
  · obtain ⟨⟨s1, hc⟩, hspec⟩ := create_task_spec s l task entry stack size hq hnd h0 hring ht
      hfresh
    obtain ⟨_, _, _, _, hnp, hT, hother, hlast⟩ := hspec _ _ _ hc
    refine ⟨s1, hc, hT, by rw [hT]; rfl, by rw [hT]; rfl, by rw [hT]; rfl, by rw [hT]; rfl, ?_,
      by rw [hT]; rfl, hnp, ?_⟩
    · intro h1 h2
      rw [hT]
      simp only [new_task]
      rw [Nat.mod_eq_of_lt h2, sub64_eq _ _ h2 h1]
    · intro p hp
      by_cases hl : l = []
      · rw [hother p hp (fun h => absurd hl h)]
      · by_cases hpl : p = l.getD (l.length - 1) 0
        · rw [hpl, hlast hl]
        · rw [hother p hp (fun _ => hpl)]
  · intro k s2 ts h
    obtain ⟨_, _, _, _, _, hpk, hpids⟩ := tasks_created_inv k s2 ts h
    exact ⟨hpk, hpids⟩

/-- Witness of `create_task_tcb`: the first task created after the kernel task at
`0x1000` gets pid 1 and the stack pointer `0x8000 + 4096 - 16`. -/
theorem create_task_tcb_witness :
    ∃ s1, create_task 1 (init_kernel_task sched_boot 0x1000) 0x2000 0x400000 0x8000 4096 =
        some (0x2000, s1) ∧
      (s1.tasks 0x2000).pid = 1 ∧ (s1.tasks 0x2000).state = task_state_t.TASK_READY ∧
      (s1.tasks 0x2000).context.rip = 0x400000 ∧ (s1.tasks 0x2000).context.rsp = 0x8FF0 := by
  obtain ⟨⟨s1, hc, _, hpid, hst, hrip, _, hrsp, _⟩, _⟩ :=
    create_task_tcb (init_kernel_task sched_boot 0x1000) [0x1000] 0x2000 0x400000 0x8000 4096
      (by decide) (by decide) (by decide) (by unfold ring_links; decide) (by decide) (by decide)
  exact ⟨s1, hc, hpid, hst, hrip, hrsp (by decide) (by decide)⟩

/-! ## Round robin -/

/-- One switching call of `schedule_from_interrupt`: the globals and the states
it leaves; the `next` links are kept. -/
theorem schedule_from_interrupt_step (s : sched_state) (ctx : interrupt_context)
    (hready : s.scheduler_ready = true) (hcur : s.current_task ≠ 0) (hq : s.task_queue ≠ 0)
    (hnext : (s.tasks s.current_task).next ≠ 0)
    (hne : (s.tasks s.current_task).next ≠ s.current_task)
    (hst : (s.tasks (s.tasks s.current_task).next).state = task_state_t.TASK_READY) :
    (schedule_from_interrupt s ctx).1.scheduler_ready = true ∧
    (schedule_from_interrupt s ctx).1.task_queue = s.task_queue ∧
    (schedule_from_interrupt s ctx).1.current_task = (s.tasks s.current_task).next ∧
    (∀ p, ((schedule_from_interrupt s ctx).1.tasks p).next = (s.tasks p).next) ∧
    (∀ p, ((schedule_from_interrupt s ctx).1.tasks p).state =
      if p = (s.tasks s.current_task).next then task_state_t.TASK_RUNNING
      else if p = s.current_task then task_state_t.TASK_READY else (s.tasks p).state) := by
  have hne2 : s.current_task ≠ (s.tasks s.current_task).next := fun h => hne h.symm
  have hstep : schedule_from_interrupt s ctx =
      (let cur := s.current_task
       let next_task := (s.tasks s.current_task).next
       let tasks1 := set_task s.tasks cur
        { s.tasks cur with context := save_interrupt_context ctx (s.tasks cur).context }
       let tasks2 := set_task tasks1 cur { tasks1 cur with state := task_state_t.TASK_READY }
       let tasks3 := set_task tasks2 next_task
        { tasks2 next_task with state := task_state_t.TASK_RUNNING }
       let tasks4 :=
        if (tasks3 next_task).context.rax = 0xDEADBEEF then
          set_task tasks3 next_task
            { tasks3 next_task with context := { (tasks3 next_task).context with rax := 0 } }
        else tasks3
       ({ s with tasks := tasks4, current_task := next_task },
        restore_interrupt_context (tasks4 next_task).context ctx)) := by
    simp [schedule_from_interrupt, hready, hcur, hq, hnext, hne, hst]
  rw [hstep]
  refine ⟨hready, rfl, rfl, ?_, ?_⟩
  · intro p
    by_cases hm : (s.tasks (s.tasks s.current_task).next).context.rax = 0xDEADBEEF
    · by_cases h1 : p = (s.tasks s.current_task).next
      · simp [set_task, hne, hne2, hm, h1]
      · by_cases h2 : p = s.current_task
        · simp [set_task, hne, hne2, hm, h2]
        · simp [set_task, hne, hne2, hm, h1, h2]
    · by_cases h1 : p = (s.tasks s.current_task).next
      · simp [set_task, hne, hne2, hm, h1]
      · by_cases h2 : p = s.current_task
        · simp [set_task, hne, hne2, hm, h2]
        · simp [set_task, hne, hne2, hm, h1, h2]
  · intro p
    by_cases hm : (s.tasks (s.tasks s.current_task).next).context.rax = 0xDEADBEEF
    · by_cases h1 : p = (s.tasks s.current_task).next
      · simp [set_task, hne, hne2, hm, h1]
      · by_cases h2 : p = s.current_task
        · simp [set_task, hne, hne2, hm, h2]
        · simp [set_task, hne, hne2, hm, h1, h2]
    · by_cases h1 : p = (s.tasks s.current_task).next
      · simp [set_task, hne, hne2, hm, h1]
      · by_cases h2 : p = s.current_task
        · simp [set_task, hne, hne2, hm, h2]
        · simp [set_task, hne, hne2, hm, h1, h2]

theorem run_interrupts_ring (l : List Nat) (h0 : 0 ∉ l) (hnd : l.Nodup) (hlen : 2 ≤ l.length) :
    ∀ (frames : List interrupt_context) (s : sched_state) (i : Nat),
      s.scheduler_ready = true → s.task_queue ≠ 0 → ring_links s.tasks l → i < l.length →
      s.current_task = l.getD i 0 →
      (∀ p ∈ l, (s.tasks p).state =
        if p = s.current_task then task_state_t.TASK_RUNNING else task_state_t.TASK_READY) →
      (run_interrupts s frames).current_task = l.getD ((i + frames.length) % l.length) 0 ∧
      (∀ p ∈ l, ((run_interrupts s frames).tasks p).state =
        if p = (run_interrupts s frames).current_task then task_state_t.TASK_RUNNING
        else task_state_t.TASK_READY) ∧
      ring_links (run_interrupts s frames).tasks l := by
  intro frames
  induction frames with
  | nil =>
    intro s i _ _ hring hi hcur hstate
    simp only [run_interrupts, List.length_nil, Nat.add_zero]
    rw [Nat.mod_eq_of_lt hi]
    exact ⟨hcur, hstate, hring⟩
  | cons f fs ih =>
    intro s i hready hq hring hi hcur hstate
    have hi1 : (i + 1) % l.length < l.length := Nat.mod_lt _ (by omega)
    have hcm : l.getD i 0 ∈ l := getD_mem_of_lt l i hi
    have hnm : l.getD ((i + 1) % l.length) 0 ∈ l := getD_mem_of_lt l _ hi1
    have hnx : (s.tasks s.current_task).next = l.getD ((i + 1) % l.length) 0 := by
      rw [hcur]; exact hring i hi
    have hc0 : s.current_task ≠ 0 := by
      rw [hcur]; intro h; exact h0 (h ▸ hcm)
    have hn0 : (s.tasks s.current_task).next ≠ 0 := by
      rw [hnx]; intro h; exact h0 (h ▸ hnm)
    have hnc : (s.tasks s.current_task).next ≠ s.current_task := by
      rw [hnx, hcur]
      intro h
      have := getD_inj_of_nodup l hnd _ _ hi1 hi h
      by_cases hw : i + 1 < l.length
      · rw [Nat.mod_eq_of_lt hw] at this; omega
      · have e : i + 1 = l.length := by omega
        rw [e, Nat.mod_self] at this
        omega
    have hrd : (s.tasks (s.tasks s.current_task).next).state = task_state_t.TASK_READY := by
      rw [hstate _ (hnx ▸ hnm), if_neg hnc]
    obtain ⟨s1r, s1q, s1c, s1n, s1s⟩ :=
      schedule_from_interrupt_step s f hready hc0 hq hn0 hnc hrd
    have hring1 : ring_links (schedule_from_interrupt s f).1.tasks l :=
      ring_links_congr s.tasks _ l (fun p _ => s1n p) hring
    have hstate1 : ∀ p ∈ l, ((schedule_from_interrupt s f).1.tasks p).state =
        if p = (schedule_from_interrupt s f).1.current_task then task_state_t.TASK_RUNNING
        else task_state_t.TASK_READY := by
      intro p hp
      rw [s1s p, s1c]
      by_cases h1 : p = (s.tasks s.current_task).next
      · rw [if_pos h1, if_pos h1]
      · rw [if_neg h1, if_neg h1]
        by_cases h2 : p = s.current_task
        · rw [if_pos h2]
        · rw [if_neg h2, hstate p hp, if_neg h2]
    have := ih (schedule_from_interrupt s f).1 ((i + 1) % l.length) s1r (by rw [s1q]; exact hq)
      hring1 hi1 (by rw [s1c, hnx]) hstate1
    simp only [run_interrupts, List.length_cons]
    rw [Nat.mod_add_mod, show i + 1 + fs.length = i + (fs.length + 1) by omega] at this
    exact this

/-- C27: with the scheduler started and a ring `l` of `n ≥ 2` tasks (holding the
head `task_queue`) in which the current task `l[i]` is running and every other
task is ready, after `j` calls of `schedule_from_interrupt` (one per frame) the
current task is `l[(i + j) mod n]`, it is the only running task of the ring and
all others are ready: each call moves to the ring successor, and `n` calls run
every task once in ring order and end with the starting task current and running
again. -/
theorem schedule_round_robin (s : sched_state) (l : List Nat) (frames : List interrupt_context)
    (i : Nat) (h0 : 0 ∉ l) (hnd : l.Nodup) (hlen : 2 ≤ l.length)
    (hready : s.scheduler_ready = true) (hq : s.task_queue ∈ l)
    (hring : ring_links s.tasks l) (hi : i < l.length) (hcur : s.current_task = l.getD i 0)
    (hstate : ∀ p ∈ l, (s.tasks p).state =
      if p = s.current_task then task_state_t.TASK_RUNNING else task_state_t.TASK_READY) :
    (run_interrupts s frames).current_task = l.getD ((i + frames.length) % l.length) 0 ∧
    (∀ p ∈ l, ((run_interrupts s frames).tasks p).state =
      if p = (run_interrupts s frames).current_task then task_state_t.TASK_RUNNING
      else task_state_t.TASK_READY) ∧
    (frames.length = 1 →
      (run_interrupts s frames).current_task = (s.tasks s.current_task).next) ∧
    (frames.length = l.length → (run_interrupts s frames).current_task = s.current_task) := by
  have hq0 : s.task_queue ≠ 0 := fun h => h0 (h ▸ hq)
  obtain ⟨h1, h2, _⟩ :=
    run_interrupts_ring l h0 hnd hlen frames s i hready hq0 hring hi hcur hstate
  refine ⟨h1, h2, ?_, ?_⟩
  · intro hf
    rw [h1, hf, hcur, hring i hi]
  · intro hf
    rw [h1, hf, Nat.add_mod_right, Nat.mod_eq_of_lt hi, hcur]

/-- Witness of `schedule_round_robin`: two interrupts on the ring of two tasks
`sched_ring_two` bring the task at `0x1000` back. -/
theorem schedule_round_robin_witness :
    (run_interrupts sched_ring_two [frame_example]).current_task = 0x2000 ∧
    (run_interrupts sched_ring_two [frame_example, frame_example]).current_task = 0x1000 :=
  ⟨(schedule_round_robin sched_ring_two [0x1000, 0x2000] [frame_example] 0 (by decide)
      (by decide) (by decide) (by decide) (by decide) (by unfold ring_links; decide) (by decide)
      (by decide) (by decide)).1,
   (schedule_round_robin sched_ring_two [0x1000, 0x2000] [frame_example, frame_example] 0
      (by decide) (by decide) (by decide) (by decide) (by decide) (by unfold ring_links; decide)
      (by decide) (by decide) (by decide)).1⟩

/-! ## `memset` against the byte loop -/

theorem memset_naive_eq_bytes (val : Nat) : ∀ (len : Nat) (m : Mem) (dst : Nat),
    memset_naive m dst val len = memset_bytes len m dst val := by
  intro len
  induction len with
  | zero => intro m dst; rfl
  | succ n ih =>
    intro m dst
    rw [memset_naive, memset_bytes, ih]
    have hv : val &&& 0xFF = val % 256 := by
      have := Nat.and_pow_two_sub_one_eq_mod val 8
      simpa using this
    have : write8 m dst (val &&& 0xFF) = write8 m dst val := by
      funext x
      simp only [write8, hv, Nat.mod_mod]
    rw [this]

theorem memset_bytes_add (val : Nat) : ∀ (a b : Nat) (m : Mem) (dst : Nat), dst < 2 ^ 64 →
    memset_bytes (a + b) m dst val =
      memset_bytes b (memset_bytes a m dst val) ((dst + a) % 2 ^ 64) val := by
  intro a
  induction a with
  | zero =>
    intro b m dst hd
    simp only [Nat.zero_add, memset_bytes, Nat.add_zero]
    rw [Nat.mod_eq_of_lt hd]
  | succ n ih =>
    intro b m dst hd
    rw [show n + 1 + b = (n + b) + 1 by omega, memset_bytes, memset_bytes,
      ih _ _ _ (Nat.mod_lt _ (by norm_num))]
    have e : ((dst + 1) % 2 ^ 64 + n) % 2 ^ 64 = (dst + (n + 1)) % 2 ^ 64 := by omega
    rw [e]

theorem memset_align_bytes (val : Nat) : ∀ (fuel : Nat) (m : Mem) (dst len : Nat),
    (8 - dst % 8) % 8 ≤ fuel → (8 - dst % 8) % 8 ≤ len → len < 2 ^ 64 → dst < 2 ^ 64 →
    memset_align fuel m dst val len =
      (memset_bytes ((8 - dst % 8) % 8) m dst val, (dst + (8 - dst % 8) % 8) % 2 ^ 64,
        len - (8 - dst % 8) % 8) := by
  intro fuel
  induction fuel with
  | zero =>
    intro m dst len hf _ _ hd
    have h0 : (8 - dst % 8) % 8 = 0 := by omega
    rw [h0]
    simp only [memset_align, memset_bytes, Nat.add_zero, Nat.sub_zero]
    rw [Nat.mod_eq_of_lt hd]
  | succ n ih =>
    intro m dst len hf hl hlen hd
    rw [memset_align, and_long_mask]
    by_cases hz : dst % 8 = 0
    · have h0 : (8 - dst % 8) % 8 = 0 := by omega
      rw [h0, if_neg (by omega)]
      simp only [memset_bytes, Nat.add_zero, Nat.sub_zero]
      rw [Nat.mod_eq_of_lt hd]
    · rw [if_pos hz]
      have hk : (8 - dst % 8) % 8 = (8 - ((dst + 1) % 2 ^ 64) % 8) % 8 + 1 := by omega
      have hl1 : (len + (2 ^ 64 - 1)) % 2 ^ 64 = len - 1 := by omega
      rw [hl1, ih _ _ _ (by omega) (by omega) (by omega) (Nat.mod_lt _ (by norm_num))]
      rw [hk, memset_bytes]
      refine Prod.ext rfl (Prod.ext ?_ ?_)
      · simp only []
        omega
      · simp only []
        omega

theorem memset_words_bytes (val : Nat) : ∀ (fuel : Nat) (m : Mem) (d len : Nat),
    len ≤ fuel → d % 8 = 0 → d < 2 ^ 64 →
    memset_words fuel m d ((val % 256) * 0x0101010101010101) len =
      (memset_bytes (8 * ((len - 1) / 8)) m d val, (d + 8 * ((len - 1) / 8)) % 2 ^ 64,
        len - 8 * ((len - 1) / 8)) := by
  intro fuel
  induction fuel with
  | zero =>
    intro m d len hf _ hd
    have : len = 0 := by omega
    subst this
    simp only [memset_words, Nat.zero_sub, Nat.zero_div, Nat.mul_zero, memset_bytes,
      Nat.add_zero]
    rw [Nat.mod_eq_of_lt hd]
  | succ n ih =>
    intro m d len hf hal hd
    rw [memset_words]
    by_cases hl : len > 8
    · rw [if_pos hl]
      have hd8 : d + 8 ≤ 2 ^ 64 := by omega
      have hw : write64 m d ((val % 256) * 0x0101010101010101) = memset_bytes 8 m d val := by
        rw [write64_splat _ _ _ (Nat.mod_lt _ (by norm_num)), memset_bytes_spec val 8 m d hd8]
      rw [hw, ih _ _ _ (by omega) (by omega) (Nat.mod_lt _ (by norm_num))]
      have hk : 8 * ((len - 1) / 8) = 8 + 8 * ((len - 8 - 1) / 8) := by omega
      rw [hk, memset_bytes_add val 8 _ m d hd]
      refine Prod.ext rfl (Prod.ext ?_ ?_)
      · simp only []
        omega
      · simp only []
        omega
    · rw [if_neg hl]
      have h0 : (len - 1) / 8 = 0 := by omega
      rw [h0]
      simp only [Nat.mul_zero, memset_bytes, Nat.add_zero, Nat.sub_zero]
      rw [Nat.mod_eq_of_lt hd]

/-- C39: for every destination `dst` of the 64-bit address space, aligned or
not, every `val` and every `len` (a `size_t`), the word-optimised `memset`
produces the same memory as the naive byte loop `memset_naive`; when the range
lies inside the address space, exactly the bytes of `[dst, dst + len)` become
`val & 0xFF` and every byte outside that range is unchanged. -/
theorem memset_refines_naive (m : Mem) (dst val len : Nat) (hdst : dst < 2 ^ 64)
    (hlen : len < 2 ^ 64) :
    memset m dst val len = memset_naive m dst val len ∧
    (dst + len ≤ 2 ^ 64 →
      ∀ x, memset m dst val len x = if dst ≤ x ∧ x < dst + len then val &&& 0xFF else m x) := by
  have hv : val &&& 0xFF = val % 256 := by
    have := Nat.and_pow_two_sub_one_eq_mod val 8
    simpa using this
  have hk : ((val &&& 0xFF) * ((2 ^ 64 - 1) / 255)) % 2 ^ 64 =
      (val % 256) * 0x0101010101010101 := by
    rw [hv]
    have : val % 256 < 256 := Nat.mod_lt _ (by norm_num)
    omega
  have hmain : memset m dst val len = memset_naive m dst val len := by
    rw [memset_naive_eq_bytes]
    unfold memset
    simp only [hk]
    by_cases hl : len ≥ 16
    · rw [if_pos hl]
      have hk8 : (8 - dst % 8) % 8 ≤ 8 := by omega
      rw [memset_align_bytes val 8 m dst len hk8 (by omega) hlen hdst]
      simp only []
      generalize hka : (8 - dst % 8) % 8 = k at *
      rw [memset_words_bytes val _ _ _ _ (le_refl _) (by omega) (Nat.mod_lt _ (by norm_num))]
      simp only []
      generalize hja : 8 * ((len - k - 1) / 8) = j
      have hsplit : len = k + (j + (len - k - j)) := by omega
      conv_rhs => rw [hsplit]
      rw [memset_bytes_add val k _ m dst hdst,
        memset_bytes_add val j _ _ _ (Nat.mod_lt _ (by norm_num))]
    · rw [if_neg hl]
  refine ⟨hmain, ?_⟩
  intro hr x
  rw [memset_spec m dst val len hr hlen, hv]
  rfl

/-- Witness of `memset_refines_naive`: twenty bytes from the unaligned address
`0x1003` on. -/
theorem memset_refines_naive_witness :
    memset (fun _ => 0) 0x1003 0xAB 20 = memset_naive (fun _ => 0) 0x1003 0xAB 20 ∧
    (0x1003 + 20 ≤ 2 ^ 64 →
      ∀ x, memset (fun _ => 0) 0x1003 0xAB 20 x =
        if 0x1003 ≤ x ∧ x < 0x1003 + 20 then 0xAB &&& 0xFF else (fun _ => 0) x) :=
  memset_refines_naive (fun _ => 0) 0x1003 0xAB 20 (by norm_num) (by norm_num)

/-! ## The lock word -/

/-- C31 fails on the code: `lock()` compares a local that it has just set to 0
with 0 and leaves its loop in the first round; it neither reads nor writes the
lock word.  On a free lock the word is still 0 after `lock()`, a second `lock()`
returns as well without any `release()` in between, and `lock()` on a held lock
(word 1) returns too.  `release()` does leave the word 0. -/
theorem spinlock_lock_leaves_word (s : heap_state) :
    (spinlock_lock { s with kmalloc_lock := 0 }).kmalloc_lock = 0 ∧
    (spinlock_lock (spinlock_lock { s with kmalloc_lock := 0 })).kmalloc_lock = 0 ∧
    (spinlock_lock { s with kmalloc_lock := 1 }).kmalloc_lock = 1 ∧
    (spinlock_release s).kmalloc_lock = 0 :=
  ⟨rfl, rfl, rfl, rfl⟩

/-! ## Task states and saved frames across switches -/

theorem schedule_from_interrupt_cases (s : sched_state) (ctx : interrupt_context) :
    schedule_from_interrupt s ctx = (s, ctx) ∨
    ∃ n, n ≠ s.current_task ∧ (s.tasks n).state = task_state_t.TASK_READY ∧
      schedule_from_interrupt s ctx = switch_from_interrupt s ctx n := by
  unfold schedule_from_interrupt
  by_cases hr : s.scheduler_ready = true
  swap
  · left; simp [hr]
  have hnr : ¬ ((!s.scheduler_ready) = true) := by simp [hr]
  rw [if_neg hnr]
  by_cases h1 : s.current_task = 0
  · left; rw [if_pos h1]
  rw [if_neg h1]
  by_cases h2 : s.task_queue = 0
  · left; rw [if_pos h2]
  rw [if_neg h2]
  simp only []
  generalize (if (s.tasks s.current_task).next = 0 then s.task_queue
    else (s.tasks s.current_task).next) = n
  by_cases h3 : n = 0
  · left; rw [if_pos h3]
  rw [if_neg h3]
  by_cases h4 : n ≠ s.current_task ∧ (s.tasks n).state = task_state_t.TASK_READY
  · right
    rw [if_pos h4]
    refine ⟨n, h4.1, h4.2, ?_⟩
    unfold switch_from_interrupt
    rfl
  · left; rw [if_neg h4]

theorem switch_from_interrupt_other (s : sched_state) (ctx : interrupt_context) (n p : Nat)
    (h1 : p ≠ s.current_task) (h2 : p ≠ n) :
    (switch_from_interrupt s ctx n).1.tasks p = s.tasks p := by
  unfold switch_from_interrupt
  simp only []
  split <;> simp [set_task, h1, h2]

theorem switch_from_interrupt_current (s : sched_state) (ctx : interrupt_context) (n : Nat)
    (h : n ≠ s.current_task) :
    (switch_from_interrupt s ctx n).1.current_task = n ∧
    (switch_from_interrupt s ctx n).1.tasks s.current_task =
      { s.tasks s.current_task with
        context := save_interrupt_context ctx (s.tasks s.current_task).context,
        state := task_state_t.TASK_READY } := by
  have h2 : s.current_task ≠ n := fun e => h e.symm
  refine ⟨rfl, ?_⟩
  unfold switch_from_interrupt
  simp only []
  split <;> simp [set_task, h, h2]

theorem switch_from_interrupt_frame (s : sched_state) (ctx : interrupt_context) (n : Nat)
    (h : n ≠ s.current_task) :
    (switch_from_interrupt s ctx n).2 =
      restore_interrupt_context
        (if (s.tasks n).context.rax = 0xDEADBEEF then { (s.tasks n).context with rax := 0 }
          else (s.tasks n).context) ctx := by
  unfold switch_from_interrupt
  simp only []
  by_cases hm : (s.tasks n).context.rax = 0xDEADBEEF
  · simp [set_task, h, hm]
  · simp [set_task, h, hm]

/-- While a task `a` is neither the current task nor switched to, timer
interrupts leave its saved context as it is. -/
theorem run_interrupts_context (a : Nat) : ∀ (l : List interrupt_context) (s : sched_state),
    (∀ k, k ≤ l.length → (run_interrupts s (l.take k)).current_task ≠ a) →
    ((run_interrupts s l).tasks a).context = (s.tasks a).context := by
  intro l
  induction l with
  | nil => intro s _; rfl
  | cons c l ih =>
    intro s h
    have h0 : s.current_task ≠ a := h 0 (Nat.zero_le _)
    have h1 : (schedule_from_interrupt s c).1.current_task ≠ a := h 1 (by simp)
    rw [run_interrupts, ih _ (fun k hk => h (k + 1) (by simpa using hk))]
    rcases schedule_from_interrupt_cases s c with e | ⟨n, _, _, e⟩
    · rw [e]
    · rw [e] at h1 ⊢
      rw [switch_from_interrupt_other s c n a (fun e => h0 e.symm)
        (fun e => h1 (by rw [e]; rfl))]

/-- C35 (amended): `schedule_from_interrupt` and `schedule` leave the state of
every task other than `current_task` that is Terminated or Blocked as it is, and
never switch to such a task; the task they switch away from is set to Ready
whatever its state was. -/
theorem schedule_keeps_state_of_others (s : sched_state) (ctx : interrupt_context) (p : Nat)
    (hp : p ≠ s.current_task)
    (hst : (s.tasks p).state = task_state_t.TASK_TERMINATED ∨
      (s.tasks p).state = task_state_t.TASK_BLOCKED) :
    ((schedule_from_interrupt s ctx).1.tasks p).state = (s.tasks p).state ∧
    ((schedule s).tasks p).state = (s.tasks p).state ∧
    (schedule_from_interrupt s ctx).1.current_task ≠ p ∧
    (schedule s).current_task ≠ p ∧
    ((schedule_from_interrupt s ctx).1.current_task ≠ s.current_task →
      ((schedule_from_interrupt s ctx).1.tasks s.current_task).state =
        task_state_t.TASK_READY) ∧
    ((schedule s).current_task ≠ s.current_task →
      ((schedule s).tasks s.current_task).state = task_state_t.TASK_READY) := by
  have hnr : (s.tasks p).state ≠ task_state_t.TASK_READY := by
    rcases hst with h | h <;> rw [h] <;> decide
  have hA : ((schedule_from_interrupt s ctx).1.tasks p).state = (s.tasks p).state ∧
      (schedule_from_interrupt s ctx).1.current_task ≠ p ∧
      ((schedule_from_interrupt s ctx).1.current_task ≠ s.current_task →
        ((schedule_from_interrupt s ctx).1.tasks s.current_task).state =
          task_state_t.TASK_READY) := by
    rcases schedule_from_interrupt_cases s ctx with e | ⟨n, hn, hready, e⟩
    · rw [e]
      exact ⟨rfl, fun h => hp h.symm, fun h => absurd rfl h⟩
    · have hpn : p ≠ n := fun h => hnr (by rw [h]; exact hready)
      rw [e, switch_from_interrupt_other s ctx n p hp hpn]
      obtain ⟨c1, c2⟩ := switch_from_interrupt_current s ctx n hn
      refine ⟨rfl, by rw [c1]; exact fun h => hpn h.symm, fun _ => by rw [c2]⟩
  have hB : ((schedule s).tasks p).state = (s.tasks p).state ∧
      (schedule s).current_task ≠ p ∧
      ((schedule s).current_task ≠ s.current_task →
        ((schedule s).tasks s.current_task).state = task_state_t.TASK_READY) := by
    unfold schedule
    by_cases h1 : s.current_task = 0 ∨ s.task_queue = 0
    · rw [if_pos h1]
      exact ⟨rfl, fun h => hp h.symm, fun h => absurd rfl h⟩
    rw [if_neg h1]
    simp only []
    generalize (if (s.tasks s.current_task).next = 0 then s.task_queue
      else (s.tasks s.current_task).next) = n
    by_cases h4 : n ≠ s.current_task ∧ (s.tasks n).state = task_state_t.TASK_READY
    · rw [if_pos h4]
      have hpn : p ≠ n := fun h => hnr (by rw [h]; exact h4.2)
      have hcn : s.current_task ≠ n := fun h => h4.1 h.symm
      refine ⟨?_, fun h => hpn h.symm, fun _ => ?_⟩
      · simp [set_task, hp, hpn]
      · simp [set_task, hcn]
    · rw [if_neg h4]
      exact ⟨rfl, fun h => hp h.symm, fun h => absurd rfl h⟩
  exact ⟨hA.1, hB.1, hA.2.1, hB.2.1, hA.2.2, hB.2.2⟩

/-- Witness of `schedule_keeps_state_of_others`: in the ring of two tasks the
task at `0x2000`, which is not current, is Terminated. -/
theorem schedule_keeps_state_of_others_witness :
    ((schedule_from_interrupt (sched_ring_two_state 0x2000 task_state_t.TASK_TERMINATED)
      frame_example).1.tasks 0x2000).state =
      ((sched_ring_two_state 0x2000 task_state_t.TASK_TERMINATED).tasks 0x2000).state ∧
    ((schedule (sched_ring_two_state 0x2000 task_state_t.TASK_TERMINATED)).tasks 0x2000).state =
      ((sched_ring_two_state 0x2000 task_state_t.TASK_TERMINATED).tasks 0x2000).state ∧
    ((sched_ring_two_state 0x2000 task_state_t.TASK_TERMINATED).tasks 0x2000).state =
      task_state_t.TASK_TERMINATED :=
  have h := schedule_keeps_state_of_others
    (sched_ring_two_state 0x2000 task_state_t.TASK_TERMINATED) frame_example 0x2000
    (by decide) (Or.inl (by decide))
  ⟨h.1, h.2.1, by decide⟩

/-- C35 fails as stated: in the ring of two tasks with the current task at
`0x1000` Terminated and the task at `0x2000` Ready, `schedule_from_interrupt` and
`schedule` switch and set the task at `0x1000` to Ready; the same happens to a
Blocked current task. -/
theorem schedule_sets_terminated_ready :
    ((sched_ring_two_state 0x1000 task_state_t.TASK_TERMINATED).tasks 0x1000).state =
      task_state_t.TASK_TERMINATED ∧
    ((schedule_from_interrupt (sched_ring_two_state 0x1000 task_state_t.TASK_TERMINATED)
      frame_example).1.tasks 0x1000).state = task_state_t.TASK_READY ∧
    ((schedule (sched_ring_two_state 0x1000 task_state_t.TASK_TERMINATED)).tasks 0x1000).state =
      task_state_t.TASK_READY ∧
    ((sched_ring_two_state 0x1000 task_state_t.TASK_BLOCKED).tasks 0x1000).state =
      task_state_t.TASK_BLOCKED ∧
    ((schedule_from_interrupt (sched_ring_two_state 0x1000 task_state_t.TASK_BLOCKED)
      frame_example).1.tasks 0x1000).state = task_state_t.TASK_READY ∧
    ((schedule (sched_ring_two_state 0x1000 task_state_t.TASK_BLOCKED)).tasks 0x1000).state =
      task_state_t.TASK_READY := by
  decide

/-- C37 (amended): when `schedule_from_interrupt` switches away from task `A`
with incoming frame `F` and, after any number of timer interrupts during which
`A` is not current, a later call with frame `G` switches back to `A`, the frame
written on that call has the 14 general registers other than `rax`, `rip`, `rsp`
and `rflags` of `F`; `rax` is that of `F` unless it is `0xDEADBEEF`, in which
case it is 0; `cs` and `ss` are those of `F` modulo `2 ^ 16`; `int_no` and `err`
are those of `G`. -/
theorem schedule_from_interrupt_round_trip (s : sched_state) (F G : interrupt_context)
    (l : List interrupt_context)
    (haway : (schedule_from_interrupt s F).1.current_task ≠ s.current_task)
    (hbetween : ∀ k, k ≤ l.length →
      (run_interrupts (schedule_from_interrupt s F).1 (l.take k)).current_task ≠ s.current_task)
    (hback : (schedule_from_interrupt (run_interrupts (schedule_from_interrupt s F).1 l)
      G).1.current_task = s.current_task) :
    (schedule_from_interrupt (run_interrupts (schedule_from_interrupt s F).1 l) G).2 =
      { regs := { F.regs with rax := if F.regs.rax = 0xDEADBEEF then 0 else F.regs.rax },
        int_no := G.int_no, err := G.err, rip := F.rip, cs := F.cs % 2 ^ 16,
        rflags := F.rflags, rsp := F.rsp, ss := F.ss % 2 ^ 16 } := by
  have hctx := run_interrupts_context s.current_task l _ hbetween
  have hlast := hbetween l.length (le_refl _)
  rw [List.take_length] at hlast
  generalize run_interrupts (schedule_from_interrupt s F).1 l = s2 at hctx hlast hback ⊢
  -- the saved context of A
  have hsave : ((schedule_from_interrupt s F).1.tasks s.current_task).context =
      save_interrupt_context F (s.tasks s.current_task).context := by
    rcases schedule_from_interrupt_cases s F with e | ⟨n, hn, _, e⟩
    · rw [e] at haway; exact absurd rfl haway
    · rw [e, (switch_from_interrupt_current s F n hn).2]
  rw [hsave] at hctx
  rcases schedule_from_interrupt_cases s2 G with e | ⟨n, hn, _, e⟩
  · rw [e] at hback; exact absurd hback hlast
  · rw [e] at hback ⊢
    have hn2 : n = s.current_task := by
      rw [← hback]; exact (switch_from_interrupt_current s2 G n hn).1.symm
    rw [switch_from_interrupt_frame s2 G n hn, hn2, hctx]
    by_cases hm : F.regs.rax = 0xDEADBEEF
    · simp [save_interrupt_context, restore_interrupt_context, hm]
    · simp [save_interrupt_context, restore_interrupt_context, hm]

/-- Witness of `schedule_from_interrupt_round_trip`: in the ring of two tasks
the first interrupt switches from the task at `0x1000` to the task at `0x2000`
and the next one switches back. -/
theorem schedule_from_interrupt_round_trip_witness :
    (schedule_from_interrupt (run_interrupts (schedule_from_interrupt sched_ring_two
      frame_example).1 []) frame_example).2 =
      { regs := { frame_example.regs with
          rax := if frame_example.regs.rax = 0xDEADBEEF then 0 else frame_example.regs.rax },
        int_no := frame_example.int_no, err := frame_example.err, rip := frame_example.rip,
        cs := frame_example.cs % 2 ^ 16, rflags := frame_example.rflags,
        rsp := frame_example.rsp, ss := frame_example.ss % 2 ^ 16 } :=
  schedule_from_interrupt_round_trip sched_ring_two frame_example frame_example []
    (by decide)
    (by
      intro k hk
      have hk0 : k = 0 := by simpa using hk
      subst hk0
      decide)
    (by decide)

/-- C37 fails as stated: in the ring of two tasks, the task at `0x1000` is
switched away from with a frame whose `rax` is `0xDEADBEEF`, whose `cs` is
`0x10008` and whose `ss` is `0x10010`; when the next interrupt switches back to
it, the frame written has `rax = 0`, `cs = 0x0008` and `ss = 0x0010`. -/
theorem schedule_from_interrupt_loses_marker_rax :
    (schedule_from_interrupt sched_ring_two frame_marker).1.current_task = 0x2000 ∧
    (schedule_from_interrupt (schedule_from_interrupt sched_ring_two frame_marker).1
      frame_example).1.current_task = 0x1000 ∧
    (schedule_from_interrupt (schedule_from_interrupt sched_ring_two frame_marker).1
      frame_example).2.regs.rax = 0 ∧
    (schedule_from_interrupt (schedule_from_interrupt sched_ring_two frame_marker).1
      frame_example).2.cs = 0x0008 ∧
    (schedule_from_interrupt (schedule_from_interrupt sched_ring_two frame_marker).1
      frame_example).2.ss = 0x0010 ∧
    frame_marker.regs.rax = 0xDEADBEEF ∧ frame_marker.cs = 0x10008 ∧
    frame_marker.ss = 0x10010 := by
  decide

/-! ## The interrupt descriptor table -/

theorem halt_cpu_none : ∀ fuel, halt_cpu fuel = none := by
  intro fuel
  induction fuel with
  | zero => rfl
  | succ n ih => rw [halt_cpu, ih]

theorem init_idt_loop_spec (handlers : Nat → Nat) : ∀ (fuel i : Nat) (t : Nat → idt_entry_t),
    i + fuel = 256 → ∀ v, v < 256 →
    init_idt_loop handlers fuel i t v =
      if i ≤ v then
        { offset_lo := handlers v % 2 ^ 64 % 2 ^ 16, selector := 0x08, ist := 0,
          type_attr := 0x8e, offset_mid := ((handlers v % 2 ^ 64) >>> 16) % 2 ^ 16,
          offset_hi := ((handlers v % 2 ^ 64) >>> 32) % 2 ^ 32, zero := 0 }
      else t v := by
  intro fuel
  induction fuel with
  | zero =>
    intro i t hi v hv
    rw [init_idt_loop, if_neg (by omega)]
  | succ n ih =>
    intro i t hi v hv
    rw [init_idt_loop, if_pos (by omega), ih _ _ (by omega) v hv]
    by_cases h1 : i + 1 ≤ v
    · rw [if_pos h1, if_pos (by omega)]
    · rw [if_neg h1]
      by_cases h2 : i ≤ v
      · have e : v = i := by omega
        subst e
        rw [if_pos h2]
        simp [register_interrupt_handler]
      · rw [if_neg h2]
        have e : v ≠ i := by omega
        simp [register_interrupt_handler, e]

theorem offset_reassemble (p : Nat) (hp : p < 2 ^ 64) :
    p % 2 ^ 16 ||| ((p >>> 16) % 2 ^ 16) <<< 16 ||| ((p >>> 32) % 2 ^ 32) <<< 32 = p := by
  apply Nat.eq_of_testBit_eq
  intro j
  simp only [Nat.testBit_or, Nat.testBit_shiftLeft, Nat.testBit_mod_two_pow,
    Nat.testBit_shiftRight]
  by_cases h1 : j < 16
  · simp [h1, show ¬ 16 ≤ j by omega, show ¬ 32 ≤ j by omega]
  · by_cases h2 : j < 32
    · have e : 16 + (j - 16) = j := by omega
      simp [h1, show 16 ≤ j by omega, show ¬ 32 ≤ j by omega, show j - 16 < 16 by omega, e]
    · by_cases h3 : j < 64
      · have e : 32 + (j - 32) = j := by omega
        simp [h1, show 16 ≤ j by omega, show 32 ≤ j by omega, show ¬ j - 16 < 16 by omega,
          show j - 32 < 32 by omega, e]
      · have hz : p.testBit j = false :=
          Nat.testBit_lt_two_pow (Nat.lt_of_lt_of_le hp
            (Nat.pow_le_pow_right (by norm_num) (by omega)))
        simp [h1, show 16 ≤ j by omega, show 32 ≤ j by omega, show ¬ j - 16 < 16 by omega,
          show ¬ j - 32 < 32 by omega, hz]

/-- C36: after `init_idt`, for every vector `v` below 256 the entry `v` of
`idt_table` has `type_attr = 0x8E`, `ist = 0`, `selector = 0x08` and `zero = 0`,
its offset fields reassemble to the stub address
(`offset_lo | offset_mid << 16 | offset_hi << 32 = handlers[v]`) for every
64-bit address `handlers[v]`, and `callbacks[v]` is null.  The table `handlers`
of `idt_handlers.h` is a parameter; the array `callbacks` lies inside the
address space. -/
theorem init_idt_entries (handlers : Nat → Nat) (idt_table_addr callbacks : Nat)
    (s : idt_state) (v : Nat) (hv : v < 256) (hh : handlers v < 2 ^ 64)
    (hcb : callbacks + 256 * 8 ≤ 2 ^ 64) :
    ((init_idt handlers idt_table_addr callbacks s).idt_table v).type_attr = 0x8E ∧
    ((init_idt handlers idt_table_addr callbacks s).idt_table v).ist = 0 ∧
    ((init_idt handlers idt_table_addr callbacks s).idt_table v).selector = 0x08 ∧
    ((init_idt handlers idt_table_addr callbacks s).idt_table v).zero = 0 ∧
    ((init_idt handlers idt_table_addr callbacks s).idt_table v).offset_lo |||
      ((init_idt handlers idt_table_addr callbacks s).idt_table v).offset_mid <<< 16 |||
      ((init_idt handlers idt_table_addr callbacks s).idt_table v).offset_hi <<< 32 =
        handlers v ∧
    read64 (init_idt handlers idt_table_addr callbacks s).mem (callbacks + 8 * v) = 0 := by
  have ht : (init_idt handlers idt_table_addr callbacks s).idt_table v =
      { offset_lo := handlers v % 2 ^ 64 % 2 ^ 16, selector := 0x08, ist := 0,
        type_attr := 0x8e, offset_mid := ((handlers v % 2 ^ 64) >>> 16) % 2 ^ 16,
        offset_hi := ((handlers v % 2 ^ 64) >>> 32) % 2 ^ 32, zero := 0 } := by
    unfold init_idt
    simp only []
    rw [init_idt_loop_spec handlers 256 0 _ rfl v hv, if_pos (Nat.zero_le _)]
  rw [ht]
  refine ⟨rfl, rfl, rfl, rfl, ?_, ?_⟩
  · simp only [Nat.mod_eq_of_lt hh]
    exact offset_reassemble _ hh
  · unfold init_idt
    simp only []
    rw [memset_spec _ _ _ _ hcb (by norm_num)]
    exact read64_fill_zero _ _ _ _ (by omega) (by omega)

/-- Witness of `init_idt_entries`: vector 33 with stubs at
`0xFFFFFFFF80100000 + 16 * v` and `callbacks` at `0x6000`. -/
theorem init_idt_entries_witness :
    ((init_idt (fun v => 0xFFFFFFFF80100000 + 16 * v) 0x5000 0x6000 idt_zero).idt_table
      33).type_attr = 0x8E ∧
    ((init_idt (fun v => 0xFFFFFFFF80100000 + 16 * v) 0x5000 0x6000 idt_zero).idt_table
      33).offset_lo |||
      ((init_idt (fun v => 0xFFFFFFFF80100000 + 16 * v) 0x5000 0x6000 idt_zero).idt_table
        33).offset_mid <<< 16 |||
      ((init_idt (fun v => 0xFFFFFFFF80100000 + 16 * v) 0x5000 0x6000 idt_zero).idt_table
        33).offset_hi <<< 32 = 0xFFFFFFFF80100000 + 16 * 33 ∧
    read64 (init_idt (fun v => 0xFFFFFFFF80100000 + 16 * v) 0x5000 0x6000 idt_zero).mem
      (0x6000 + 8 * 33) = 0 :=
  have h := init_idt_entries (fun v => 0xFFFFFFFF80100000 + 16 * v) 0x5000 0x6000 idt_zero 33
    (by norm_num) (by norm_num) (by norm_num)
  ⟨h.1, h.2.2.2.2.1, h.2.2.2.2.2⟩

/-- The loop of `print_stacktrace` ends in one of three ways: it is still
running, it has ended, or it has run into a page fault at an address that
cannot be read. -/
theorem print_stacktrace_loop_result (readable : Nat → Bool) (m : Mem) :
    ∀ (fuel rip rbp : Nat) (out : List console_event),
      (print_stacktrace_loop readable m fuel rip rbp out).2 = none ∨
      (print_stacktrace_loop readable m fuel rip rbp out).2 = some (Except.ok ()) ∨
      ∃ a, (print_stacktrace_loop readable m fuel rip rbp out).2 = some (Except.error a) ∧
        readable a = false := by
  intro fuel
  induction fuel with
  | zero => intro rip rbp out; left; rfl
  | succ n ih =>
    intro rip rbp out
    rw [print_stacktrace_loop]
    by_cases h0 : rbp ≠ 0
    · rw [if_pos h0]
      by_cases h1 : readable ((rbp + 8) % 2 ^ 64) = true
      · rw [if_pos h1]
        by_cases h2 : readable rbp = true
        · rw [if_pos h2]
          exact ih _ _ _
        · rw [if_neg h2]
          right; right
          exact ⟨rbp, rfl, Bool.eq_false_iff.2 h2⟩
      · rw [if_neg h1]
        right; right
        exact ⟨_, rfl, Bool.eq_false_iff.2 h1⟩
    · rw [if_neg h0]
      right; left; rfl

/-- On a readable chain of `d` frames that ends in a null pointer the loop of
`print_stacktrace` ends within `d + 1` rounds, having printed the lines of the
`d` frames. -/
theorem print_stacktrace_loop_chain (readable : Nat → Bool) (m : Mem) :
    ∀ (d fuel rip rbp : Nat) (out : List console_event),
      frame_chain readable m d rbp = true → d < fuel →
      print_stacktrace_loop readable m fuel rip rbp out =
        (out ++ trace_lines m d rip rbp, some (Except.ok ())) := by
  intro d
  induction d with
  | zero =>
    intro fuel rip rbp out hc hf
    obtain ⟨n, rfl⟩ : ∃ n, fuel = n + 1 := ⟨fuel - 1, by omega⟩
    rw [frame_chain, decide_eq_true_eq] at hc
    rw [print_stacktrace_loop, if_neg (by simp [hc]), trace_lines, List.append_nil]
  | succ k ih =>
    intro fuel rip rbp out hc hf
    obtain ⟨n, rfl⟩ : ∃ n, fuel = n + 1 := ⟨fuel - 1, by omega⟩
    rw [frame_chain] at hc
    simp only [Bool.and_eq_true, decide_eq_true_eq] at hc
    obtain ⟨⟨⟨h0, h1⟩, h2⟩, h3⟩ := hc
    rw [print_stacktrace_loop, if_pos h0, if_pos h1, if_pos h2, ih n _ _ _ h3 (by omega),
      trace_lines, List.append_assoc]
    rfl

/-- With no callback registered for its vector, `handle_interrupt` has not
returned after any number of rounds: it is still running, or `print_stacktrace`
has run into a page fault at an address that cannot be read. -/
theorem handle_interrupt_no_return (fuel : Nat)
    (call : Nat → interrupt_context → idt_state → Option (idt_state × interrupt_context))
    (readable : Nat → Bool) (callbacks cr2 : Nat) (s : idt_state) (ctx : interrupt_context)
    (hcb : read64 s.mem ((callbacks + 8 * ctx.int_no) % 2 ^ 64) = 0) :
    (handle_interrupt fuel call readable callbacks cr2 s ctx).2 = none ∨
      ∃ a, (handle_interrupt fuel call readable callbacks cr2 s ctx).2 =
          some (Except.error a) ∧ readable a = false := by
  have hne : ¬ read64 s.mem ((callbacks + 8 * ctx.int_no) % 2 ^ 64) ≠ 0 := fun h => h hcb
  unfold handle_interrupt
  simp only []
  rw [if_neg hne]
  unfold print_stacktrace
  simp only []
  rcases print_stacktrace_loop_result readable s.mem fuel ctx.rip ctx.regs.rbp
    [console_event.stack_trace_begin] with h | h | ⟨a, h, ha⟩
  · left
    simp only [h]
  · left
    simp only [h, halt_cpu_none, Option.map_none']
  · right
    exact ⟨a, by simp only [h], ha⟩

/-- C32 (amended): for every interrupt frame, of an IRQ or of an exception,
whose vector has no registered callback, `handle_interrupt` does not return:
it prints the interrupt line and walks the stack trace, and within no number
of rounds has it returned; it is still running, or `print_stacktrace` has run
into a page fault at an address it cannot read.  When the chain of saved frame
pointers from `ctx->regs.rbp` can be read and ends in a null pointer after `d`
frames, `print_stacktrace` returns within `d + 1` rounds with the whole trace
printed, and `handle_interrupt` then calls `halt_cpu`, which never returns. -/
theorem handle_interrupt_unhandled_halts (fuel : Nat)
    (call : Nat → interrupt_context → idt_state → Option (idt_state × interrupt_context))
    (readable : Nat → Bool) (callbacks cr2 : Nat) (s : idt_state) (ctx : interrupt_context)
    (hcb : read64 s.mem ((callbacks + 8 * ctx.int_no) % 2 ^ 64) = 0) :
    ((handle_interrupt fuel call readable callbacks cr2 s ctx).2 = none ∨
      ∃ a, (handle_interrupt fuel call readable callbacks cr2 s ctx).2 =
          some (Except.error a) ∧ readable a = false) ∧
    ∀ d, frame_chain readable s.mem d ctx.regs.rbp = true → d < fuel →
      print_stacktrace fuel readable s.mem ctx.rip ctx.regs.rbp =
        (console_event.stack_trace_begin :: trace_lines s.mem d ctx.rip ctx.regs.rbp ++
          [console_event.stack_trace_end], some (Except.ok ())) ∧
      handle_interrupt fuel call readable callbacks cr2 s ctx =
        (console_event.interrupt_line ctx.int_no cr2 :: (console_event.stack_trace_begin ::
          trace_lines s.mem d ctx.rip ctx.regs.rbp ++ [console_event.stack_trace_end]),
          (halt_cpu fuel).map (fun _ => Except.ok (s, ctx))) ∧
      halt_cpu fuel = none := by
  have hne : ¬ read64 s.mem ((callbacks + 8 * ctx.int_no) % 2 ^ 64) ≠ 0 := fun h => h hcb
  refine ⟨handle_interrupt_no_return fuel call readable callbacks cr2 s ctx hcb, ?_⟩
  intro d hc hf
  have hloop := print_stacktrace_loop_chain readable s.mem d fuel ctx.rip ctx.regs.rbp
    [console_event.stack_trace_begin] hc hf
  have hp : print_stacktrace fuel readable s.mem ctx.rip ctx.regs.rbp =
      (console_event.stack_trace_begin :: trace_lines s.mem d ctx.rip ctx.regs.rbp ++
        [console_event.stack_trace_end], some (Except.ok ())) := by
    unfold print_stacktrace
    simp only [hloop]
    rfl
  refine ⟨hp, ?_, halt_cpu_none fuel⟩
  unfold handle_interrupt
  simp only []
  rw [if_neg hne, hp]

set_option maxRecDepth 100000 in
/-- Witness of `handle_interrupt_unhandled_halts`: vector 33 with an empty
callback table at `0x6000` over zeroed, readable memory; the frame has
`rbp = 5`, and the word there is null, so the trace has one frame. -/
theorem handle_interrupt_unhandled_halts_witness :
    ((handle_interrupt 1000 call_nothing readable_all 0x6000 0 idt_zero frame_irq33).2 = none ∨
      ∃ a, (handle_interrupt 1000 call_nothing readable_all 0x6000 0 idt_zero frame_irq33).2 =
          some (Except.error a) ∧ readable_all a = false) ∧
    (print_stacktrace 1000 readable_all idt_zero.mem frame_irq33.rip frame_irq33.regs.rbp =
        (console_event.stack_trace_begin ::
          trace_lines idt_zero.mem 1 frame_irq33.rip frame_irq33.regs.rbp ++
          [console_event.stack_trace_end], some (Except.ok ())) ∧
      handle_interrupt 1000 call_nothing readable_all 0x6000 0 idt_zero frame_irq33 =
        (console_event.interrupt_line frame_irq33.int_no 0 :: (console_event.stack_trace_begin ::
          trace_lines idt_zero.mem 1 frame_irq33.rip frame_irq33.regs.rbp ++
          [console_event.stack_trace_end]),
          (halt_cpu 1000).map (fun _ => Except.ok (idt_zero, frame_irq33))) ∧
      halt_cpu 1000 = none) :=
  ⟨(handle_interrupt_unhandled_halts 1000 call_nothing readable_all 0x6000 0 idt_zero
      frame_irq33 (by decide)).1,
    (handle_interrupt_unhandled_halts 1000 call_nothing readable_all 0x6000 0 idt_zero
      frame_irq33 (by decide)).2 1 (by decide) (by decide)⟩

set_option maxRecDepth 100000 in
/-- C32 fails as stated: for the IRQ vector 33 with no registered callback, over
zeroed and readable memory, `handle_interrupt` prints the interrupt line and a
stack trace of one frame, and it has not returned after any number of rounds:
once the trace is printed it is in `halt_cpu`. -/
theorem handle_interrupt_irq_never_returns :
    32 ≤ frame_irq33.int_no ∧
    read64 idt_zero.mem ((0x6000 + 8 * frame_irq33.int_no) % 2 ^ 64) = 0 ∧
    (∀ fuel,
      (handle_interrupt fuel call_nothing readable_all 0x6000 0 idt_zero frame_irq33).2 = none) ∧
    (handle_interrupt 2 call_nothing readable_all 0x6000 0 idt_zero frame_irq33).1 =
      [console_event.interrupt_line 33 0, console_event.stack_trace_begin,
        console_event.rip_line 0x100000, console_event.rbp_line 5,
        console_event.stack_trace_end] := by
  have h : read64 idt_zero.mem ((0x6000 + 8 * frame_irq33.int_no) % 2 ^ 64) = 0 := by decide
  refine ⟨by decide, h, ?_, by decide⟩
  intro fuel
  rcases handle_interrupt_no_return fuel call_nothing readable_all 0x6000 0 idt_zero
    frame_irq33 h with e | ⟨a, _, ha⟩
  · exact e
  · exact absurd ha (by simp [readable_all])

/-- When the saved frame pointer at `0x7000` points at itself, the loop of
`print_stacktrace` started there has not ended after any number of rounds. -/
theorem print_stacktrace_loop_cyclic :
    ∀ (fuel rip : Nat) (out : List console_event),
      (print_stacktrace_loop readable_all idt_cyclic.mem fuel rip 0x7000 out).2 = none := by
  intro fuel
  induction fuel with
  | zero => intro rip out; rfl
  | succ n ih =>
    intro rip out
    have hr : read64 idt_cyclic.mem 0x7000 = 0x7000 := by decide
    have h1 : readable_all ((0x7000 + 8) % 2 ^ 64) = true := rfl
    have h2 : readable_all 0x7000 = true := rfl
    rw [print_stacktrace_loop, if_pos (by decide), if_pos h1, if_pos h2, hr]
    exact ih _ _

set_option maxRecDepth 100000 in
/-- The two ways in which `handle_interrupt` does not get as far as `halt_cpu`.
When the saved frame pointer at `rbp = 0x7000` points at itself, the loop of
`print_stacktrace` has not ended after any number of rounds.  When the word at
`rbp = 5` cannot be read, `print_stacktrace` prints the two lines of the first
frame and runs into a page fault at 5. -/
theorem print_stacktrace_never_ends_or_faults :
    (∀ fuel, (print_stacktrace fuel readable_all idt_cyclic.mem frame_irq33_stack.rip
        frame_irq33_stack.regs.rbp).2 = none) ∧
    (∀ fuel, (handle_interrupt fuel call_nothing readable_all 0x6000 0 idt_cyclic
        frame_irq33_stack).2 = none) ∧
    print_stacktrace 10 readable_but_5 idt_zero.mem frame_irq33.rip frame_irq33.regs.rbp =
      ([console_event.stack_trace_begin, console_event.rip_line 0x100000,
        console_event.rbp_line 5], some (Except.error 5)) ∧
    (handle_interrupt 10 call_nothing readable_but_5 0x6000 0 idt_zero frame_irq33).1 =
      [console_event.interrupt_line 33 0, console_event.stack_trace_begin,
        console_event.rip_line 0x100000, console_event.rbp_line 5] := by
  have hp : ∀ fuel, (print_stacktrace fuel readable_all idt_cyclic.mem frame_irq33_stack.rip
      frame_irq33_stack.regs.rbp).2 = none := by
    intro fuel
    have h := print_stacktrace_loop_cyclic fuel frame_irq33_stack.rip
      [console_event.stack_trace_begin]
    unfold print_stacktrace
    simp only []
    have hb : frame_irq33_stack.regs.rbp = 0x7000 := rfl
    rw [hb]
    simp only [h]
  refine ⟨hp, ?_, rfl, rfl⟩
  intro fuel
  have hcb : ¬ read64 idt_cyclic.mem ((0x6000 + 8 * frame_irq33_stack.int_no) % 2 ^ 64) ≠ 0 := by
    decide
  unfold handle_interrupt
  simp only []
  rw [if_neg hcb]
  simp only [hp fuel]

/-! ## The global descriptor table -/

theorem read8_write32_zero (m : Mem) (a k : Nat) (hk : k < 4) :
    read8 (write32 m a 0) (a + k) = 0 := by
  unfold write32 write16 write8 read8
  have h : k = 0 ∨ k = 1 ∨ k = 2 ∨ k = 3 := by omega
  rcases h with h | h | h | h <;> subst h <;> simp

/-- C40 fails on the code: `gdt` has six entries of 8 bytes, 48 bytes in all,
and `set_tss_entry(5, ...)` writes a 16-byte descriptor at offset 40: its
`reserved` field is stored at the offsets 52 to 55, past the end of the array,
whatever the memory held before (here `0xFF` at `gdt + 52` for the array at
`0x7000`).  `gdtp.limit + 1` is 64, while the five 8-byte descriptors and the
16-byte descriptor that were installed take 56 bytes. -/
theorem init_gdt_writes_past_gdt (s : gdt_state) (gdt tss : Nat) :
    SIZEOF_GDT = 48 ∧
    (∀ k, k < 4 → read8 (init_gdt s gdt tss).mem (gdt + 52 + k) = 0) ∧
    read8 gdt_ones.mem (0x7000 + 52) = 0xFF ∧
    read8 (init_gdt gdt_ones 0x7000 0x7030).mem (0x7000 + 52) = 0 ∧
    (init_gdt s gdt tss).gdtp_limit + 1 = 64 ∧
    5 * SIZEOF_GDT_ENTRY + SIZEOF_TSS_DESCRIPTOR = 56 := by
  have hg : ∀ (s : gdt_state) (gdt tss : Nat) k, k < 4 →
      read8 (init_gdt s gdt tss).mem (gdt + 52 + k) = 0 := by
    intro s gdt tss k hk
    unfold init_gdt set_tss_entry
    simp only []
    have e : gdt + 52 + k = gdt + SIZEOF_GDT_ENTRY * 5 + 12 + k := by
      unfold SIZEOF_GDT_ENTRY; omega
    rw [e]
    exact read8_write32_zero _ _ k hk
  refine ⟨by decide, hg s gdt tss, by decide, hg gdt_ones 0x7000 0x7030 0 (by decide),
    rfl, by decide⟩

/-! ## The split threshold of `kmalloc` -/

set_option maxRecDepth 1000000 in
theorem walks_wf_phys_mapped (v o : Nat)
    (hv : walk_nodes phys_mapped 0x1000 v = [(0x1000, []), (0x2000, [0]), (0x3000, [0, 0])] ∨
      walk_nodes phys_mapped 0x1000 v =
        [(0x1000, []), (0x2000, [0]), (0x3000, [0, 0]), (0x4000, [0, 0, 0])])
    (ho : walk_nodes phys_mapped 0x1000 o =
        [(0x1000, []), (0x2000, [0]), (0x3000, [0, 0]), (0x4000, [0, 0, 0])])
    (hh : pte_present (walk_p4 phys_mapped 0x1000 v) = true →
      pte_present (walk_p3 phys_mapped 0x1000 v) = true →
      pte_present (walk_p2 phys_mapped 0x1000 v) = true →
      pte_huge_page (walk_p2 phys_mapped 0x1000 v) = false) :
    walks_wf phys_mapped 0x1000 v o := by
  have hsub : ∀ x ∈ walk_nodes phys_mapped 0x1000 v ++ walk_nodes phys_mapped 0x1000 o,
      x = (0x1000, []) ∨ x = (0x2000, [0]) ∨ x = (0x3000, [0, 0]) ∨
        x = (0x4000, [0, 0, 0]) := by
    intro x hx
    rw [ho] at hx
    rcases hv with hv | hv <;> rw [hv] at hx <;>
      simp only [List.mem_append, List.mem_cons, List.mem_singleton, List.not_mem_nil,
        or_false] at hx <;> tauto
  refine ⟨⟨by decide, by decide, by decide⟩, ?_, ?_, hh⟩
  · intro x hx
    rcases hsub x hx with h | h | h | h <;> rw [h] <;>
      exact ⟨by decide, by decide, by decide, by decide⟩
  · intro x hx y hy
    rcases hsub x hx with h | h | h | h <;> rcases hsub y hy with k | k | k | k <;>
      rw [h, k] <;> decide

set_option maxRecDepth 1000000 in
theorem walks_wf_phys_example (v o : Nat)
    (hv : walk_nodes phys_example 0x1000 v = [(0x1000, [])])
    (ho : walk_nodes phys_example 0x1000 o = [(0x1000, [])])
    (hh : pte_present (walk_p4 phys_example 0x1000 v) = false) :
    walks_wf phys_example 0x1000 v o := by
  refine ⟨⟨by decide, by decide, by decide⟩, ?_, ?_, ?_⟩
  · intro x hx
    rw [hv, ho] at hx
    simp only [List.mem_append, List.mem_singleton, or_self] at hx
    rw [hx]
    exact ⟨by decide, by decide, by decide, by decide⟩
  · intro x hx y hy
    rw [hv, ho] at hx hy
    simp only [List.mem_append, List.mem_singleton, or_self] at hx hy
    rw [hx, hy]
    decide
  · intro h
    rw [hh] at h
    exact absurd h (by decide)

set_option maxRecDepth 1000000 in
/-- The frame property needs canonical addresses: `0x1000000005000` is not
canonical, lies in another 4 KiB page than `0x5000` and has the same four table
indices.  In the empty, well-formed address space of `phys_example` it is not
mapped, and after `map_page` of `0x5000` to the frame `0x400000` it translates
to `0x400000`; in `phys_mapped` it translates to `0x400000`, and after
`unmap_page` of `0x5000` it is not mapped. -/
theorem map_page_changes_page_with_same_indices :
    ¬ canonical 0x1000000005000 ∧
    0x1000000005000 / 4096 ≠ 0x5000 / 4096 ∧
    walks_wf phys_example 0x1000 0x5000 0x1000000005000 ∧
    virt_to_phys phys_example 0x1000 0x1000000005000 = NotMapped ∧
    (map_page phys_example 0x1000 0x400000 0x5000 (PT_PRESENT ||| PT_RW)).map
        (fun s1 => virt_to_phys s1 0x1000 0x1000000005000) = some 0x400000 ∧
    walks_wf phys_mapped 0x1000 0x5000 0x1000000005000 ∧
    virt_to_phys phys_mapped 0x1000 0x1000000005000 = 0x400000 ∧
    virt_to_phys (unmap_page phys_mapped 0x1000 0x5000) 0x1000 0x1000000005000 = NotMapped := by
  refine ⟨by unfold canonical; norm_num, by decide,
    walks_wf_phys_example _ _ (by decide) (by decide) (by decide), by decide,
    ?_, walks_wf_phys_mapped _ _ (Or.inr (by decide)) (by decide) (by decide), by decide,
    by decide⟩
  rw [map_page_eq_fill]
  decide

end DimensionOS
